import Mathlib

/-!
# Ant-colony task placement (`manager/scheduler/aco.go`, `aco_utils.go`)

A shallow embedding of the placement optimizer and of the properties its
specification states about it.

Modelling conventions.

* `int64` resource amounts are `Int`; every subtraction the source performs on
  them goes through `sub64`, which wraps modulo `2^64` like Go's `int64`.
* `float64` is `F64`: a finite number or one of `NaN`, `+Inf`, `-Inf`, with the
  IEEE-754 rules for the special values in arithmetic and comparisons.  The
  finite result of every conversion, addition, multiplication and division is
  rounded as binary64 does (`F64.round`: to nearest, ties to even, 53
  significant bits, subnormal numbers, overflow to an infinity).  The two zeros
  are one value, and a zero divisor is read as `+0`: the only divisors of the
  program are conversions of integers and the running sum `ph_sum`, which
  starts at `+0.0` and is never `-0`.
* `math.Pow` and the iteration order of Go's `range` over a map are not code of
  the repository; they are parameters (`Env`).
* The process-global random source is an explicit state `Rand`: the stream of
  values `rand.Float64()` returns and the stream `rand.Intn` reduces into its
  range, each with a read position.
* A Go `map[string]*api.Task` is the list of its entries; every function starts,
  as the source does, by sorting the keys.
* A run-time panic (index out of range) is the result `none`.
* Logging and the two `print` calls at the end of every ant (`print(TAU)`,
  `print(probTran(TAU))`) change no state and are left out.
-/

namespace Scheduler

/-! ## Constants -/

def MB : Int := 1024 * 1024

def GB : Int := 1024 * MB

def CORE : Int := 1000 * 1000 * 1000

def MEM_REF : Int := 16 * GB

def CPU_REF : Int := 4 * CORE

def PLAN_SIZE : Nat := 2048

/-! ## Machine numbers -/

/-- Two's-complement reduction of an integer into the `int64` range. -/
def wrapInt64 (x : Int) : Int := (x + 2 ^ 63) % 2 ^ 64 - 2 ^ 63

/-- Go's `a - b` on `int64`. -/
def sub64 (a b : Int) : Int := wrapInt64 (a - b)

/-- The values an `int64` holds. -/
def isInt64 (x : Int) : Prop := -(2 ^ 63) ≤ x ∧ x < 2 ^ 63

instance (x : Int) : Decidable (isInt64 x) := by
  unfold isInt64; exact inferInstance

/-- A `float64`: `NaN`, the two infinities, or a finite number.  The finite
results of the arithmetic below are rounded as IEEE 754 binary64 does (to
nearest, ties to even); the two zeros are one value. -/
inductive F64 where
  | nan
  | ninf
  | fin (q : ℚ)
  | pinf
deriving DecidableEq

namespace F64

def zero : F64 := fin 0

def one : F64 := fin 1

/-- The power `2^e` of two as a rational. -/
def pow2 (e : Int) : ℚ :=
  if 0 ≤ e then ((2 ^ e.toNat : Nat) : ℚ) else 1 / ((2 ^ (-e).toNat : Nat) : ℚ)

/-- The integer nearest to `x`, ties to the even one. -/
def rne (x : ℚ) : Int :=
  if x - ⌊x⌋ < 1 / 2 then ⌊x⌋
  else if 1 / 2 < x - ⌊x⌋ then ⌊x⌋ + 1
  else if ⌊x⌋ % 2 = 0 then ⌊x⌋ else ⌊x⌋ + 1

/-- The loop of `log2`: halve `n` until it is below `2`, at most `fuel` times. -/
def log2Loop : Nat → Nat → Nat
  | 0, _ => 0
  | fuel + 1, n => if 2 ≤ n then log2Loop fuel (n / 2) + 1 else 0

/-- The natural number `k` with `2^k ≤ n < 2^(k+1)`, for `n > 0`. -/
def log2 (n : Nat) : Nat := log2Loop n n

/-- The integer `k` with `2^k ≤ x < 2^(k+1)`, for `x > 0`. -/
def ilog2 (x : ℚ) : Int :=
  if pow2 ((log2 x.num.toNat : Int) - (log2 x.den : Int)) ≤ x then
    (log2 x.num.toNat : Int) - (log2 x.den : Int)
  else (log2 x.num.toNat : Int) - (log2 x.den : Int) - 1

/-- The exponent of the unit in the last place of a binary64 number of the
size of `x`: 53 significant bits, smallest exponent `-1022`. -/
def ulpExp (x : ℚ) : Int := max (ilog2 |x|) (-1022) - 52

/-- The binary64 number nearest to `x` (ties to even), were the exponent
unbounded above. -/
def rnd (x : ℚ) : ℚ :=
  if x = 0 then 0 else (rne (x / pow2 (ulpExp x)) : ℚ) * pow2 (ulpExp x)

/-- Rounding to `float64`: to nearest, ties to even, overflow to an infinity. -/
def round (x : ℚ) : F64 :=
  if pow2 1024 ≤ rnd x then pinf else if rnd x ≤ -pow2 1024 then ninf else fin (rnd x)

/-- Conversion `float64(x)` of an `int64`. -/
def ofInt (x : Int) : F64 := round (x : ℚ)

def neg : F64 → F64
  | nan => nan
  | ninf => pinf
  | fin q => fin (-q)
  | pinf => ninf

def add : F64 → F64 → F64
  | nan, _ => nan
  | _, nan => nan
  | pinf, ninf => nan
  | ninf, pinf => nan
  | pinf, _ => pinf
  | _, pinf => pinf
  | ninf, _ => ninf
  | _, ninf => ninf
  | fin a, fin b => round (a + b)

def sub (a b : F64) : F64 := add a (neg b)

/-- An infinity with the sign of `q` times the sign of the infinity `pos`;
`NaN` for `q = 0`. -/
def infTimes (pos : Bool) (q : ℚ) : F64 :=
  if q = 0 then nan else if (0 < q) = pos then pinf else ninf

def mul : F64 → F64 → F64
  | nan, _ => nan
  | _, nan => nan
  | pinf, pinf => pinf
  | ninf, ninf => pinf
  | pinf, ninf => ninf
  | ninf, pinf => ninf
  | pinf, fin q => infTimes true q
  | fin q, pinf => infTimes true q
  | ninf, fin q => infTimes false q
  | fin q, ninf => infTimes false q
  | fin a, fin b => round (a * b)

/-- Division; a zero divisor is `+0`. -/
def div : F64 → F64 → F64
  | nan, _ => nan
  | _, nan => nan
  | fin a, fin b =>
    if b = 0 then (if a = 0 then nan else if 0 < a then pinf else ninf) else round (a / b)
  | fin _, pinf => fin 0
  | fin _, ninf => fin 0
  | pinf, fin b => if 0 ≤ b then pinf else ninf
  | ninf, fin b => if 0 ≤ b then ninf else pinf
  | pinf, pinf => nan
  | pinf, ninf => nan
  | ninf, pinf => nan
  | ninf, ninf => nan

/-- Go's `a < b` on `float64`: false whenever an operand is `NaN`. -/
def lt : F64 → F64 → Bool
  | fin a, fin b => decide (a < b)
  | ninf, fin _ => true
  | ninf, pinf => true
  | fin _, pinf => true
  | _, _ => false

/-- Go's `a <= b` on `float64`: false whenever an operand is `NaN`. -/
def le : F64 → F64 → Bool
  | fin a, fin b => decide (a ≤ b)
  | ninf, ninf => true
  | ninf, fin _ => true
  | ninf, pinf => true
  | fin _, pinf => true
  | pinf, pinf => true
  | _, _ => false

/-- Go's `a == b` on `float64`: false whenever an operand is `NaN`. -/
def beq : F64 → F64 → Bool
  | fin a, fin b => decide (a = b)
  | ninf, ninf => true
  | pinf, pinf => true
  | _, _ => false

end F64

/-! ## Data model -/

/-- The two fields of `api.Resources` the optimizer reads. -/
structure Resources where
  MemoryBytes : Int
  NanoCPUs : Int
deriving DecidableEq

/-- A task, reduced to `task.Spec.Resources.Reservations`. -/
structure Task where
  Reservations : Resources
deriving DecidableEq

/-- A node: `Description.Resources` (the totals) and `AvailableResources`. -/
structure NodeInfo where
  Description : Resources
  AvailableResources : Resources
deriving DecidableEq

instance : Inhabited NodeInfo := ⟨⟨⟨0, 0⟩, ⟨0, 0⟩⟩⟩

instance : Inhabited Task := ⟨⟨⟨0, 0⟩⟩⟩

/-- The entries of a `map[string]*api.Task`. -/
abbrev TaskGroup := List (String × Task)

structure Config where
  Ants : Int
  Q : F64
  Rho : F64
  Alpha : F64
  Beta : F64

/-- The array `[PLAN_SIZE]int`, as the list of its entries. -/
abbrev Plan := List Int

/-- The zero value of `Plan` (`var plan Plan`). -/
def zeroPlan : Plan := List.replicate PLAN_SIZE 0

/-- The part of `matrix.DenseMatrix` the optimizer uses: its two dimensions and
its cells. -/
structure DenseMatrix where
  rows : Nat
  cols : Nat
  elements : Nat → Nat → F64

namespace DenseMatrix

def Zeros (rows cols : Nat) : DenseMatrix := ⟨rows, cols, fun _ _ => F64.zero⟩

def Get (m : DenseMatrix) (i j : Nat) : F64 := m.elements i j

def Set (m : DenseMatrix) (i j : Nat) (v : F64) : DenseMatrix :=
  { m with elements := fun a b => if a = i ∧ b = j then v else m.elements a b }

def Copy (m : DenseMatrix) : DenseMatrix := ⟨m.rows, m.cols, m.elements⟩

end DenseMatrix

/-- What the program takes from outside the repository: `math.Pow`, and the
order in which `range` walks the entries of the plan-count map. -/
structure Env where
  pow : F64 → F64 → F64
  mapOrder : List (Plan × Nat) → List (Plan × Nat)
  mapOrder_perm : ∀ l, (mapOrder l).Perm l

/-- The random source: `floats k` is the value of the `k`-th call of
`rand.Float64()`, a number of `[0, 1)`; `ints k` is the raw value the `k`-th
call of `rand.Intn(n)` reduces modulo `n`. -/
structure Rand where
  floats : Nat → ℚ
  ints : Nat → Nat
  fpos : Nat
  ipos : Nat
  floats_range : ∀ k, 0 ≤ floats k ∧ floats k < 1

namespace Rand

/-- The call `rand.Float64()`. -/
def Float64 (g : Rand) : F64 × Rand :=
  (F64.fin (g.floats g.fpos), { g with fpos := g.fpos + 1 })

/-- The call `rand.Intn(n)`, for `n > 0`. -/
def Intn (g : Rand) (n : Nat) : Nat × Rand :=
  (g.ints g.ipos % n, { g with ipos := g.ipos + 1 })

end Rand

/-! ## Canonical task order -/

/-- The keys of the map after `sort.Strings`. -/
def sortedKeys (taskGroup : TaskGroup) : List String :=
  (taskGroup.map Prod.fst).insertionSort (fun a b => a < b ∨ a = b)

/-- The map lookup `taskGroup[k]`. -/
def taskOf (taskGroup : TaskGroup) (k : String) : Task :=
  (taskGroup.lookup k).getD default

/-- The tasks in the order every loop of the source visits them: by sorted key. -/
def canonicalTasks (taskGroup : TaskGroup) : List Task :=
  (sortedKeys taskGroup).map (taskOf taskGroup)

/-! ## aco_utils.go -/

def arg_maxLoop : List F64 → Nat → F64 → Int → Int
  | [], _, _, max_i => max_i
  | item :: rest, i, max_val, max_i =>
    if F64.lt max_val item then arg_maxLoop rest (i + 1) item i
    else arg_maxLoop rest (i + 1) max_val max_i

def arg_max (items : List F64) : Int :=
  arg_maxLoop items 0 (F64.fin (-1)) (-1)

def pickLoop (p : F64) : List F64 → Nat → F64 → Int
  | [], _, _ => 0
  | item :: rest, i, cumulativeProbability =>
    if F64.le p (F64.add cumulativeProbability item) then i
    else pickLoop p rest (i + 1) (F64.add cumulativeProbability item)

def pick (items : List F64) (g : Rand) : Int × Rand :=
  ((pickLoop g.Float64.1 items 0 F64.zero), g.Float64.2)

/-- The exchange `slc[r], slc[i] = slc[i], slc[r]`. -/
def swap (slc : List Nat) (r i : Nat) : List Nat :=
  (slc.set r (slc.getD i 0)).set i (slc.getD r 0)

def shuffleLoop (N : Nat) : List Nat → List Nat × Rand → List Nat × Rand
  | [], st => st
  | i :: rest, (slc, g) =>
    shuffleLoop N rest (swap slc (i + (g.Intn (N - i)).1) i, (g.Intn (N - i)).2)

def shuffleInts (slc : List Nat) (g : Rand) : List Nat × Rand :=
  shuffleLoop slc.length (List.range slc.length) (slc, g)

/-! ## aco.go -/

def W_c : F64 := F64.fin (1 / 2)

def W_m : F64 := F64.fin (1 / 2)

def P (n : NodeInfo) : F64 :=
  let e := F64.zero
  let R_c := F64.div (F64.ofInt n.AvailableResources.NanoCPUs) (F64.ofInt n.Description.NanoCPUs)
  let R_m := F64.div (F64.ofInt n.AvailableResources.MemoryBytes)
    (F64.ofInt n.Description.MemoryBytes)
  F64.add (F64.mul W_c (F64.add R_c e)) (F64.mul W_m (F64.add R_m e))

/-- The two statements that subtract a task's reservation from a node's
available resources (they occur four times in the source). -/
def debit (node : NodeInfo) (task : Task) : NodeInfo :=
  { node with
    AvailableResources :=
      { MemoryBytes := sub64 node.AvailableResources.MemoryBytes task.Reservations.MemoryBytes
        NanoCPUs := sub64 node.AvailableResources.NanoCPUs task.Reservations.NanoCPUs } }

/-- The pre-fill loop of `greedyInit`, one row. -/
def fillRow (nodes : List NodeInfo) (i : Nat) (TAU : DenseMatrix) : DenseMatrix :=
  (List.range TAU.cols).foldl
    (fun m j => if F64.beq (m.Get i j) F64.zero then m.Set i j (P (nodes.getD j default)) else m)
    TAU

/-- The pre-fill loop of `greedyInit`. -/
def fillAll (nodes : List NodeInfo) (TAU : DenseMatrix) : DenseMatrix :=
  (List.range TAU.rows).foldl (fun m i => fillRow nodes i m) TAU

/-- The round-robin loop of `greedyInit`; `nodes[col]` panics on an empty node
vector. -/
def greedyLoop :
    List Task → Nat → Nat → DenseMatrix → List NodeInfo → Option (DenseMatrix × List NodeInfo)
  | [], _, _, TAU, nodes => some (TAU, nodes)
  | task :: rest, row, col, TAU, nodes =>
    match nodes[col]? with
    | none => none
    | some node =>
      greedyLoop rest (row + 1) ((col + 1) % nodes.length)
        (TAU.Set row col (P (debit node task))) (nodes.set col (debit node task))

/-- The matrix `greedyInit` returns, with the node vector as it leaves it (the
slice is the caller's, debited in place). -/
def greedyInit (taskGroup : TaskGroup) (nodes : List NodeInfo) :
    Option (DenseMatrix × List NodeInfo) :=
  greedyLoop (canonicalTasks taskGroup) 0 0
    (fillAll nodes (DenseMatrix.Zeros taskGroup.length nodes.length)) nodes

def taskFitsNode (task : Task) (node : NodeInfo) : Bool :=
  let t := task.Reservations
  let n := node.AvailableResources
  decide (n.MemoryBytes ≥ t.MemoryBytes) && decide (n.NanoCPUs ≥ t.NanoCPUs)

def applyPlanLoop (plan : List Int) : List Task → Nat → List NodeInfo → Option (List NodeInfo)
  | [], _, nodes => some nodes
  | task :: rest, plan_idx, nodes =>
    match plan[plan_idx]? with
    | none => none
    | some node_idx =>
      if 0 ≤ node_idx ∧ node_idx.toNat < nodes.length then
        applyPlanLoop plan rest (plan_idx + 1)
          (nodes.set node_idx.toNat (debit (nodes.getD node_idx.toNat default) task))
      else none

/-- Function `applyPlan`; `none` when `plan[plan_idx]` or `nodes[node_idx]` is out
of range. -/
def applyPlan (plan : List Int) (tasks : TaskGroup) (nodes : List NodeInfo) :
    Option (List NodeInfo) :=
  applyPlanLoop plan (canonicalTasks tasks) 0 nodes

/-- The snapshot `refResources` taken at the start of `Optimize`. -/
def snapshot (nodes : List NodeInfo) : List Resources :=
  nodes.map (fun node =>
    { MemoryBytes := node.AvailableResources.MemoryBytes
      NanoCPUs := node.AvailableResources.NanoCPUs })

/-- The reset loop at the start of every ant. -/
def resetNodes (refResources : List Resources) (nodes : List NodeInfo) : List NodeInfo :=
  (List.range refResources.length).foldl
    (fun ns n =>
      ns.set n
        { ns.getD n default with
          AvailableResources :=
            { MemoryBytes := (refResources.getD n ⟨0, 0⟩).MemoryBytes
              NanoCPUs := (refResources.getD n ⟨0, 0⟩).NanoCPUs } })
    nodes

/-- One round of the candidate scan (`for order := 0; ...`): the state is
`(ph, ph_sum)`.  The debit is made on `node`, a copy of `nodes[node_idx]`; the
slice `nodes` is not written. -/
def scanStep (env : Env) (config : Config) (TAU : DenseMatrix) (nodes : List NodeInfo)
    (task_idx : Nat) (task : Task) (st : List F64 × F64) (node_idx : Nat) : List F64 × F64 :=
  let node := nodes.getD node_idx default
  let tau := TAU.Get task_idx node_idx
  if taskFitsNode task node then
    let nu := P (debit node task)
    let ph := st.1.set node_idx (F64.mul (env.pow tau config.Alpha) (env.pow nu config.Beta))
    (ph, F64.add st.2 (ph.getD node_idx F64.zero))
  else st

/-- The candidate scan of one task: `(ph, ph_sum)` after the loop. -/
def scan (env : Env) (config : Config) (TAU : DenseMatrix) (nodes : List NodeInfo)
    (nodeOrders : List Nat) (task_idx : Nat) (task : Task) : List F64 × F64 :=
  nodeOrders.foldl (scanStep env config TAU nodes task_idx task)
    (List.replicate nodes.length F64.zero, F64.zero)

/-- The vector `p` of one task. -/
def probs (ph : List F64 × F64) : List F64 :=
  ph.1.map (fun x => F64.div x ph.2)

/-- The decision rule: `(j, random source after the draws)`. -/
def decide_j (config : Config) (p : List F64) (g : Rand) : Int × Rand :=
  if F64.le config.Q g.Float64.1 then (arg_max p, g.Float64.2) else pick p g.Float64.2

/-- The forward evaporation of row `task_idx` into row `task_idx + 1`. -/
def vaporize (config : Config) (TAU : DenseMatrix) (nodes : List NodeInfo) (task_idx j : Nat) :
    DenseMatrix :=
  ((List.range TAU.cols).foldl
      (fun m c =>
        m.Set (task_idx + 1) c (F64.mul (F64.sub F64.one config.Rho) (m.Get task_idx c)))
      TAU).Set
    (task_idx + 1) j (F64.mul (F64.sub F64.one config.Rho) (P (nodes.getD j default)))

/-- What one ant carries through its task loop. -/
structure AntState where
  TAU : DenseMatrix
  nodes : List NodeInfo
  plan : Plan
  rng : Rand

/-- The body of the task loop for the task `task` at index `task_idx`;
`T` is `len(taskNames)`. -/
def taskStep (env : Env) (config : Config) (nodeOrders : List Nat) (T : Nat) (st : AntState)
    (task_idx : Nat) (task : Task) : AntState :=
  let p := probs (scan env config st.TAU st.nodes nodeOrders task_idx task)
  let j := (decide_j config p st.rng).1
  let rng := (decide_j config p st.rng).2
  let plan := st.plan.set task_idx j
  if j < 0 then { st with plan := plan, rng := rng }
  else
    let TAU1 := st.TAU.Set task_idx j.toNat (P (st.nodes.getD j.toNat default))
    let TAU2 := if task_idx + 1 < T then vaporize config TAU1 st.nodes task_idx j.toNat else TAU1
    { TAU := TAU2
      nodes := st.nodes.set j.toNat (debit (st.nodes.getD j.toNat default) task)
      plan := plan
      rng := rng }

/-- The task loop of one ant over the tasks `tasks`, the first of them at index
`task_idx`. -/
def taskLoop (env : Env) (config : Config) (nodeOrders : List Nat) (T : Nat) :
    List Task → Nat → AntState → AntState
  | [], _, st => st
  | task :: rest, task_idx, st =>
    taskLoop env config nodeOrders T rest (task_idx + 1)
      (taskStep env config nodeOrders T st task_idx task)

/-- The tally `plans[plan]++` / `plans[plan] = 1`. -/
def tally (plans : List (Plan × Nat)) (plan : Plan) : List (Plan × Nat) :=
  match plans with
  | [] => [(plan, 1)]
  | (q, c) :: rest => if q = plan then (q, c + 1) :: rest else (q, c) :: tally rest plan

/-- What `Optimize` carries from ant to ant. -/
structure ColonyState where
  TAU : DenseMatrix
  nodes : List NodeInfo
  plans : List (Plan × Nat)
  rng : Rand

/-- The state of an ant when its task loop starts: nodes reset, node order
shuffled, plan zeroed. -/
def antStart (refResources : List Resources) (st : ColonyState) : List Nat × AntState :=
  let nodes := resetNodes refResources st.nodes
  let sh := shuffleInts (List.range nodes.length) st.rng
  (sh.1, { TAU := st.TAU, nodes := nodes, plan := zeroPlan, rng := sh.2 })

/-- The ant as it leaves its task loop. -/
def antRun (env : Env) (config : Config) (tasks : List Task) (refResources : List Resources)
    (st : ColonyState) : AntState :=
  taskLoop env config (antStart refResources st).1 tasks.length tasks 0
    (antStart refResources st).2

/-- The body of the loop over the ants. -/
def antStep (env : Env) (config : Config) (tasks : List Task) (refResources : List Resources)
    (st : ColonyState) : ColonyState :=
  let a := antRun env config tasks refResources st
  { TAU := a.TAU, nodes := a.nodes, plans := tally st.plans a.plan, rng := a.rng }

/-- The colony after `n` ants. -/
def antLoop (env : Env) (config : Config) (tasks : List Task) (refResources : List Resources) :
    Nat → ColonyState → ColonyState
  | 0, st => st
  | n + 1, st => antLoop env config tasks refResources n (antStep env config tasks refResources st)

/-- The plans the first `n` ants construct, in the order of the ants. -/
def antPlans (env : Env) (config : Config) (tasks : List Task) (refResources : List Resources) :
    Nat → ColonyState → List Plan
  | 0, _ => []
  | n + 1, st =>
    (antRun env config tasks refResources st).plan ::
      antPlans env config tasks refResources n (antStep env config tasks refResources st)

/-- The selection loop `for plan, count := range plans`: the state is
`(max, max_plan)`. -/
def selectMax (entries : List (Plan × Nat)) : Nat × Plan :=
  entries.foldl (fun acc e => if e.2 > acc.1 then (e.2, e.1) else acc) (0, zeroPlan)

/-- What a call of `Optimize` leaves behind. -/
structure Outcome where
  confidence : F64
  plan : List Int
  nodes : List NodeInfo
  TAU : DenseMatrix
  rng : Rand

/-- The colony when the loop over the ants starts. -/
def colonyStart (TAU_0 : DenseMatrix) (nodes : List NodeInfo) (g : Rand) : ColonyState :=
  { TAU := TAU_0.Copy, nodes := nodes, plans := [], rng := g }

/-- Function `Optimize`.  It panics when `greedyInit` does (no node, some task)
and when there are more than `PLAN_SIZE` tasks (`plan[task_idx]`, or the final
slice `max_plan[0:len(taskGroup)]`, is out of range). -/
def Optimize (env : Env) (g : Rand) (taskGroup : TaskGroup) (nodes : List NodeInfo)
    (config : Config) : Option Outcome :=
  let refResources := snapshot nodes
  match greedyInit taskGroup nodes with
  | none => none
  | some (TAU_0, nodes1) =>
    if PLAN_SIZE < taskGroup.length then none
    else
      let tasks := canonicalTasks taskGroup
      let colony := antLoop env config tasks refResources config.Ants.toNat
        (colonyStart TAU_0 nodes1 g)
      let best := selectMax (env.mapOrder colony.plans)
      some
        { confidence := F64.div (F64.ofInt best.1) (F64.ofInt config.Ants)
          plan := best.2.take taskGroup.length
          nodes := colony.nodes
          TAU := colony.TAU
          rng := colony.rng }

/-! ## Vocabulary of the statements -/

/-- A node debited by a list of tasks, one after the other. -/
def debitAll (node : NodeInfo) (tasks : List Task) : NodeInfo := tasks.foldl debit node

/-- The tasks a plan assigns to node `j`: the tasks `tasks[i]` with
`plan[i] = j`, in the order of the tasks. -/
def assignedTo (plan : List Int) (tasks : List Task) (j : Nat) : List Task :=
  ((tasks.zip plan).filter (fun tp => decide (tp.2 = (j : Int)))).map Prod.fst

/-- The summed memory reservations of a list of tasks. -/
def memSum (tasks : List Task) : Int := (tasks.map (fun t => t.Reservations.MemoryBytes)).sum

/-- The summed CPU reservations of a list of tasks. -/
def cpuSum (tasks : List Task) : Int := (tasks.map (fun t => t.Reservations.NanoCPUs)).sum

/-- The tasks at the indices `m` with `m % N = j`. -/
def rrOn (tasks : List Task) (N j : Nat) : List Task :=
  (tasks.enum.filter (fun mt => decide (mt.1 % N = j))).map Prod.snd

/-- The tasks the round-robin walk of `greedyInit` has debited from the node of
row `i` when it writes that row: the tasks at the indices `m ≤ i` with
`m % N = i % N`, in order. -/
def roundRobinTasks (tasks : List Task) (N i : Nat) : List Task :=
  rrOn (tasks.take (i + 1)) N (i % N)

/-- A plan entry that `Optimize` may produce for `N` nodes: the sentinel `-1` or
a node index. -/
def validEntry (N : Nat) (x : Int) : Prop := x = -1 ∨ (0 ≤ x ∧ x < N)

/-- The count the tally holds for a plan (`plans[plan]`, `0` when absent). -/
def countIn : List (Plan × Nat) → Plan → Nat
  | [], _ => 0
  | (p, c) :: rest, q => if p = q then c else countIn rest q

/-! ## Concrete runs -/

/-- Function `math.Pow` at the exponents `0` and `1`, where it is exact
(`Pow(x, 0) = 1` and `Pow(x, 1) = x` for every `x`; the tests run with
`Alpha = Beta = 1.0`); `NaN` stands in for its value at any other exponent. -/
def powNatural (x y : F64) : F64 :=
  match y with
  | F64.fin q => if q = 0 then F64.one else if q = 1 then x else F64.nan
  | _ => F64.nan

/-- An environment for concrete runs: `powNatural`, and a map walked in the
order of insertion. -/
def runEnv : Env := ⟨powNatural, id, fun _ => List.Perm.refl _⟩

/-- The configuration of the tests of `aco_test.go`, for a number of ants: the
literals `0.1` and `0.01` are the nearest `float64`. -/
def testConfig (ants : Int) : Config :=
  ⟨ants, F64.round (1 / 10), F64.round (1 / 100), F64.fin 1, F64.fin 1⟩

/-- A random source that returns `r` at every call of `Float64` and `0` at
every call of `Intn`. -/
def constRand (r : ℚ) (h : 0 ≤ r ∧ r < 1) : Rand := ⟨fun _ => r, fun _ => 0, 0, 0, fun _ => h⟩

/-- Function `mockNodes` of `aco_test.go`: `n` idle nodes of the same size. -/
def mockNodes (n : Nat) (mem cpus : Int) : List NodeInfo :=
  List.replicate n ⟨⟨mem, cpus⟩, ⟨mem, cpus⟩⟩

/-- The available memory of every node. -/
def availableMemory (nodes : List NodeInfo) : List Int :=
  nodes.map (fun n => n.AvailableResources.MemoryBytes)

/-- A node with a reservation subtracted from its available resources, as
integers (no wrap-around). -/
def lessReservation (n : NodeInfo) (r : Resources) : NodeInfo :=
  { n with
    AvailableResources :=
      { MemoryBytes := n.AvailableResources.MemoryBytes - r.MemoryBytes
        NanoCPUs := n.AvailableResources.NanoCPUs - r.NanoCPUs } }

/-- The running total `w[0] + ... + w[i]` of a list of weights. -/
def runningTotal (w : List ℚ) (i : Nat) : ℚ := (w.take (i + 1)).sum

/-- The random source whose calls of `Intn` use the raw values `cs` in turn. -/
def choiceRand (cs : List Nat) : Rand :=
  ⟨fun _ => 0, fun k => cs.getD k 0, 0, 0, fun _ => by norm_num⟩

/-- A sequence of choices `c_0 .. c_{N-1}` for a slice of length `N`:
`c_i` lies in `[0, N - i)`. -/
def validChoices (N : Nat) (cs : List Nat) : Prop :=
  cs.length = N ∧ ∀ i < N, cs.getD i 0 < N - i

/-- The choices `shuffleInts` draws from a random source for a slice of length
`N`: the `i`-th is the result of `rand.Intn(N - i)`. -/
def choicesOf (g : Rand) (N : Nat) : List Nat :=
  (List.range N).map (fun i => g.ints (g.ipos + i) % (N - i))

/-- Fisher-Yates on a slice of length `n`, head first: slot `0` is exchanged
with slot `c 0 % n`, then the tail is shuffled with the later choices. -/
def shuffleRec : Nat → List Nat → (Nat → Nat) → List Nat
  | 0, l, _ => l
  | n + 1, l, c =>
    (swap l (c 0 % (n + 1)) 0).headD 0 ::
      shuffleRec n (swap l (c 0 % (n + 1)) 0).tail (fun t => c (t + 1))

/-- The selection loop of `Optimize` from a given `(max, max_plan)`. -/
def selectLoop (acc : Nat × Plan) (entries : List (Plan × Nat)) : Nat × Plan :=
  entries.foldl (fun acc e => if e.2 > acc.1 then (e.2, e.1) else acc) acc

/-- The index of the first occurrence of a plan in a list of plans (the length
of the list when it does not occur). -/
def firstIndex (w : Plan) : List Plan → Nat
  | [] => 0
  | x :: xs => if x = w then 0 else firstIndex w xs + 1

/-- An environment whose map is walked in the reverse of the order of
insertion. -/
def reverseEnv : Env := ⟨powNatural, List.reverse, fun l => List.reverse_perm l⟩

/-- A random source that returns `first` at the first call of `Float64`, `rest`
at every later call, and `0` at every call of `Intn`. -/
def firstRestRand (first rest : ℚ) (h1 : 0 ≤ first ∧ first < 1) (h2 : 0 ≤ rest ∧ rest < 1) :
    Rand :=
  ⟨fun k => if k = 0 then first else rest, fun _ => 0, 0, 0, fun k => by
    by_cases h : k = 0 <;> simp [h, h1, h2]⟩

/-- The state of an ant on `n` idle `mockNodes` when its task loop starts, with
the matrix of `T` rows as the pre-fill loop of `greedyInit` leaves it. -/
def idleAnt (T n : Nat) (mem cpus : Int) (g : Rand) : AntState :=
  { TAU := fillAll (mockNodes n mem cpus) (DenseMatrix.Zeros T n)
    nodes := mockNodes n mem cpus
    plan := zeroPlan
    rng := g }

/-- The loop of the forward evaporation alone
(`for j := 0; j < TAU.Cols(); j++`), without the write to `(task_idx+1, j*)`
that follows it. -/
def evaporate (config : Config) (TAU : DenseMatrix) (task_idx : Nat) : DenseMatrix :=
  (List.range TAU.cols).foldl
    (fun m c =>
      m.Set (task_idx + 1) c (F64.mul (F64.sub F64.one config.Rho) (m.Get task_idx c)))
    TAU

/-- The real number the formula of `P` denotes:
`0.5 * (available CPU / total CPU) + 0.5 * (available memory / total memory)`. -/
def exactP (n : NodeInfo) : ℚ :=
  1 / 2 * ((n.AvailableResources.NanoCPUs : ℚ) / (n.Description.NanoCPUs : ℚ))
    + 1 / 2 * ((n.AvailableResources.MemoryBytes : ℚ) / (n.Description.MemoryBytes : ℚ))

/-- A ratio `float64(a) / float64(t)` as the program computes it: both
conversions and the division rounded. -/
def roundedRatio (a t : Int) : ℚ := F64.rnd (F64.rnd (a : ℚ) / F64.rnd (t : ℚ))

/-- The formula of `P` as the program evaluates it in `float64`: the two
ratios, their products by `0.5` and the sum, each rounded. -/
def roundedP (n : NodeInfo) : ℚ :=
  F64.rnd
    (F64.rnd (1 / 2 * roundedRatio n.AvailableResources.NanoCPUs n.Description.NanoCPUs)
      + F64.rnd (1 / 2 * roundedRatio n.AvailableResources.MemoryBytes n.Description.MemoryBytes))

/-- The running total of `pick` as the program accumulates it:
`cumulativeProbability` after the items `0..i`, every addition rounded to
`float64`. -/
def floatTotal (w : List F64) (i : Nat) : F64 := (w.take (i + 1)).foldl F64.add F64.zero

/-- Three nodes of 1536 MB and four cores, with (312 MB, 2 cores),
(384 MB, 1.5 cores) and (792 MB, 0.75 core) available. -/
def unevenNodes : List NodeInfo :=
  [⟨⟨1536 * MB, 4 * CORE⟩, ⟨312 * MB, 2 * CORE⟩⟩,
    ⟨⟨1536 * MB, 4 * CORE⟩, ⟨384 * MB, 1500000000⟩⟩,
    ⟨⟨1536 * MB, 4 * CORE⟩, ⟨792 * MB, 750000000⟩⟩]

/-- The state of an ant on the nodes `nodes` when its task loop starts, with
the matrix of `T` rows as the pre-fill loop of `greedyInit` leaves it. -/
def antOn (T : Nat) (nodes : List NodeInfo) (g : Rand) : AntState :=
  { TAU := fillAll nodes (DenseMatrix.Zeros T nodes.length)
    nodes := nodes
    plan := zeroPlan
    rng := g }

/-! # Theorems -/

/-! ## Rounding -/

theorem pow2_eq (e : Int) : F64.pow2 e = (2 : ℚ) ^ e := by
  unfold F64.pow2
  split
  · rename_i h
    rw [Nat.cast_pow, Nat.cast_ofNat]
    conv_rhs => rw [← Int.toNat_of_nonneg h]
    rw [zpow_natCast]
  · rename_i h
    have h' : 0 ≤ -e := by omega
    rw [Nat.cast_pow, Nat.cast_ofNat, one_div, ← zpow_natCast, Int.toNat_of_nonneg h', zpow_neg,
      inv_inv]

theorem pow2_pos (e : Int) : 0 < F64.pow2 e := by
  rw [pow2_eq]; exact zpow_pos (by norm_num) e

theorem pow2_le_pow2 {a b : Int} : F64.pow2 a ≤ F64.pow2 b ↔ a ≤ b := by
  rw [pow2_eq, pow2_eq]; exact zpow_le_zpow_iff_right₀ (by norm_num)

theorem pow2_lt_pow2 {a b : Int} : F64.pow2 a < F64.pow2 b ↔ a < b := by
  rw [pow2_eq, pow2_eq]; exact zpow_lt_zpow_iff_right₀ (by norm_num)

theorem pow2_add (a b : Int) : F64.pow2 (a + b) = F64.pow2 a * F64.pow2 b := by
  rw [pow2_eq, pow2_eq, pow2_eq]; exact zpow_add₀ (by norm_num) a b

theorem pow2_natCast (n : Nat) : F64.pow2 (n : Int) = (((2 : Int) ^ n : Int) : ℚ) := by
  rw [pow2_eq, zpow_natCast]; push_cast; rfl

theorem log2Loop_eq (fuel : Nat) : ∀ n, n ≤ fuel → F64.log2Loop fuel n = Nat.log2 n := by
  induction fuel with
  | zero =>
    intro n hn
    have : n = 0 := by omega
    subst this
    rw [Nat.log2]; simp [F64.log2Loop]
  | succ fuel ih =>
    intro n hn
    rw [Nat.log2, F64.log2Loop]
    by_cases h : 2 ≤ n
    · rw [if_pos h, if_pos h, ih (n / 2) (by omega)]
    · rw [if_neg h, if_neg h]

theorem log2_eq (n : Nat) : F64.log2 n = Nat.log2 n := log2Loop_eq n n (le_refl n)

theorem ilog2_spec (x : ℚ) (hx : 0 < x) : F64.pow2 (F64.ilog2 x) ≤ x ∧ x < F64.pow2 (F64.ilog2 x + 1) := by
  have hnum : 0 < x.num := Rat.num_pos.2 hx
  have hn0 : x.num.toNat ≠ 0 := by omega
  have hd0 : x.den ≠ 0 := x.den_nz
  have hn : ((x.num.toNat : ℕ) : ℚ) = (x.num : ℚ) := by
    have : ((x.num.toNat : ℕ) : ℤ) = x.num := Int.toNat_of_nonneg hnum.le
    exact_mod_cast this
  have hxe : x = (x.num.toNat : ℚ) / (x.den : ℚ) := by
    rw [hn]; exact (Rat.num_div_den x).symm
  have a1 : ((2 : ℚ) ^ (Nat.log2 x.num.toNat : ℤ)) ≤ (x.num.toNat : ℚ) := by
    rw [zpow_natCast]; exact_mod_cast Nat.log2_self_le hn0
  have a2 : (x.num.toNat : ℚ) < (2 : ℚ) ^ ((Nat.log2 x.num.toNat : ℤ) + 1) := by
    have : x.num.toNat < 2 ^ (Nat.log2 x.num.toNat + 1) := Nat.lt_log2_self
    have h2 : ((Nat.log2 x.num.toNat : ℤ) + 1) = ((Nat.log2 x.num.toNat + 1 : ℕ) : ℤ) := by
      push_cast; rfl
    rw [h2, zpow_natCast]; exact_mod_cast this
  have b1 : ((2 : ℚ) ^ (Nat.log2 x.den : ℤ)) ≤ (x.den : ℚ) := by
    rw [zpow_natCast]; exact_mod_cast Nat.log2_self_le hd0
  have b2 : (x.den : ℚ) < (2 : ℚ) ^ ((Nat.log2 x.den : ℤ) + 1) := by
    have : x.den < 2 ^ (Nat.log2 x.den + 1) := Nat.lt_log2_self
    have h2 : ((Nat.log2 x.den : ℤ) + 1) = ((Nat.log2 x.den + 1 : ℕ) : ℤ) := by
      push_cast; rfl
    rw [h2, zpow_natCast]; exact_mod_cast this
  have hdpos : (0 : ℚ) < (x.den : ℚ) := by exact_mod_cast Nat.pos_of_ne_zero hd0
  have two_ne : (2 : ℚ) ≠ 0 := by norm_num
  have pa : (0 : ℚ) < (2 : ℚ) ^ (Nat.log2 x.num.toNat : ℤ) := zpow_pos (by norm_num) _
  have pb : (0 : ℚ) < (2 : ℚ) ^ (Nat.log2 x.den : ℤ) := zpow_pos (by norm_num) _
  have pb1 : (0 : ℚ) < (2 : ℚ) ^ ((Nat.log2 x.den : ℤ) + 1) := zpow_pos (by norm_num) _
  have pa1 : (0 : ℚ) < (2 : ℚ) ^ ((Nat.log2 x.num.toNat : ℤ) + 1) := zpow_pos (by norm_num) _
  -- the two outer bounds
  have up : x < F64.pow2 ((Nat.log2 x.num.toNat : ℤ) - (Nat.log2 x.den : ℤ) + 1) := by
    have e : (Nat.log2 x.num.toNat : ℤ) - (Nat.log2 x.den : ℤ) + 1
        = ((Nat.log2 x.num.toNat : ℤ) + 1) - (Nat.log2 x.den : ℤ) := by ring
    rw [pow2_eq, e, zpow_sub₀ two_ne]
    conv_lhs => rw [hxe]
    exact div_lt_div₀ a2 b1 pa1.le pb
  have low : F64.pow2 ((Nat.log2 x.num.toNat : ℤ) - (Nat.log2 x.den : ℤ) - 1) < x := by
    have e : (Nat.log2 x.num.toNat : ℤ) - (Nat.log2 x.den : ℤ) - 1
        = (Nat.log2 x.num.toNat : ℤ) - ((Nat.log2 x.den : ℤ) + 1) := by ring
    rw [pow2_eq, e, zpow_sub₀ two_ne]
    conv_rhs => rw [hxe]
    exact div_lt_div₀' a1 b2 (lt_of_lt_of_le pa a1) hdpos
  unfold F64.ilog2
  rw [log2_eq, log2_eq]
  split
  · rename_i h
    exact ⟨h, up⟩
  · rename_i h
    refine ⟨low.le, ?_⟩
    have e : (Nat.log2 x.num.toNat : ℤ) - (Nat.log2 x.den : ℤ) - 1 + 1
        = (Nat.log2 x.num.toNat : ℤ) - (Nat.log2 x.den : ℤ) := by ring
    rw [e]
    exact lt_of_not_le h

theorem ilog2_lt_iff (x : ℚ) (hx : 0 < x) (k : Int) : F64.ilog2 x < k ↔ x < F64.pow2 k := by
  obtain ⟨h1, h2⟩ := ilog2_spec x hx
  constructor
  · intro h
    exact lt_of_lt_of_le h2 (pow2_le_pow2.2 (by omega))
  · intro h
    exact pow2_lt_pow2.1 (lt_of_le_of_lt h1 h)

theorem le_ilog2_iff (x : ℚ) (hx : 0 < x) (k : Int) : k ≤ F64.ilog2 x ↔ F64.pow2 k ≤ x := by
  rw [← not_lt, ilog2_lt_iff x hx, not_lt]

theorem ilog2_mono {x y : ℚ} (hx : 0 < x) (h : x ≤ y) : F64.ilog2 x ≤ F64.ilog2 y := by
  rw [le_ilog2_iff y (lt_of_lt_of_le hx h)]
  exact le_trans (ilog2_spec x hx).1 h

theorem rne_bounds (x : ℚ) : ⌊x⌋ ≤ F64.rne x ∧ F64.rne x ≤ ⌊x⌋ + 1 := by
  unfold F64.rne
  split_ifs <;> omega

theorem rne_intCast (n : Int) : F64.rne (n : ℚ) = n := by
  unfold F64.rne
  simp

theorem rne_mono {x y : ℚ} (h : x ≤ y) : F64.rne x ≤ F64.rne y := by
  have hf : ⌊x⌋ ≤ ⌊y⌋ := Int.floor_le_floor h
  rcases hf.lt_or_eq with hlt | heq
  · have h1 := (rne_bounds x).2
    have h2 := (rne_bounds y).1
    omega
  · unfold F64.rne
    rw [heq]
    have hxy : x - (⌊y⌋ : ℚ) ≤ y - (⌊y⌋ : ℚ) := by linarith
    split_ifs <;> first | omega | (exfalso; linarith)

theorem le_rne {x : ℚ} {n : Int} (h : (n : ℚ) ≤ x) : n ≤ F64.rne x := by
  have := rne_mono h
  rwa [rne_intCast] at this

theorem rne_le {x : ℚ} {n : Int} (h : x ≤ (n : ℚ)) : F64.rne x ≤ n := by
  have := rne_mono h
  rwa [rne_intCast] at this

theorem rne_sub_le (x : ℚ) : |(F64.rne x : ℚ) - x| ≤ 1 / 2 := by
  have h1 : (⌊x⌋ : ℚ) ≤ x := Int.floor_le x
  have h2 : x < (⌊x⌋ : ℚ) + 1 := Int.lt_floor_add_one x
  unfold F64.rne
  rw [abs_le]
  split_ifs <;> push_cast <;> constructor <;> linarith

theorem rne_neg (x : ℚ) : F64.rne (-x) = -F64.rne x := by
  by_cases hint : (⌊x⌋ : ℚ) = x
  · rw [← hint, ← Int.cast_neg, rne_intCast, rne_intCast]
  · have h1 : (⌊x⌋ : ℚ) < x := lt_of_le_of_ne (Int.floor_le x) hint
    have h2 : x < (⌊x⌋ : ℚ) + 1 := Int.lt_floor_add_one x
    have hf : ⌊-x⌋ = -⌊x⌋ - 1 := by
      rw [Int.floor_eq_iff]
      push_cast
      constructor <;> linarith
    unfold F64.rne
    rw [hf]
    push_cast
    split_ifs <;> first | omega | (exfalso; linarith)

theorem ulpExp_neg (x : ℚ) : F64.ulpExp (-x) = F64.ulpExp x := by
  unfold F64.ulpExp; rw [abs_neg]

theorem ulpExp_ge (x : ℚ) : -1074 ≤ F64.ulpExp x := by
  unfold F64.ulpExp
  have := le_max_right (F64.ilog2 |x|) (-1022)
  omega

theorem ilog2_sub_le_ulpExp (x : ℚ) : F64.ilog2 |x| - 52 ≤ F64.ulpExp x := by
  unfold F64.ulpExp
  have := le_max_left (F64.ilog2 |x|) (-1022)
  omega

theorem ulpExp_eq_of_le (x : ℚ) (h : -1022 ≤ F64.ilog2 |x|) : F64.ulpExp x = F64.ilog2 |x| - 52 := by
  unfold F64.ulpExp
  rw [max_eq_left h]

theorem ulpExp_eq_of_ge (x : ℚ) (h : F64.ilog2 |x| ≤ -1022) : F64.ulpExp x = -1074 := by
  unfold F64.ulpExp
  rw [max_eq_right h]; rfl

theorem ulpExp_mono {x y : ℚ} (hx : 0 < x) (h : x ≤ y) : F64.ulpExp x ≤ F64.ulpExp y := by
  unfold F64.ulpExp
  rw [abs_of_pos hx, abs_of_pos (lt_of_lt_of_le hx h)]
  have := max_le_max (ilog2_mono hx h) (le_refl (-1022 : Int))
  omega

theorem rnd_zero : F64.rnd 0 = 0 := by simp [F64.rnd]

theorem rnd_eq (x : ℚ) (h : x ≠ 0) :
    F64.rnd x = (F64.rne (x / F64.pow2 (F64.ulpExp x)) : ℚ) * F64.pow2 (F64.ulpExp x) := by
  unfold F64.rnd; rw [if_neg h]

theorem rnd_neg (x : ℚ) : F64.rnd (-x) = -F64.rnd x := by
  by_cases h : x = 0
  · simp [h, rnd_zero]
  · rw [rnd_eq _ (neg_ne_zero.2 h), rnd_eq _ h, ulpExp_neg, neg_div, rne_neg]
    push_cast; ring

theorem rnd_nonneg {x : ℚ} (h : 0 ≤ x) : 0 ≤ F64.rnd x := by
  by_cases h0 : x = 0
  · simp [h0, rnd_zero]
  · rw [rnd_eq _ h0]
    have : (0 : Int) ≤ F64.rne (x / F64.pow2 (F64.ulpExp x)) :=
      le_rne (by simpa using div_nonneg h (pow2_pos _).le)
    exact mul_nonneg (by exact_mod_cast this) (pow2_pos _).le

theorem rnd_nonpos {x : ℚ} (h : x ≤ 0) : F64.rnd x ≤ 0 := by
  have := rnd_nonneg (neg_nonneg.2 h)
  rw [rnd_neg] at this
  linarith

theorem pow2_53 : F64.pow2 53 = (((2 : Int) ^ 53 : Int) : ℚ) := pow2_natCast 53

theorem pow2_52 : F64.pow2 52 = (((2 : Int) ^ 52 : Int) : ℚ) := pow2_natCast 52

/-- A positive number lies below `2^53` units in the last place, and its
rounding too. -/
theorem rnd_le_pow2 (x : ℚ) (hx : 0 < x) :
    x < F64.pow2 (F64.ulpExp x + 53) ∧ F64.rnd x ≤ F64.pow2 (F64.ulpExp x + 53) := by
  have hk := (ilog2_spec x hx).2
  have hle : F64.ilog2 x + 1 ≤ F64.ulpExp x + 53 := by
    have := ilog2_sub_le_ulpExp x
    rw [abs_of_pos hx] at this
    omega
  have hlt : x < F64.pow2 (F64.ulpExp x + 53) := lt_of_lt_of_le hk (pow2_le_pow2.2 hle)
  refine ⟨hlt, ?_⟩
  rw [rnd_eq _ hx.ne', pow2_add, mul_comm (F64.pow2 (F64.ulpExp x))]
  have hq : x / F64.pow2 (F64.ulpExp x) ≤ F64.pow2 53 := by
    rw [div_le_iff₀ (pow2_pos _), mul_comm, ← pow2_add]
    exact hlt.le
  rw [pow2_53] at hq ⊢
  have := rne_le hq
  exact mul_le_mul_of_nonneg_right (by exact_mod_cast this) (pow2_pos _).le

/-- A positive number of the normal range lies above `2^52` units in the last
place, and its rounding too. -/
theorem pow2_le_rnd (x : ℚ) (hx : 0 < x) (hk : -1022 ≤ F64.ilog2 x) :
    F64.pow2 (F64.ulpExp x + 52) ≤ x ∧ F64.pow2 (F64.ulpExp x + 52) ≤ F64.rnd x := by
  have he : F64.ulpExp x + 52 = F64.ilog2 x := by
    have := ulpExp_eq_of_le x (by rw [abs_of_pos hx]; exact hk)
    rw [abs_of_pos hx] at this
    omega
  have hle : F64.pow2 (F64.ulpExp x + 52) ≤ x := by
    rw [he]; exact (ilog2_spec x hx).1
  refine ⟨hle, ?_⟩
  rw [rnd_eq _ hx.ne', pow2_add, mul_comm (F64.pow2 (F64.ulpExp x))]
  have hq : F64.pow2 52 ≤ x / F64.pow2 (F64.ulpExp x) := by
    rw [le_div_iff₀ (pow2_pos _), mul_comm, ← pow2_add]
    exact hle
  rw [pow2_52] at hq ⊢
  have := le_rne hq
  exact mul_le_mul_of_nonneg_right (by exact_mod_cast this) (pow2_pos _).le

theorem rnd_mono_pos {x y : ℚ} (hx : 0 < x) (h : x ≤ y) : F64.rnd x ≤ F64.rnd y := by
  have hy : 0 < y := lt_of_lt_of_le hx h
  have he := ulpExp_mono hx h
  rcases he.lt_or_eq with hlt | heq
  · have hky : -1022 ≤ F64.ilog2 y := by
      by_contra hc
      have := ulpExp_eq_of_ge y (by rw [abs_of_pos hy]; omega)
      have := ulpExp_ge x
      omega
    have h1 := (rnd_le_pow2 x hx).2
    have h2 := (pow2_le_rnd y hy hky).2
    have h3 : F64.pow2 (F64.ulpExp x + 53) ≤ F64.pow2 (F64.ulpExp y + 52) := pow2_le_pow2.2 (by omega)
    linarith
  · rw [rnd_eq _ hx.ne', rnd_eq _ hy.ne', heq]
    have : F64.rne (x / F64.pow2 (F64.ulpExp y)) ≤ F64.rne (y / F64.pow2 (F64.ulpExp y)) :=
      rne_mono (div_le_div_of_nonneg_right h (pow2_pos _).le)
    exact mul_le_mul_of_nonneg_right (by exact_mod_cast this) (pow2_pos _).le

/-- Rounding is monotone. -/
theorem rnd_mono {x y : ℚ} (h : x ≤ y) : F64.rnd x ≤ F64.rnd y := by
  rcases lt_or_le 0 x with hx | hx
  · exact rnd_mono_pos hx h
  · rcases le_or_lt 0 y with hy | hy
    · exact le_trans (rnd_nonpos hx) (rnd_nonneg hy)
    · have := rnd_mono_pos (neg_pos.2 hy) (neg_le_neg h)
      rw [rnd_neg, rnd_neg] at this
      linarith

/-- A number `m * 2^e` with `|m| < 2^53` and `e ≥ -1074` is its own rounding. -/
theorem rnd_scaled (m e : Int) (he : -1074 ≤ e) (hm : |m| < 2 ^ 53) :
    F64.rnd ((m : ℚ) * F64.pow2 e) = (m : ℚ) * F64.pow2 e := by
  by_cases h0 : (m : ℚ) * F64.pow2 e = 0
  · rw [h0, rnd_zero]
  · have hpos : 0 < |(m : ℚ) * F64.pow2 e| := abs_pos.2 h0
    have hlt : |(m : ℚ) * F64.pow2 e| < F64.pow2 (e + 53) := by
      rw [abs_mul, abs_of_pos (pow2_pos e), pow2_add, mul_comm (F64.pow2 e), pow2_53]
      have : (|m| : ℚ) < (((2 : Int) ^ 53 : Int) : ℚ) := by
        rw [← Int.cast_abs]; exact_mod_cast hm
      exact mul_lt_mul_of_pos_right this (pow2_pos e)
    have hk : F64.ilog2 |(m : ℚ) * F64.pow2 e| < e + 53 := (ilog2_lt_iff _ hpos _).2 hlt
    have hle : F64.ulpExp ((m : ℚ) * F64.pow2 e) ≤ e := by
      unfold F64.ulpExp
      have := max_le (a := F64.ilog2 |(m : ℚ) * F64.pow2 e|) (b := (-1022 : Int)) (c := e + 52)
        (by omega) (by omega)
      omega
    obtain ⟨n, hn⟩ : ∃ n : Nat, e = F64.ulpExp ((m : ℚ) * F64.pow2 e) + n :=
      ⟨(e - F64.ulpExp ((m : ℚ) * F64.pow2 e)).toNat, by omega⟩
    rw [rnd_eq _ h0]
    have hq : (m : ℚ) * F64.pow2 e / F64.pow2 (F64.ulpExp ((m : ℚ) * F64.pow2 e))
        = ((m * 2 ^ n : Int) : ℚ) := by
      rw [div_eq_iff (pow2_pos _).ne']
      conv_lhs => rw [hn, pow2_add, pow2_natCast]
      push_cast; ring
    rw [hq, rne_intCast]
    conv_rhs => rw [hn, pow2_add, pow2_natCast]
    push_cast; ring

/-- The rounding of a number is a number `m * 2^e` with `|m| < 2^53` and
`e ≥ -1074`. -/
theorem rnd_scaled_form (x : ℚ) :
    ∃ m e : Int, -1074 ≤ e ∧ |m| < 2 ^ 53 ∧ F64.rnd x = (m : ℚ) * F64.pow2 e := by
  have key : ∀ y : ℚ, 0 < y →
      ∃ m e : Int, -1074 ≤ e ∧ 0 ≤ m ∧ m < 2 ^ 53 ∧ F64.rnd y = (m : ℚ) * F64.pow2 e := by
    intro y hy
    have hb := (rnd_le_pow2 y hy).2
    have hnn := rnd_nonneg hy.le
    rw [rnd_eq _ hy.ne'] at hb hnn ⊢
    have hm0 : (0 : Int) ≤ F64.rne (y / F64.pow2 (F64.ulpExp y)) :=
      le_rne (by simpa using div_nonneg hy.le (pow2_pos _).le)
    have hm1 : F64.rne (y / F64.pow2 (F64.ulpExp y)) ≤ 2 ^ 53 := by
      have : ((F64.rne (y / F64.pow2 (F64.ulpExp y)) : Int) : ℚ) ≤ (((2 : Int) ^ 53 : Int) : ℚ) := by
        rw [pow2_add, mul_comm (F64.pow2 (F64.ulpExp y)), pow2_53] at hb
        exact le_of_mul_le_mul_right hb (pow2_pos _)
      exact_mod_cast this
    rcases hm1.lt_or_eq with hlt | heq
    · exact ⟨_, _, ulpExp_ge y, hm0, hlt, rfl⟩
    · refine ⟨2 ^ 52, F64.ulpExp y + 1, by have := ulpExp_ge y; omega, by norm_num, by norm_num, ?_⟩
      rw [heq, pow2_add]
      have : F64.pow2 1 = 2 := by rw [pow2_eq]; norm_num
      rw [this]; push_cast; ring
  rcases lt_trichotomy x 0 with hx | hx | hx
  · obtain ⟨m, e, he, hm0, hm1, hr⟩ := key (-x) (neg_pos.2 hx)
    refine ⟨-m, e, he, by rw [abs_neg, abs_of_nonneg hm0]; exact hm1, ?_⟩
    rw [rnd_neg] at hr
    push_cast
    linarith
  · exact ⟨0, 0, by norm_num, by norm_num, by rw [hx, rnd_zero]; simp⟩
  · obtain ⟨m, e, he, hm0, hm1, hr⟩ := key x hx
    exact ⟨m, e, he, by rw [abs_of_nonneg hm0]; exact hm1, hr⟩

/-- Rounding is idempotent. -/
theorem rnd_idem (x : ℚ) : F64.rnd (F64.rnd x) = F64.rnd x := by
  obtain ⟨m, e, he, hm, hr⟩ := rnd_scaled_form x
  rw [hr, rnd_scaled m e he hm]

/-- The rounding error is at most half a unit in the last place. -/
theorem rnd_sub_le (x : ℚ) : |F64.rnd x - x| ≤ F64.pow2 (F64.ulpExp x) / 2 := by
  by_cases h0 : x = 0
  · rw [h0, rnd_zero]; simp; exact div_nonneg (pow2_pos _).le (by norm_num)
  · rw [rnd_eq _ h0]
    have h := rne_sub_le (x / F64.pow2 (F64.ulpExp x))
    have hp := pow2_pos (F64.ulpExp x)
    have e : (F64.rne (x / F64.pow2 (F64.ulpExp x)) : ℚ) * F64.pow2 (F64.ulpExp x) - x
        = ((F64.rne (x / F64.pow2 (F64.ulpExp x)) : ℚ) - x / F64.pow2 (F64.ulpExp x)) * F64.pow2 (F64.ulpExp x) := by
      field_simp
    rw [e, abs_mul, abs_of_pos hp]
    calc |(F64.rne (x / F64.pow2 (F64.ulpExp x)) : ℚ) - x / F64.pow2 (F64.ulpExp x)| * F64.pow2 (F64.ulpExp x)
        ≤ 1 / 2 * F64.pow2 (F64.ulpExp x) := mul_le_mul_of_nonneg_right h hp.le
      _ = F64.pow2 (F64.ulpExp x) / 2 := by ring

theorem pow2_zero : F64.pow2 0 = 1 := by rw [pow2_eq]; simp

theorem pow2_neg_one : F64.pow2 (-1) = 1 / 2 := by rw [pow2_eq]; norm_num

theorem pow2_63 : F64.pow2 63 = (((2 : Int) ^ 63 : Int) : ℚ) := pow2_natCast 63

/-- An integer below `2^53` in size is its own rounding. -/
theorem rnd_intCast (n : Int) (h : |n| < 2 ^ 53) : F64.rnd (n : ℚ) = n := by
  have := rnd_scaled n 0 (by norm_num) h
  rwa [pow2_zero, mul_one] at this

theorem rnd_pow2 (k : Int) (hk : -1074 ≤ k) : F64.rnd (F64.pow2 k) = F64.pow2 k := by
  have := rnd_scaled 1 k hk (by norm_num)
  simpa using this

theorem rnd_one : F64.rnd 1 = 1 := by
  have := rnd_intCast 1 (by norm_num)
  simpa using this

theorem rnd_half : F64.rnd (1 / 2) = 1 / 2 := by
  have := rnd_pow2 (-1) (by norm_num)
  rwa [pow2_neg_one] at this

/-- Rounding keeps a number within a power of two that bounds it. -/
theorem rnd_abs_le {x : ℚ} {k : Int} (hk : -1074 ≤ k) (h : |x| ≤ F64.pow2 k) :
    |F64.rnd x| ≤ F64.pow2 k := by
  rw [abs_le] at h ⊢
  constructor
  · have := rnd_mono h.1
    rwa [rnd_neg, rnd_pow2 k hk] at this
  · have := rnd_mono h.2
    rwa [rnd_pow2 k hk] at this

theorem round_eq_fin {x : ℚ} (h : |x| ≤ F64.pow2 1023) : F64.round x = F64.fin (F64.rnd x) := by
  have hb := rnd_abs_le (by norm_num) h
  have hlt : F64.pow2 1023 < F64.pow2 1024 := pow2_lt_pow2.2 (by norm_num)
  rw [abs_le] at hb
  unfold F64.round
  rw [if_neg (by linarith [hb.2]), if_neg (by linarith [hb.1])]

theorem round_zero : F64.round 0 = F64.fin 0 := by
  rw [round_eq_fin (by simpa using (pow2_pos 1023).le), rnd_zero]

theorem round_one : F64.round 1 = F64.fin 1 := by
  have h : |(1 : ℚ)| ≤ F64.pow2 1023 := by
    rw [abs_one, ← pow2_zero]; exact pow2_le_pow2.2 (by norm_num)
  rw [round_eq_fin h, rnd_one]

/-- Rounding to `float64` is monotone (the infinities included). -/
theorem round_le_round {x y : ℚ} (h : x ≤ y) : F64.le (F64.round x) (F64.round y) = true := by
  have hm := rnd_mono h
  have hp := pow2_pos 1024
  unfold F64.round
  by_cases h1 : F64.pow2 1024 ≤ F64.rnd x
  · rw [if_pos h1, if_pos (le_trans h1 hm)]; rfl
  · rw [if_neg h1]
    by_cases h2 : F64.rnd x ≤ -F64.pow2 1024
    · rw [if_pos h2]
      split_ifs <;> rfl
    · rw [if_neg h2]
      by_cases h3 : F64.pow2 1024 ≤ F64.rnd y
      · rw [if_pos h3]; rfl
      · rw [if_neg h3, if_neg (by linarith)]
        simp [F64.le, hm]

/-- The rounding error relative to the number, in the normal range. -/
theorem rnd_sub_le_mul (x : ℚ) (hx : x = 0 ∨ F64.pow2 (-1022) ≤ |x|) :
    |F64.rnd x - x| ≤ |x| * F64.pow2 (-53) := by
  rcases hx with h0 | hx
  · rw [h0, rnd_zero]; simp
  · have hpos : 0 < |x| := lt_of_lt_of_le (pow2_pos _) hx
    have hk : -1022 ≤ F64.ilog2 |x| := (le_ilog2_iff _ hpos _).2 hx
    have he := ulpExp_eq_of_le x hk
    have h1 := rnd_sub_le x
    have h2 := (ilog2_spec _ hpos).1
    have e : F64.pow2 (F64.ulpExp x) / 2 = F64.pow2 (F64.ilog2 |x|) * F64.pow2 (-53) := by
      rw [he, ← pow2_add, show F64.ilog2 |x| + -53 = (F64.ilog2 |x| - 52) + -1 by ring,
        pow2_add (F64.ilog2 |x| - 52) (-1), pow2_neg_one]
      ring
    rw [e] at h1
    exact le_trans h1 (mul_le_mul_of_nonneg_right h2 (pow2_pos _).le)

/-! ## Numbers -/

theorem wrapInt64_of_isInt64 {x : Int} (h : isInt64 x) : wrapInt64 x = x := by
  unfold isInt64 at h
  unfold wrapInt64
  rw [Int.emod_eq_of_lt (by omega) (by omega)]
  omega

theorem wrapInt64_sub_wrapInt64 (a b : Int) : wrapInt64 (wrapInt64 a - b) = wrapInt64 (a - b) := by
  unfold wrapInt64
  omega

theorem isInt64_wrapInt64 (x : Int) : isInt64 (wrapInt64 x) := by
  unfold isInt64 wrapInt64
  omega

/-- C7. `taskFitsNode` is true exactly when the node's available memory is at
least the task's memory reservation and its available CPU at least the task's
CPU reservation. -/
theorem taskFitsNode_iff (task : Task) (node : NodeInfo) :
    taskFitsNode task node = true ↔
      node.AvailableResources.MemoryBytes ≥ task.Reservations.MemoryBytes ∧
        node.AvailableResources.NanoCPUs ≥ task.Reservations.NanoCPUs := by
  simp [taskFitsNode]

/-! ## Debits and `applyPlan` -/

theorem canonicalTasks_length (tg : TaskGroup) : (canonicalTasks tg).length = tg.length := by
  simp [canonicalTasks, sortedKeys, List.length_insertionSort]

theorem debitAll_nil (node : NodeInfo) : debitAll node [] = node := rfl

theorem debitAll_cons (node : NodeInfo) (t : Task) (ts : List Task) :
    debitAll node (t :: ts) = debitAll (debit node t) ts := rfl

theorem debitAll_Description (ts : List Task) (node : NodeInfo) :
    (debitAll node ts).Description = node.Description := by
  induction ts generalizing node with
  | nil => rfl
  | cons t ts ih => rw [debitAll_cons, ih]; rfl

theorem debitAll_mem_wrapped (ts : List Task) (node : NodeInfo) :
    wrapInt64 (debitAll node ts).AvailableResources.MemoryBytes
      = wrapInt64 (node.AvailableResources.MemoryBytes - memSum ts) := by
  induction ts generalizing node with
  | nil => simp [debitAll_nil, memSum]
  | cons t ts ih =>
    rw [debitAll_cons, ih]
    simp only [debit, sub64, memSum, List.map_cons, List.sum_cons]
    have := wrapInt64_sub_wrapInt64
      (node.AvailableResources.MemoryBytes - t.Reservations.MemoryBytes)
      (List.map (fun t => t.Reservations.MemoryBytes) ts).sum
    rw [this]; congr 1; ring

theorem debitAll_cpu_wrapped (ts : List Task) (node : NodeInfo) :
    wrapInt64 (debitAll node ts).AvailableResources.NanoCPUs
      = wrapInt64 (node.AvailableResources.NanoCPUs - cpuSum ts) := by
  induction ts generalizing node with
  | nil => simp [debitAll_nil, cpuSum]
  | cons t ts ih =>
    rw [debitAll_cons, ih]
    simp only [debit, sub64, cpuSum, List.map_cons, List.sum_cons]
    have := wrapInt64_sub_wrapInt64
      (node.AvailableResources.NanoCPUs - t.Reservations.NanoCPUs)
      (List.map (fun t => t.Reservations.NanoCPUs) ts).sum
    rw [this]; congr 1; ring

/-- A debited amount is an `int64` again. -/
theorem debitAll_isInt64 (ts : List Task) (node : NodeInfo)
    (hm : isInt64 node.AvailableResources.MemoryBytes)
    (hc : isInt64 node.AvailableResources.NanoCPUs) :
    isInt64 (debitAll node ts).AvailableResources.MemoryBytes ∧
      isInt64 (debitAll node ts).AvailableResources.NanoCPUs := by
  induction ts generalizing node with
  | nil => exact ⟨hm, hc⟩
  | cons t ts ih =>
    rw [debitAll_cons]
    exact ih _ (isInt64_wrapInt64 _) (isInt64_wrapInt64 _)

theorem debitAll_mem (ts : List Task) (node : NodeInfo)
    (hm : isInt64 node.AvailableResources.MemoryBytes)
    (hc : isInt64 node.AvailableResources.NanoCPUs) :
    (debitAll node ts).AvailableResources.MemoryBytes
      = wrapInt64 (node.AvailableResources.MemoryBytes - memSum ts) := by
  rw [← debitAll_mem_wrapped, wrapInt64_of_isInt64 (debitAll_isInt64 ts node hm hc).1]

theorem debitAll_cpu (ts : List Task) (node : NodeInfo)
    (hm : isInt64 node.AvailableResources.MemoryBytes)
    (hc : isInt64 node.AvailableResources.NanoCPUs) :
    (debitAll node ts).AvailableResources.NanoCPUs
      = wrapInt64 (node.AvailableResources.NanoCPUs - cpuSum ts) := by
  rw [← debitAll_cpu_wrapped, wrapInt64_of_isInt64 (debitAll_isInt64 ts node hm hc).2]

theorem assignedTo_cons (v : Int) (pl : List Int) (t : Task) (ts : List Task) (j : Nat) :
    assignedTo (v :: pl) (t :: ts) j
      = if v = (j : Int) then t :: assignedTo pl ts j else assignedTo pl ts j := by
  unfold assignedTo
  by_cases h : v = (j : Int) <;> simp [List.filter_cons, h]

theorem assignedTo_eq_nil (plan : List Int) (tasks : List Task) (j : Nat)
    (h : ∀ i < tasks.length, plan[i]? ≠ some (j : Int)) : assignedTo plan tasks j = [] := by
  induction tasks generalizing plan with
  | nil => simp [assignedTo]
  | cons t ts ih =>
    cases plan with
    | nil => simp [assignedTo]
    | cons v pl =>
      rw [assignedTo_cons]
      have h0 := h 0 (by simp)
      simp only [List.getElem?_cons_zero, ne_eq, Option.some.injEq] at h0
      rw [if_neg h0]
      apply ih
      intro i hi
      have := h (i + 1) (by simpa using hi)
      simpa using this

theorem applyPlanLoop_spec (plan : List Int) (tasks : List Task) :
    ∀ (k : Nat) (nodes : List NodeInfo),
      (∀ i < tasks.length, ∃ v : Int, plan[k + i]? = some v ∧ 0 ≤ v ∧ v < nodes.length) →
      ∃ out, applyPlanLoop plan tasks k nodes = some out ∧ out.length = nodes.length ∧
        ∀ j < nodes.length,
          out.getD j default = debitAll (nodes.getD j default) (assignedTo (plan.drop k) tasks j) := by
  induction tasks with
  | nil =>
    intro k nodes _
    exact ⟨nodes, rfl, rfl, fun j _ => by simp [assignedTo, debitAll_nil]⟩
  | cons t ts ih =>
    intro k nodes h
    obtain ⟨v, hv, hv0, hvN⟩ := h 0 (by simp)
    rw [Nat.add_zero] at hv
    have hvN' : v.toNat < nodes.length := by omega
    have hdrop : plan.drop k = v :: plan.drop (k + 1) := by
      have hk : k < plan.length := by
        by_contra hc
        rw [List.getElem?_eq_none (by omega)] at hv
        exact absurd hv (by simp)
      rw [List.drop_eq_getElem_cons hk]
      rw [List.getElem?_eq_getElem hk] at hv
      simp only [Option.some.injEq] at hv
      rw [hv]
    have hrest : ∀ i < ts.length, ∃ w : Int, plan[k + 1 + i]? = some w ∧ 0 ≤ w ∧
        w < ((nodes.set v.toNat (debit (nodes.getD v.toNat default) t)).length : Int) := by
      intro i hi
      obtain ⟨w, hw, hw0, hwN⟩ := h (i + 1) (by simpa using hi)
      refine ⟨w, ?_, hw0, by simpa using hwN⟩
      rw [← hw]; congr 1; omega
    obtain ⟨out, hout, hlen, hcells⟩ := ih (k + 1) _ hrest
    refine ⟨out, ?_, by simpa using hlen, ?_⟩
    · simp only [applyPlanLoop, hv]
      rw [if_pos ⟨hv0, hvN'⟩]
      exact hout
    · intro j hj
      rw [hcells j (by simpa using hj), hdrop, assignedTo_cons]
      by_cases hjv : v = (j : Int)
      · have : v.toNat = j := by omega
        rw [if_pos hjv, debitAll_cons, this]
        congr 1
        simp [List.getD_eq_getElem?_getD, List.getElem?_set, hj]
      · have : v.toNat ≠ j := by omega
        rw [if_neg hjv]
        congr 1
        simp [List.getD_eq_getElem?_getD, List.getElem?_set, this]

theorem debitAll_mem_exact (ts : List Task) (node : NodeInfo)
    (h : isInt64 (node.AvailableResources.MemoryBytes - memSum ts)) :
    (debitAll node ts).AvailableResources.MemoryBytes
      = node.AvailableResources.MemoryBytes - memSum ts := by
  have hw := debitAll_mem_wrapped ts node
  rw [wrapInt64_of_isInt64 h] at hw
  cases ts with
  | nil => simp [debitAll_nil, memSum]
  | cons t ts =>
    rw [← hw, debitAll_cons]
    exact (wrapInt64_of_isInt64
      (debitAll_isInt64 ts (debit node t) (isInt64_wrapInt64 _) (isInt64_wrapInt64 _)).1).symm

theorem debitAll_cpu_exact (ts : List Task) (node : NodeInfo)
    (h : isInt64 (node.AvailableResources.NanoCPUs - cpuSum ts)) :
    (debitAll node ts).AvailableResources.NanoCPUs
      = node.AvailableResources.NanoCPUs - cpuSum ts := by
  have hw := debitAll_cpu_wrapped ts node
  rw [wrapInt64_of_isInt64 h] at hw
  cases ts with
  | nil => simp [debitAll_nil, cpuSum]
  | cons t ts =>
    rw [← hw, debitAll_cons]
    exact (wrapInt64_of_isInt64
      (debitAll_isInt64 ts (debit node t) (isInt64_wrapInt64 _) (isInt64_wrapInt64 _)).2).symm

/-- C8. When the first `T` entries of the plan are node indices, `applyPlan`
returns a node vector of the same length in which node `j` keeps its totals and
has its available memory and CPU lowered by the summed reservations of exactly
the tasks `i` (in sorted task-id order) with `plan[i] = j`: always so in
`int64` arithmetic (modulo `2^64`), and as integers whenever the difference is
an `int64`; a node no task is assigned to is unchanged. -/
theorem applyPlan_debits (plan : List Int) (tasks : TaskGroup) (nodes : List NodeInfo)
    (hplan : ∀ i < tasks.length, ∃ v : Int, plan[i]? = some v ∧ 0 ≤ v ∧ v < nodes.length) :
    ∃ out, applyPlan plan tasks nodes = some out ∧ out.length = nodes.length ∧
      ∀ j < nodes.length,
        (out.getD j default).Description = (nodes.getD j default).Description ∧
        wrapInt64 (out.getD j default).AvailableResources.MemoryBytes
          = wrapInt64 ((nodes.getD j default).AvailableResources.MemoryBytes
              - memSum (assignedTo plan (canonicalTasks tasks) j)) ∧
        wrapInt64 (out.getD j default).AvailableResources.NanoCPUs
          = wrapInt64 ((nodes.getD j default).AvailableResources.NanoCPUs
              - cpuSum (assignedTo plan (canonicalTasks tasks) j)) ∧
        (isInt64 ((nodes.getD j default).AvailableResources.MemoryBytes
              - memSum (assignedTo plan (canonicalTasks tasks) j)) →
          (out.getD j default).AvailableResources.MemoryBytes
            = (nodes.getD j default).AvailableResources.MemoryBytes
              - memSum (assignedTo plan (canonicalTasks tasks) j)) ∧
        (isInt64 ((nodes.getD j default).AvailableResources.NanoCPUs
              - cpuSum (assignedTo plan (canonicalTasks tasks) j)) →
          (out.getD j default).AvailableResources.NanoCPUs
            = (nodes.getD j default).AvailableResources.NanoCPUs
              - cpuSum (assignedTo plan (canonicalTasks tasks) j)) ∧
        ((∀ i < tasks.length, plan[i]? ≠ some (j : Int)) →
          out.getD j default = nodes.getD j default) := by
  have h' : ∀ i < (canonicalTasks tasks).length,
      ∃ v : Int, plan[0 + i]? = some v ∧ 0 ≤ v ∧ v < nodes.length := by
    intro i hi
    rw [canonicalTasks_length] at hi
    simpa using hplan i hi
  obtain ⟨out, hout, hlen, hcells⟩ := applyPlanLoop_spec plan (canonicalTasks tasks) 0 nodes h'
  refine ⟨out, hout, hlen, ?_⟩
  intro j hj
  have hc := hcells j hj
  rw [List.drop_zero] at hc
  rw [hc]
  refine ⟨debitAll_Description _ _, debitAll_mem_wrapped _ _, debitAll_cpu_wrapped _ _,
    debitAll_mem_exact _ _, debitAll_cpu_exact _ _, ?_⟩
  intro hno
  rw [assignedTo_eq_nil plan (canonicalTasks tasks) j
    (by rw [canonicalTasks_length]; exact hno), debitAll_nil]

theorem applyPlan_debits_witness :
    ∃ out, applyPlan [1, 0] [("task-0", ⟨⟨128 * MB, 250000000⟩⟩), ("task-1", ⟨⟨128 * MB, 250000000⟩⟩)]
        [⟨⟨1024 * MB, 4 * CORE⟩, ⟨1024 * MB, 4 * CORE⟩⟩, ⟨⟨1024 * MB, 4 * CORE⟩, ⟨1024 * MB, 4 * CORE⟩⟩]
          = some out ∧ out.length = 2 := by
  obtain ⟨out, h1, h2, -⟩ := applyPlan_debits [1, 0]
    [("task-0", ⟨⟨128 * MB, 250000000⟩⟩), ("task-1", ⟨⟨128 * MB, 250000000⟩⟩)]
    [⟨⟨1024 * MB, 4 * CORE⟩, ⟨1024 * MB, 4 * CORE⟩⟩, ⟨⟨1024 * MB, 4 * CORE⟩, ⟨1024 * MB, 4 * CORE⟩⟩]
    (by
      intro i hi
      simp only [List.length_cons, List.length_nil] at hi
      interval_cases i <;> simp)
  exact ⟨out, h1, h2⟩

/-! ## `greedyInit` -/

theorem Get_Set (m : DenseMatrix) (i j : Nat) (v : F64) (a b : Nat) :
    (m.Set i j v).Get a b = if a = i ∧ b = j then v else m.Get a b := rfl

theorem rows_Set (m : DenseMatrix) (i j : Nat) (v : F64) : (m.Set i j v).rows = m.rows := rfl

theorem cols_Set (m : DenseMatrix) (i j : Nat) (v : F64) : (m.Set i j v).cols = m.cols := rfl

theorem fillCols_spec (nodes : List NodeInfo) (i : Nat) (TAU : DenseMatrix)
    (hz : ∀ b, TAU.Get i b = F64.zero) (c : Nat) :
    let m := (List.range c).foldl
      (fun m j => if F64.beq (m.Get i j) F64.zero then m.Set i j (P (nodes.getD j default)) else m)
      TAU
    m.rows = TAU.rows ∧ m.cols = TAU.cols ∧
      ∀ a b, m.Get a b = if a = i ∧ b < c then P (nodes.getD b default) else TAU.Get a b := by
  induction c with
  | zero => simp
  | succ c ih =>
    obtain ⟨h1, h2, h3⟩ := ih
    simp only [List.range_succ, List.foldl_append, List.foldl_cons, List.foldl_nil]
    have hcell := h3 i c
    simp only [lt_self_iff_false, and_false, if_false] at hcell
    rw [hcell, hz c]
    have hb : F64.beq F64.zero F64.zero = true := by simp [F64.beq, F64.zero]
    rw [if_pos hb]
    refine ⟨by rw [rows_Set, h1], by rw [cols_Set, h2], ?_⟩
    intro a b
    rw [Get_Set, h3 a b]
    by_cases ha : a = i
    · by_cases hbc : b = c
      · simp [ha, hbc]
      · have : (b < c + 1) ↔ b < c := by omega
        simp [ha, hbc, this]
    · simp [ha]

theorem fillRow_spec (nodes : List NodeInfo) (i : Nat) (TAU : DenseMatrix)
    (hz : ∀ b, TAU.Get i b = F64.zero) :
    (fillRow nodes i TAU).rows = TAU.rows ∧ (fillRow nodes i TAU).cols = TAU.cols ∧
      ∀ a b, (fillRow nodes i TAU).Get a b
        = if a = i ∧ b < TAU.cols then P (nodes.getD b default) else TAU.Get a b :=
  fillCols_spec nodes i TAU hz TAU.cols

theorem fillRows_spec (nodes : List NodeInfo) (rows cols r : Nat) :
    let m := (List.range r).foldl (fun m i => fillRow nodes i m) (DenseMatrix.Zeros rows cols)
    m.rows = rows ∧ m.cols = cols ∧
      ∀ a b, m.Get a b = if a < r ∧ b < cols then P (nodes.getD b default) else F64.zero := by
  induction r with
  | zero => exact ⟨rfl, rfl, fun a b => by simp [DenseMatrix.Zeros, DenseMatrix.Get]⟩
  | succ r ih =>
    obtain ⟨h1, h2, h3⟩ := ih
    simp only [List.range_succ, List.foldl_append, List.foldl_cons, List.foldl_nil]
    have hz : ∀ b, ((List.range r).foldl (fun m i => fillRow nodes i m)
        (DenseMatrix.Zeros rows cols)).Get r b = F64.zero := by
      intro b; rw [h3]; simp
    obtain ⟨g1, g2, g3⟩ := fillRow_spec nodes r _ hz
    refine ⟨by rw [g1, h1], by rw [g2, h2], ?_⟩
    intro a b
    rw [g3, h3, h2]
    by_cases ha : a = r
    · by_cases hb : b < cols <;> simp [ha, hb]
    · have : (a < r + 1) ↔ a < r := by omega
      simp [ha, this]

theorem fillAll_spec (nodes : List NodeInfo) (rows cols : Nat) :
    (fillAll nodes (DenseMatrix.Zeros rows cols)).rows = rows ∧
      (fillAll nodes (DenseMatrix.Zeros rows cols)).cols = cols ∧
      ∀ a b, (fillAll nodes (DenseMatrix.Zeros rows cols)).Get a b
        = if a < rows ∧ b < cols then P (nodes.getD b default) else F64.zero :=
  fillRows_spec nodes rows cols rows

theorem rrOn_append_singleton (done : List Task) (t : Task) (N j : Nat) :
    rrOn (done ++ [t]) N j
      = if done.length % N = j then rrOn done N j ++ [t] else rrOn done N j := by
  unfold rrOn
  rw [List.enum_append, List.enumFrom_singleton, List.filter_append, List.map_append]
  by_cases h : done.length % N = j <;> simp [List.filter_cons, h]

theorem debitAll_append (node : NodeInfo) (ts us : List Task) :
    debitAll node (ts ++ us) = debitAll (debitAll node ts) us := by
  simp [debitAll, List.foldl_append]

theorem greedyLoop_spec (nodes0 : List NodeInfo) (N : Nat) (hN : 0 < N) (rest : List Task) :
    ∀ (done : List Task) (TAU : DenseMatrix) (cur : List NodeInfo),
      cur.length = N →
      (∀ j < N, cur.getD j default = debitAll (nodes0.getD j default) (rrOn done N j)) →
      ∃ TAU' nodes', greedyLoop rest done.length (done.length % N) TAU cur = some (TAU', nodes') ∧
        TAU'.rows = TAU.rows ∧ TAU'.cols = TAU.cols ∧ nodes'.length = N ∧
        (∀ j < N, nodes'.getD j default
          = debitAll (nodes0.getD j default) (rrOn (done ++ rest) N j)) ∧
        ∀ i j, TAU'.Get i j =
          if done.length ≤ i ∧ i < done.length + rest.length ∧ j = i % N then
            P (debitAll (nodes0.getD j default) (rrOn ((done ++ rest).take (i + 1)) N j))
          else TAU.Get i j := by
  induction rest with
  | nil =>
    intro done TAU cur hlen hcur
    refine ⟨TAU, cur, rfl, rfl, rfl, hlen, by simpa using hcur, ?_⟩
    intro i j
    have : ¬ (done.length ≤ i ∧ i < done.length + ([] : List Task).length ∧ j = i % N) := by
      simp only [List.length_nil]; omega
    rw [if_neg this]
  | cons t rest ih =>
    intro done TAU cur hlen hcur
    have hcol : done.length % N < N := Nat.mod_lt _ hN
    have hget : cur[done.length % N]? = some (cur.getD (done.length % N) default) := by
      rw [List.getD_eq_getElem?_getD, List.getElem?_eq_getElem (by omega)]; rfl
    have hstep : ∀ j < N,
        (cur.set (done.length % N) (debit (cur.getD (done.length % N) default) t)).getD j default
          = debitAll (nodes0.getD j default) (rrOn (done ++ [t]) N j) := by
      intro j hj
      rw [rrOn_append_singleton]
      by_cases hjc : done.length % N = j
      · rw [if_pos hjc, debitAll_append, ← hcur j hj, ← hjc]
        simp [List.getD_eq_getElem?_getD, List.getElem?_set, hlen, hcol, debitAll]
      · rw [if_neg hjc, ← hcur j hj]
        simp [List.getD_eq_getElem?_getD, List.getElem?_set, hjc]
    have hlen' : (cur.set (done.length % N)
        (debit (cur.getD (done.length % N) default) t)).length = N := by simpa using hlen
    obtain ⟨TAU', nodes', hrun, hr, hc, hl, hn, hcells⟩ :=
      ih (done ++ [t])
        (TAU.Set done.length (done.length % N) (P (debit (cur.getD (done.length % N) default) t)))
        _ hlen' hstep
    have hmod : (done ++ [t]).length % N = (done.length % N + 1) % N := by
      simp [Nat.add_mod]
    refine ⟨TAU', nodes', ?_, by rw [hr, rows_Set], by rw [hc, cols_Set], hl,
      by simpa using hn, ?_⟩
    · simp only [greedyLoop, hget, hlen]
      rw [hmod] at hrun
      simpa using hrun
    · intro i j
      rw [hcells i j, Get_Set]
      simp only [List.length_append, List.length_cons, List.length_nil, List.append_assoc,
        List.singleton_append]
      by_cases hi : i = done.length
      · by_cases hj : j = done.length % N
        · have h1 : ¬ (done.length + (0 + 1) ≤ i ∧ i < done.length + (0 + 1) + rest.length ∧
              j = i % N) := by omega
          have h2 : done.length ≤ i ∧ i < done.length + (rest.length + 1) ∧ j = i % N := by
            subst hi; exact ⟨le_refl _, by omega, hj⟩
          rw [if_neg h1, if_pos ⟨hi, hj⟩, if_pos h2]
          have htake : (done ++ t :: rest).take (i + 1) = done ++ [t] := by
            rw [hi, List.take_append_eq_append_take]
            simp
          rw [htake, ← hstep j (by omega), hj]
          simp [List.getD_eq_getElem?_getD, List.getElem?_set, hlen, hcol]
        · have h1 : ¬ (done.length + (0 + 1) ≤ i ∧ i < done.length + (0 + 1) + rest.length ∧
              j = i % N) := by omega
          have h2 : ¬ (done.length ≤ i ∧ i < done.length + (rest.length + 1) ∧ j = i % N) := by
            subst hi; tauto
          have h3 : ¬ (i = done.length ∧ j = done.length % N) := by tauto
          rw [if_neg h1, if_neg h3, if_neg h2]
      · have h3 : ¬ (i = done.length ∧ j = done.length % N) := by tauto
        rw [if_neg h3]
        by_cases hc1 : done.length + (0 + 1) ≤ i ∧ i < done.length + (0 + 1) + rest.length ∧
            j = i % N
        · have h2 : done.length ≤ i ∧ i < done.length + (rest.length + 1) ∧ j = i % N := by
            omega
          rw [if_pos hc1, if_pos h2]
        · have h2 : ¬ (done.length ≤ i ∧ i < done.length + (rest.length + 1) ∧ j = i % N) := by
            omega
          rw [if_neg hc1, if_neg h2]

theorem greedyLoop_length {rest : List Task} {row col : Nat} {TAU TAU' : DenseMatrix}
    {cur nodes' : List NodeInfo} (h : greedyLoop rest row col TAU cur = some (TAU', nodes')) :
    nodes'.length = cur.length := by
  induction rest generalizing row col TAU cur with
  | nil => simp only [greedyLoop, Option.some.injEq, Prod.mk.injEq] at h; rw [← h.2]
  | cons t rest ih =>
    simp only [greedyLoop] at h
    split at h
    · exact absurd h (by simp)
    · rw [ih h]; simp

theorem greedyInit_spec (taskGroup : TaskGroup) (nodes : List NodeInfo)
    (hN : 1 ≤ nodes.length) :
    ∃ TAU nodes', greedyInit taskGroup nodes = some (TAU, nodes') ∧
      TAU.rows = taskGroup.length ∧ TAU.cols = nodes.length ∧ nodes'.length = nodes.length ∧
      (∀ j < nodes.length, nodes'.getD j default
        = debitAll (nodes.getD j default) (rrOn (canonicalTasks taskGroup) nodes.length j)) ∧
      ∀ i < taskGroup.length, ∀ j < nodes.length,
        TAU.Get i j =
          if j = i % nodes.length then
            P (debitAll (nodes.getD j default)
              (roundRobinTasks (canonicalTasks taskGroup) nodes.length i))
          else P (nodes.getD j default) := by
  obtain ⟨TAU, nodes', hrun, hr, hc, hl, hn, hcells⟩ :=
    greedyLoop_spec nodes nodes.length (by omega) (canonicalTasks taskGroup) []
      (fillAll nodes (DenseMatrix.Zeros taskGroup.length nodes.length)) nodes rfl
      (fun j _ => by simp [rrOn, debitAll])
  obtain ⟨f1, f2, f3⟩ := fillAll_spec nodes taskGroup.length nodes.length
  refine ⟨TAU, nodes', ?_, by rw [hr, f1], by rw [hc, f2], hl, by simpa using hn, ?_⟩
  · simpa [greedyInit] using hrun
  · intro i hi j hj
    rw [hcells i j, f3]
    simp only [List.length_nil, Nat.zero_le, Nat.zero_add, List.nil_append, true_and,
      canonicalTasks_length]
    by_cases hji : j = i % nodes.length
    · rw [if_pos ⟨hi, hji⟩, if_pos hji, roundRobinTasks, ← hji]
    · have : ¬ (i < taskGroup.length ∧ j = i % nodes.length) := by tauto
      rw [if_neg this, if_neg hji, if_pos ⟨hi, hj⟩]

/-- C9. On a non-empty node vector `greedyInit` returns a `T × N` matrix whose
cell `(i, j)` is `P` of node `j` with its input available resources when
`j ≠ i mod N`, and `P` of node `i mod N` debited by the tasks `m ≤ i` with
`m ≡ i (mod N)` (sorted task-id order) when `j = i mod N`.  The debit is made
whether or not the task fits: the debited amounts are the input amounts minus
the summed reservations in `int64` arithmetic, with no lower bound. -/
theorem greedyInit_cells (taskGroup : TaskGroup) (nodes : List NodeInfo)
    (hN : 1 ≤ nodes.length) :
    ∃ TAU nodes', greedyInit taskGroup nodes = some (TAU, nodes') ∧
      TAU.rows = taskGroup.length ∧ TAU.cols = nodes.length ∧
      ∀ i < taskGroup.length, ∀ j < nodes.length,
        (j ≠ i % nodes.length → TAU.Get i j = P (nodes.getD j default)) ∧
        (j = i % nodes.length →
          TAU.Get i j = P (debitAll (nodes.getD j default)
              (roundRobinTasks (canonicalTasks taskGroup) nodes.length i)) ∧
          (debitAll (nodes.getD j default)
              (roundRobinTasks (canonicalTasks taskGroup) nodes.length i)).Description
            = (nodes.getD j default).Description ∧
          (isInt64 ((nodes.getD j default).AvailableResources.MemoryBytes
              - memSum (roundRobinTasks (canonicalTasks taskGroup) nodes.length i)) →
            (debitAll (nodes.getD j default)
              (roundRobinTasks (canonicalTasks taskGroup) nodes.length i)).AvailableResources.MemoryBytes
              = (nodes.getD j default).AvailableResources.MemoryBytes
                - memSum (roundRobinTasks (canonicalTasks taskGroup) nodes.length i)) ∧
          (isInt64 ((nodes.getD j default).AvailableResources.NanoCPUs
              - cpuSum (roundRobinTasks (canonicalTasks taskGroup) nodes.length i)) →
            (debitAll (nodes.getD j default)
              (roundRobinTasks (canonicalTasks taskGroup) nodes.length i)).AvailableResources.NanoCPUs
              = (nodes.getD j default).AvailableResources.NanoCPUs
                - cpuSum (roundRobinTasks (canonicalTasks taskGroup) nodes.length i))) := by
  obtain ⟨TAU, nodes', hrun, hr, hc, -, -, hcells⟩ := greedyInit_spec taskGroup nodes hN
  refine ⟨TAU, nodes', hrun, hr, hc, ?_⟩
  intro i hi j hj
  refine ⟨fun hne => ?_, fun heq => ⟨?_, debitAll_Description _ _, debitAll_mem_exact _ _,
    debitAll_cpu_exact _ _⟩⟩
  · rw [hcells i hi j hj, if_neg hne]
  · rw [hcells i hi j hj, if_pos heq]

theorem greedyInit_cells_witness :
    ∃ TAU nodes', greedyInit [("task-0", ⟨⟨700 * MB, CORE⟩⟩)]
        (mockNodes 3 (512 * MB) (4 * CORE)) = some (TAU, nodes') ∧
      TAU.Get 0 1 = F64.fin 1 ∧
      TAU.Get 0 0 = P ⟨⟨512 * MB, 4 * CORE⟩, ⟨512 * MB - 700 * MB, 3 * CORE⟩⟩ ∧
      512 * MB - 700 * MB < 0 := by
  obtain ⟨TAU, nodes', hrun, -, -, hcells⟩ := greedyInit_cells [("task-0", ⟨⟨700 * MB, CORE⟩⟩)]
    (mockNodes 3 (512 * MB) (4 * CORE)) (by decide)
  refine ⟨TAU, nodes', hrun, ?_, ?_, by decide⟩
  · rw [(hcells 0 (by decide) 1 (by decide)).1 (by decide)]
    decide!
  · rw [((hcells 0 (by decide) 0 (by decide)).2 (by decide)).1]
    rfl

/-! ## The utilities -/

theorem arg_maxLoop_range (items : List F64) :
    ∀ (i : Nat) (max_val : F64) (max_i : Int),
      arg_maxLoop items i max_val max_i = max_i ∨
        ((i : Int) ≤ arg_maxLoop items i max_val max_i ∧
          arg_maxLoop items i max_val max_i < (i + items.length : Nat)) := by
  induction items with
  | nil => intro i mv mi; left; rfl
  | cons x xs ih =>
    intro i mv mi
    simp only [arg_maxLoop]
    split
    · rcases ih (i + 1) x i with h | ⟨h1, h2⟩
      · right; rw [h]; simp only [List.length_cons]; omega
      · right; simp only [List.length_cons]; omega
    · rcases ih (i + 1) mv mi with h | ⟨h1, h2⟩
      · left; exact h
      · right; simp only [List.length_cons]; omega

theorem arg_max_range (items : List F64) :
    arg_max items = -1 ∨ (0 ≤ arg_max items ∧ arg_max items < items.length) := by
  rcases arg_maxLoop_range items 0 (F64.fin (-1)) (-1) with h | ⟨h1, h2⟩
  · left; exact h
  · right; exact ⟨by simpa using h1, by simpa using h2⟩

theorem pickLoop_range (p : F64) (items : List F64) :
    ∀ (i : Nat) (cum : F64),
      pickLoop p items i cum = 0 ∨
        ((i : Int) ≤ pickLoop p items i cum ∧ pickLoop p items i cum < (i + items.length : Nat)) := by
  induction items with
  | nil => intro i cum; left; rfl
  | cons x xs ih =>
    intro i cum
    simp only [pickLoop]
    split
    · right; simp only [List.length_cons]; omega
    · rcases ih (i + 1) (F64.add cum x) with h | ⟨h1, h2⟩
      · left; exact h
      · right; simp only [List.length_cons]; omega

theorem pick_range (items : List F64) (g : Rand) (h : 0 < items.length) :
    0 ≤ (pick items g).1 ∧ (pick items g).1 < items.length := by
  rcases pickLoop_range g.Float64.1 items 0 F64.zero with h0 | ⟨h1, h2⟩
  · simp only [pick, h0]; omega
  · simp only [pick]; exact ⟨by simpa using h1, by simpa using h2⟩

/-! ## The candidate scan -/

theorem scanStep_length (env : Env) (config : Config) (TAU : DenseMatrix) (nodes : List NodeInfo)
    (task_idx : Nat) (task : Task) (st : List F64 × F64) (node_idx : Nat) :
    (scanStep env config TAU nodes task_idx task st node_idx).1.length = st.1.length := by
  unfold scanStep
  simp only
  split <;> simp

theorem scan_foldl_length (env : Env) (config : Config) (TAU : DenseMatrix) (nodes : List NodeInfo)
    (task_idx : Nat) (task : Task) (nodeOrders : List Nat) :
    ∀ st : List F64 × F64,
      (nodeOrders.foldl (scanStep env config TAU nodes task_idx task) st).1.length
        = st.1.length := by
  induction nodeOrders with
  | nil => intro st; rfl
  | cons x xs ih => intro st; rw [List.foldl_cons, ih, scanStep_length]

theorem scan_length (env : Env) (config : Config) (TAU : DenseMatrix) (nodes : List NodeInfo)
    (nodeOrders : List Nat) (task_idx : Nat) (task : Task) :
    (scan env config TAU nodes nodeOrders task_idx task).1.length = nodes.length := by
  unfold scan
  rw [scan_foldl_length]
  simp

theorem probs_length (ph : List F64 × F64) : (probs ph).length = ph.1.length := by
  simp [probs]

theorem decide_j_range (config : Config) (p : List F64) (g : Rand) (h : 0 < p.length) :
    validEntry p.length (decide_j config p g).1 := by
  unfold decide_j
  split
  · rcases arg_max_range p with h1 | h1
    · left; exact h1
    · right; exact h1
  · right; exact pick_range p _ h

/-! ## The reset -/

theorem resetNodes_foldl_length (refResources : List Resources) (l : List Nat) :
    ∀ nodes : List NodeInfo,
      (l.foldl
        (fun ns n =>
          ns.set n
            { ns.getD n default with
              AvailableResources :=
                { MemoryBytes := (refResources.getD n ⟨0, 0⟩).MemoryBytes
                  NanoCPUs := (refResources.getD n ⟨0, 0⟩).NanoCPUs } })
        nodes).length = nodes.length := by
  induction l with
  | nil => intro nodes; rfl
  | cons x xs ih => intro nodes; rw [List.foldl_cons, ih]; simp

theorem resetNodes_length (refResources : List Resources) (nodes : List NodeInfo) :
    (resetNodes refResources nodes).length = nodes.length :=
  resetNodes_foldl_length refResources _ nodes

/-! ## One ant -/

theorem taskStep_nodes_length (env : Env) (config : Config) (nodeOrders : List Nat) (T : Nat)
    (st : AntState) (task_idx : Nat) (task : Task) :
    (taskStep env config nodeOrders T st task_idx task).nodes.length = st.nodes.length := by
  unfold taskStep
  simp only
  split <;> simp

theorem taskStep_plan (env : Env) (config : Config) (nodeOrders : List Nat) (T : Nat)
    (st : AntState) (task_idx : Nat) (task : Task) :
    (taskStep env config nodeOrders T st task_idx task).plan
      = st.plan.set task_idx
        (decide_j config (probs (scan env config st.TAU st.nodes nodeOrders task_idx task))
          st.rng).1 := by
  unfold taskStep
  simp only
  split <;> rfl

theorem taskLoop_spec (env : Env) (config : Config) (nodeOrders : List Nat) (T N : Nat)
    (hN : 0 < N) (tasks : List Task) :
    ∀ (task_idx : Nat) (st : AntState), st.nodes.length = N →
      (taskLoop env config nodeOrders T tasks task_idx st).nodes.length = N ∧
      (taskLoop env config nodeOrders T tasks task_idx st).plan.length = st.plan.length ∧
      ∀ i,
        (task_idx ≤ i → i < task_idx + tasks.length → i < st.plan.length →
          ∃ x, (taskLoop env config nodeOrders T tasks task_idx st).plan[i]? = some x ∧
            validEntry N x) ∧
        ((i < task_idx ∨ task_idx + tasks.length ≤ i) →
          (taskLoop env config nodeOrders T tasks task_idx st).plan[i]? = st.plan[i]?) := by
  induction tasks with
  | nil =>
    intro task_idx st h
    refine ⟨h, rfl, fun i => ⟨fun h1 h2 _ => ?_, fun _ => rfl⟩⟩
    simp only [List.length_nil] at h2; omega
  | cons t ts ih =>
    intro task_idx st h
    have hlen := taskStep_nodes_length env config nodeOrders T st task_idx t
    obtain ⟨h1, h2, h3⟩ := ih (task_idx + 1) (taskStep env config nodeOrders T st task_idx t)
      (by rw [hlen, h])
    have hplan := taskStep_plan env config nodeOrders T st task_idx t
    have hpl : (taskStep env config nodeOrders T st task_idx t).plan.length = st.plan.length := by
      rw [hplan]; simp
    refine ⟨h1, by rw [← hpl]; exact h2, ?_⟩
    intro i
    simp only [taskLoop, List.length_cons]
    constructor
    · intro hi1 hi2 hi3
      by_cases hi : i = task_idx
      · rw [(h3 i).2 (Or.inl (by omega)), hplan, hi]
        refine ⟨_, by rw [List.getElem?_set_self (by omega)], ?_⟩
        have := decide_j_range config
          (probs (scan env config st.TAU st.nodes nodeOrders task_idx t)) st.rng
          (by rw [probs_length, scan_length, h]; exact hN)
        rwa [probs_length, scan_length, h] at this
      · exact (h3 i).1 (by omega) (by omega) (by rw [hpl]; exact hi3)
    · intro hi
      rw [(h3 i).2 (by omega), hplan, List.getElem?_set_ne (by omega)]

/-! ## The tally -/

theorem countIn_tally (L : List (Plan × Nat)) (w q : Plan) :
    countIn (tally L w) q = countIn L q + if q = w then 1 else 0 := by
  induction L with
  | nil =>
    by_cases h : q = w
    · simp [tally, countIn, h]
    · have h' : ¬ w = q := fun e => h e.symm
      simp [tally, countIn, h, h']
  | cons e L ih =>
    obtain ⟨p, c⟩ := e
    simp only [tally]
    by_cases hp : p = w
    · rw [if_pos hp]
      by_cases hq : q = w
      · simp [countIn, hp, hq]
      · have h' : ¬ w = q := fun e => hq e.symm
        simp [countIn, hp, hq, h']
    · rw [if_neg hp]
      simp only [countIn]
      by_cases hpq : p = q
      · have : ¬ q = w := fun e => hp (hpq.trans e)
        simp [hpq, this]
      · simp [hpq, ih]

theorem keys_tally (L : List (Plan × Nat)) (w : Plan) :
    (tally L w).map Prod.fst
      = if w ∈ L.map Prod.fst then L.map Prod.fst else L.map Prod.fst ++ [w] := by
  induction L with
  | nil => simp [tally]
  | cons e L ih =>
    obtain ⟨p, c⟩ := e
    simp only [tally]
    by_cases hp : p = w
    · simp [hp]
    · have h' : ¬ w = p := fun e => hp e.symm
      rw [if_neg hp]
      simp only [List.map_cons, ih, List.mem_cons, h', false_or]
      split <;> simp

theorem countIn_of_mem (L : List (Plan × Nat)) (hnd : (L.map Prod.fst).Nodup)
    (e : Plan × Nat) (he : e ∈ L) : countIn L e.1 = e.2 := by
  induction L with
  | nil => exact absurd he (by simp)
  | cons a L ih =>
    obtain ⟨p, c⟩ := a
    simp only [List.map_cons, List.nodup_cons] at hnd
    rcases List.mem_cons.1 he with h | h
    · simp [countIn, h]
    · have : p ≠ e.1 := by
        intro hpe
        exact hnd.1 (hpe ▸ List.mem_map_of_mem Prod.fst h)
      simp only [countIn, if_neg this]
      exact ih hnd.2 h

theorem tallyAll_spec (ws : List Plan) :
    ∀ L : List (Plan × Nat), (L.map Prod.fst).Nodup →
      ((ws.foldl tally L).map Prod.fst).Nodup ∧
      (∀ q, countIn (ws.foldl tally L) q = countIn L q + ws.count q) ∧
      (∀ q, q ∈ (ws.foldl tally L).map Prod.fst ↔ q ∈ L.map Prod.fst ∨ q ∈ ws) := by
  induction ws with
  | nil => intro L h; exact ⟨h, fun q => by simp, fun q => by simp⟩
  | cons w ws ih =>
    intro L h
    have hk := keys_tally L w
    have hnd : ((tally L w).map Prod.fst).Nodup := by
      rw [hk]
      split
      · exact h
      · rename_i hw
        exact List.Nodup.append h (List.nodup_singleton w) (by simpa using hw)
    obtain ⟨h1, h2, h3⟩ := ih (tally L w) hnd
    refine ⟨h1, ?_, ?_⟩
    · intro q
      rw [List.foldl_cons, h2, countIn_tally, List.count_cons]
      by_cases hq : q = w
      · simp [hq]; omega
      · have h' : ¬ w = q := fun e => hq e.symm
        simp [hq, h']
    · intro q
      rw [List.foldl_cons, h3, hk]
      by_cases hw : w ∈ L.map Prod.fst
      · rw [if_pos hw]
        constructor
        · rintro (h | h)
          · exact Or.inl h
          · exact Or.inr (List.mem_cons_of_mem _ h)
        · rintro (h | h)
          · exact Or.inl h
          · rcases List.mem_cons.1 h with h | h
            · exact Or.inl (h ▸ hw)
            · exact Or.inr h
      · rw [if_neg hw]
        simp only [List.mem_append, List.mem_singleton, List.mem_cons]
        tauto

/-- The tally of the plans `ws`: every entry holds a plan of `ws` with the
number of its occurrences, and every plan of `ws` has an entry. -/
theorem tallyAll_nil_spec (ws : List Plan) :
    (∀ e ∈ ws.foldl tally [], e.1 ∈ ws ∧ e.2 = ws.count e.1) ∧
      ∀ q ∈ ws, (q, ws.count q) ∈ ws.foldl tally [] := by
  obtain ⟨h1, h2, h3⟩ := tallyAll_spec ws [] (by simp)
  constructor
  · intro e he
    have hk : e.1 ∈ (ws.foldl tally []).map Prod.fst := List.mem_map_of_mem Prod.fst he
    refine ⟨by simpa using (h3 e.1).1 hk, ?_⟩
    rw [← countIn_of_mem _ h1 e he, h2]
    simp [countIn]
  · intro q hq
    have hk : q ∈ (ws.foldl tally []).map Prod.fst := (h3 q).2 (Or.inr hq)
    obtain ⟨e, he, rfl⟩ := List.mem_map.1 hk
    have := countIn_of_mem _ h1 e he
    rw [h2] at this
    simp only [countIn, Nat.zero_add] at this
    rw [this]
    exact he

/-! ## The selection of the most frequent plan -/

theorem selectMax_foldl (E : List (Plan × Nat)) :
    ∀ acc : Nat × Plan,
      let r := E.foldl (fun acc e => if e.2 > acc.1 then (e.2, e.1) else acc) acc
      acc.1 ≤ r.1 ∧ (∀ e ∈ E, e.2 ≤ r.1) ∧ (r = acc ∨ (r.2, r.1) ∈ E) := by
  induction E with
  | nil => intro acc; simp
  | cons a E ih =>
    intro acc
    simp only [List.foldl_cons]
    obtain ⟨h1, h2, h3⟩ := ih (if a.2 > acc.1 then (a.2, a.1) else acc)
    by_cases ha : a.2 > acc.1
    · simp only [if_pos ha] at h1 h2 h3 ⊢
      refine ⟨by omega, ?_, ?_⟩
      · intro e he
        rcases List.mem_cons.1 he with h | h
        · rw [h]; exact h1
        · exact h2 e h
      · right
        rcases h3 with h | h
        · rw [h]; exact List.mem_cons_self _ _
        · exact List.mem_cons_of_mem _ h
    · simp only [if_neg ha] at h1 h2 h3 ⊢
      refine ⟨h1, ?_, ?_⟩
      · intro e he
        rcases List.mem_cons.1 he with h | h
        · rw [h]; omega
        · exact h2 e h
      · rcases h3 with h | h
        · exact Or.inl h
        · exact Or.inr (List.mem_cons_of_mem _ h)

theorem selectMax_spec (E : List (Plan × Nat)) (h : ∃ e ∈ E, 0 < e.2) :
    ((selectMax E).2, (selectMax E).1) ∈ E ∧ ∀ e ∈ E, e.2 ≤ (selectMax E).1 := by
  obtain ⟨-, h2, h3⟩ := selectMax_foldl E (0, zeroPlan)
  have h2' : ∀ e ∈ E, e.2 ≤ (selectMax E).1 := h2
  have h3' : selectMax E = (0, zeroPlan) ∨ ((selectMax E).2, (selectMax E).1) ∈ E := h3
  refine ⟨?_, h2'⟩
  rcases h3' with h3' | h3'
  · obtain ⟨e, he, hpos⟩ := h
    have := h2' e he
    rw [h3'] at this
    simp only at this
    omega
  · exact h3'

/-! ## The colony -/

theorem antLoop_plans (env : Env) (config : Config) (tasks : List Task)
    (refResources : List Resources) (n : Nat) :
    ∀ st : ColonyState,
      (antLoop env config tasks refResources n st).plans
        = (antPlans env config tasks refResources n st).foldl tally st.plans := by
  induction n with
  | zero => intro st; rfl
  | succ n ih => intro st; simp only [antLoop, antPlans, List.foldl_cons]; rw [ih]; rfl

theorem antPlans_length (env : Env) (config : Config) (tasks : List Task)
    (refResources : List Resources) (n : Nat) :
    ∀ st : ColonyState, (antPlans env config tasks refResources n st).length = n := by
  induction n with
  | zero => intro st; rfl
  | succ n ih => intro st; simp only [antPlans, List.length_cons]; rw [ih]

/-- Induction over the ants: what every ant's plan satisfies, given an invariant
of the colony. -/
theorem antPlans_forall (env : Env) (config : Config) (tasks : List Task)
    (refResources : List Resources) (Inv : ColonyState → Prop) (Good : Plan → Prop)
    (hstep : ∀ st, Inv st →
      Good (antRun env config tasks refResources st).plan ∧
        Inv (antStep env config tasks refResources st))
    (n : Nat) :
    ∀ st : ColonyState, Inv st → ∀ w ∈ antPlans env config tasks refResources n st, Good w := by
  induction n with
  | zero => intro st _ w hw; exact absurd hw (by simp [antPlans])
  | succ n ih =>
    intro st hst w hw
    simp only [antPlans, List.mem_cons] at hw
    rcases hw with h | h
    · rw [h]; exact (hstep st hst).1
    · exact ih _ (hstep st hst).2 w h

theorem rnd_natCast_le (c : Nat) (a : Int) (ha64 : a < 2 ^ 63) (hc : (c : Int) ≤ a) :
    0 ≤ F64.rnd (c : ℚ) ∧ F64.rnd (c : ℚ) ≤ F64.rnd (a : ℚ) ∧ F64.rnd (a : ℚ) ≤ F64.pow2 63 := by
  have h1 : ((c : ℚ)) ≤ (a : ℚ) := by exact_mod_cast hc
  have h2 : (a : ℚ) ≤ F64.pow2 63 := by
    rw [pow2_63]; exact_mod_cast ha64.le
  have h3 := rnd_mono h2
  rw [rnd_pow2 63 (by norm_num)] at h3
  exact ⟨rnd_nonneg (by positivity), rnd_mono h1, h3⟩

theorem ofInt_of_abs_le (x : Int) (h : |x| ≤ 2 ^ 63) :
    F64.ofInt x = F64.fin (F64.rnd (x : ℚ)) := by
  unfold F64.ofInt
  apply round_eq_fin
  have h1 : |(x : ℚ)| ≤ F64.pow2 63 := by
    rw [pow2_63, ← Int.cast_abs]; exact_mod_cast h
  exact le_trans h1 (pow2_le_pow2.2 (by norm_num))

/-- The quotient `float64(c) / float64(a)` of a count `c ≤ a` by a number of
ants `a` that is an `int`: a finite number, positive for `c ≥ 1`, at most `1`,
`1` for `c = a`, and the rounding of `c / a` for `a < 2^53`. -/
theorem div_ofInt_count (c : Nat) (a : Int) (ha : 1 ≤ a) (ha64 : a < 2 ^ 63)
    (hc : (c : Int) ≤ a) :
    F64.div (F64.ofInt (c : Int)) (F64.ofInt a)
        = F64.fin (F64.rnd (F64.rnd (c : ℚ) / F64.rnd (a : ℚ))) ∧
      (1 ≤ c → 0 < F64.rnd (F64.rnd (c : ℚ) / F64.rnd (a : ℚ))) ∧
      F64.rnd (F64.rnd (c : ℚ) / F64.rnd (a : ℚ)) ≤ 1 ∧
      ((c : Int) = a → F64.rnd (F64.rnd (c : ℚ) / F64.rnd (a : ℚ)) = 1) ∧
      (a < 2 ^ 53 →
        F64.div (F64.ofInt (c : Int)) (F64.ofInt a) = F64.round ((c : ℚ) / (a : ℚ))) := by
  obtain ⟨c0, cle, a63⟩ := rnd_natCast_le c a ha64 hc
  have a1 : 1 ≤ F64.rnd (a : ℚ) := by
    have := rnd_mono (show (1 : ℚ) ≤ (a : ℚ) by exact_mod_cast ha)
    rwa [rnd_one] at this
  have apos : 0 < F64.rnd (a : ℚ) := lt_of_lt_of_le one_pos a1
  have hq0 : 0 ≤ F64.rnd (c : ℚ) / F64.rnd (a : ℚ) := div_nonneg c0 apos.le
  have hq1 : F64.rnd (c : ℚ) / F64.rnd (a : ℚ) ≤ 1 := (div_le_one apos).2 cle
  have hone : (1 : ℚ) ≤ F64.pow2 1023 := by
    rw [← pow2_zero]; exact pow2_le_pow2.2 (by norm_num)
  have e1 : F64.ofInt ((c : Nat) : Int) = F64.fin (F64.rnd (c : ℚ)) := by
    have := ofInt_of_abs_le (c : Int) (by rw [abs_of_nonneg (by omega)]; omega)
    simpa using this
  have e2 : F64.ofInt a = F64.fin (F64.rnd (a : ℚ)) :=
    ofInt_of_abs_le a (by rw [abs_of_nonneg (by omega)]; omega)
  have ediv : F64.div (F64.ofInt (c : Int)) (F64.ofInt a)
      = F64.round (F64.rnd (c : ℚ) / F64.rnd (a : ℚ)) := by
    rw [e1, e2]
    simp only [F64.div, if_neg apos.ne']
  refine ⟨?_, ?_, ?_, ?_, ?_⟩
  · rw [ediv]
    exact round_eq_fin (by rw [abs_of_nonneg hq0]; exact le_trans hq1 hone)
  · intro hc1
    have c1 : 1 ≤ F64.rnd (c : ℚ) := by
      have := rnd_mono (show (1 : ℚ) ≤ (c : ℚ) by exact_mod_cast hc1)
      rwa [rnd_one] at this
    have hlow : F64.pow2 (-63) ≤ F64.rnd (c : ℚ) / F64.rnd (a : ℚ) := by
      rw [le_div_iff₀ apos]
      have e : F64.pow2 (-63) * F64.pow2 63 = 1 := by
        rw [← pow2_add]; exact pow2_zero
      have := mul_le_mul_of_nonneg_left a63 (pow2_pos (-63)).le
      rw [e] at this
      linarith
    have := rnd_mono hlow
    rw [rnd_pow2 (-63) (by norm_num)] at this
    exact lt_of_lt_of_le (pow2_pos _) this
  · have := rnd_mono hq1
    rwa [rnd_one] at this
  · intro heq
    have : (c : ℚ) = (a : ℚ) := by exact_mod_cast heq
    rw [this, div_self apos.ne', rnd_one]
  · intro h53
    have r1 : F64.rnd (c : ℚ) = (c : ℚ) := by
      have := rnd_intCast (c : Int) (by rw [abs_of_nonneg (by omega)]; omega)
      simpa using this
    have r2 : F64.rnd (a : ℚ) = (a : ℚ) :=
      rnd_intCast a (by rw [abs_of_nonneg (by omega)]; omega)
    rw [ediv, r1, r2]

/-- What `Optimize` returns, in terms of the plans the ants construct: the
first `T` entries of a plan no other plan beats in number of ants, and the
`float64` quotient of that number by `Ants`. -/
theorem Optimize_spec (env : Env) (g : Rand) (taskGroup : TaskGroup) (nodes : List NodeInfo)
    (config : Config) (TAU_0 : DenseMatrix) (nodes1 : List NodeInfo)
    (hg : greedyInit taskGroup nodes = some (TAU_0, nodes1))
    (hT : taskGroup.length ≤ PLAN_SIZE) (hA : 1 ≤ config.Ants) :
    ∃ out, Optimize env g taskGroup nodes config = some out ∧
      ∃ w ∈ antPlans env config (canonicalTasks taskGroup) (snapshot nodes) config.Ants.toNat
          (colonyStart TAU_0 nodes1 g),
        out.plan = w.take taskGroup.length ∧
        (∀ w' ∈ antPlans env config (canonicalTasks taskGroup) (snapshot nodes)
            config.Ants.toNat (colonyStart TAU_0 nodes1 g),
          (antPlans env config (canonicalTasks taskGroup) (snapshot nodes) config.Ants.toNat
              (colonyStart TAU_0 nodes1 g)).count w'
            ≤ (antPlans env config (canonicalTasks taskGroup) (snapshot nodes)
              config.Ants.toNat (colonyStart TAU_0 nodes1 g)).count w) ∧
        out.confidence = F64.div
          (F64.ofInt (((antPlans env config (canonicalTasks taskGroup) (snapshot nodes)
            config.Ants.toNat (colonyStart TAU_0 nodes1 g)).count w : Nat) : Int))
          (F64.ofInt config.Ants) := by
  generalize hws : antPlans env config (canonicalTasks taskGroup) (snapshot nodes)
    config.Ants.toNat (colonyStart TAU_0 nodes1 g) = ws
  have hlen : ws.length = config.Ants.toNat := by rw [← hws, antPlans_length]
  have hplans : (antLoop env config (canonicalTasks taskGroup) (snapshot nodes)
      config.Ants.toNat (colonyStart TAU_0 nodes1 g)).plans = ws.foldl tally [] := by
    rw [antLoop_plans, hws]; rfl
  obtain ⟨t1, t2⟩ := tallyAll_nil_spec ws
  have hperm := env.mapOrder_perm (ws.foldl tally [])
  obtain ⟨w0, hw0⟩ : ∃ w0, w0 ∈ ws := by
    cases ws with
    | nil => simp only [List.length_nil] at hlen; omega
    | cons a _ => exact ⟨a, List.mem_cons_self _ _⟩
  have hex : ∃ e ∈ env.mapOrder (ws.foldl tally []), 0 < e.2 :=
    ⟨(w0, ws.count w0), hperm.mem_iff.2 (t2 w0 hw0), List.count_pos_iff.2 hw0⟩
  obtain ⟨s1, s2⟩ := selectMax_spec _ hex
  obtain ⟨m1, m2⟩ := t1 _ (hperm.mem_iff.1 s1)
  simp only at m1 m2
  have hopt : Optimize env g taskGroup nodes config = some
      { confidence := F64.div (F64.ofInt (selectMax (env.mapOrder (ws.foldl tally []))).1)
          (F64.ofInt config.Ants)
        plan := (selectMax (env.mapOrder (ws.foldl tally []))).2.take taskGroup.length
        nodes := (antLoop env config (canonicalTasks taskGroup) (snapshot nodes)
          config.Ants.toNat (colonyStart TAU_0 nodes1 g)).nodes
        TAU := (antLoop env config (canonicalTasks taskGroup) (snapshot nodes)
          config.Ants.toNat (colonyStart TAU_0 nodes1 g)).TAU
        rng := (antLoop env config (canonicalTasks taskGroup) (snapshot nodes)
          config.Ants.toNat (colonyStart TAU_0 nodes1 g)).rng } := by
    simp only [Optimize, hg, if_neg (not_lt.2 hT), hplans]
  refine ⟨_, hopt, (selectMax (env.mapOrder (ws.foldl tally []))).2, m1, ?_, ?_, ?_⟩
  · rfl
  · intro w' hw'
    rw [← m2]
    exact s2 _ (hperm.mem_iff.2 (t2 w' hw'))
  · simp only
    rw [← m2]

/-! ## `Optimize`: shape of the result -/

theorem antStart_nodes_length (refResources : List Resources) (st : ColonyState) :
    (antStart refResources st).2.nodes.length = st.nodes.length := by
  simp [antStart, resetNodes_length]

theorem antStart_plan (refResources : List Resources) (st : ColonyState) :
    (antStart refResources st).2.plan = zeroPlan := rfl

theorem zeroPlan_length : zeroPlan.length = PLAN_SIZE := by simp [zeroPlan]

/-- Every ant keeps the number of nodes and fills the first `T` entries of its
plan with `-1` or a node index. -/
theorem antRun_spec (env : Env) (config : Config) (tasks : List Task)
    (refResources : List Resources) (N : Nat) (hN : 0 < N) (hT : tasks.length ≤ PLAN_SIZE)
    (st : ColonyState) (hst : st.nodes.length = N) :
    ((antRun env config tasks refResources st).plan.length = PLAN_SIZE ∧
      ∀ i < tasks.length, ∃ x, (antRun env config tasks refResources st).plan[i]? = some x ∧
        validEntry N x) ∧
      (antStep env config tasks refResources st).nodes.length = N := by
  obtain ⟨h1, h2, h3⟩ := taskLoop_spec env config (antStart refResources st).1 tasks.length N hN
    tasks 0 (antStart refResources st).2 (by rw [antStart_nodes_length, hst])
  rw [antStart_plan, zeroPlan_length] at h2 h3
  refine ⟨⟨h2, fun i hi => ?_⟩, h1⟩
  exact (h3 i).1 (Nat.zero_le _) (by omega) (by omega)

/-- C4. With at least one node, at most `PLAN_SIZE` tasks and at least one
ant, `Optimize` returns a plan of length `T` whose entries are `-1` or node
indices in `[0, N)`, whatever the random draws. -/
theorem Optimize_plan_range (env : Env) (g : Rand) (taskGroup : TaskGroup)
    (nodes : List NodeInfo) (config : Config) (hN : 1 ≤ nodes.length)
    (hT : taskGroup.length ≤ PLAN_SIZE) (hA : 1 ≤ config.Ants) :
    ∃ out, Optimize env g taskGroup nodes config = some out ∧
      out.plan.length = taskGroup.length ∧
      ∀ x ∈ out.plan, x = -1 ∨ (0 ≤ x ∧ x < nodes.length) := by
  obtain ⟨TAU_0, nodes1, hg, -, -, hl, -, -⟩ := greedyInit_spec taskGroup nodes hN
  obtain ⟨out, hout, w, hw, hplan, -, -⟩ :=
    Optimize_spec env g taskGroup nodes config TAU_0 nodes1 hg hT hA
  have hT' : (canonicalTasks taskGroup).length ≤ PLAN_SIZE := by
    rw [canonicalTasks_length]; exact hT
  have hgood := antPlans_forall env config (canonicalTasks taskGroup) (snapshot nodes)
    (fun st => st.nodes.length = nodes.length)
    (fun w => w.length = PLAN_SIZE ∧
      ∀ i < (canonicalTasks taskGroup).length, ∃ x, w[i]? = some x ∧ validEntry nodes.length x)
    (fun st hst => antRun_spec env config (canonicalTasks taskGroup) (snapshot nodes)
      nodes.length (by omega) hT' st hst)
    config.Ants.toNat (colonyStart TAU_0 nodes1 g) hl w hw
  obtain ⟨hwl, hwx⟩ := hgood
  rw [canonicalTasks_length] at hwx
  refine ⟨out, hout, ?_, ?_⟩
  · rw [hplan, List.length_take, hwl]; omega
  · intro x hx
    rw [hplan] at hx
    obtain ⟨i, hi, rfl⟩ := List.getElem_of_mem hx
    rw [List.length_take] at hi
    obtain ⟨y, hy, hv⟩ := hwx i (by omega)
    have : (List.take taskGroup.length w)[i]? = some y := by
      rw [List.getElem?_take_of_lt (by omega)]; exact hy
    rw [List.getElem?_eq_getElem (by rw [List.length_take]; omega)] at this
    simp only [Option.some.injEq] at this
    rw [this]
    exact hv

theorem Optimize_plan_range_witness :
    ∃ out, Optimize runEnv
        (constRand (1 / 2) (by norm_num))
        [("task-0", ⟨⟨700 * MB, CORE⟩⟩)]
        (mockNodes 3 (512 * MB) (4 * CORE))
        (testConfig 100) = some out ∧
      out.plan.length = 1 := by
  obtain ⟨out, h1, h2, -⟩ := Optimize_plan_range runEnv
    (constRand (1 / 2) (by norm_num))
    [("task-0", ⟨⟨700 * MB, CORE⟩⟩)]
    (mockNodes 3 (512 * MB) (4 * CORE))
    (testConfig 100)
    (by decide) (by decide) (by decide)
  exact ⟨out, h1, h2⟩

/-- C5. With at least one ant (one node or more, at most `PLAN_SIZE` tasks),
the plan `Optimize` returns is the first `T` entries of a plan `w` some ant
constructed and no plan was constructed by more ants than `w`; the confidence
is the `float64` quotient of the number of ants that constructed `w` by
`Ants`: the number divided by `Ants`, a number of `(0, 1]`, rounded to
`float64` (for `Ants < 2^53`, where the conversions are exact), and a finite
number of `(0, 1]` itself for every `Ants` that is an `int`. -/
theorem Optimize_majority (env : Env) (g : Rand) (taskGroup : TaskGroup)
    (nodes : List NodeInfo) (config : Config) (hN : 1 ≤ nodes.length)
    (hT : taskGroup.length ≤ PLAN_SIZE) (hA : 1 ≤ config.Ants) :
    ∃ out TAU_0 nodes1, greedyInit taskGroup nodes = some (TAU_0, nodes1) ∧
      Optimize env g taskGroup nodes config = some out ∧
      ∃ w ∈ antPlans env config (canonicalTasks taskGroup) (snapshot nodes) config.Ants.toNat
          (colonyStart TAU_0 nodes1 g),
        out.plan = w.take taskGroup.length ∧
        (∀ w' ∈ antPlans env config (canonicalTasks taskGroup) (snapshot nodes)
            config.Ants.toNat (colonyStart TAU_0 nodes1 g),
          (antPlans env config (canonicalTasks taskGroup) (snapshot nodes) config.Ants.toNat
              (colonyStart TAU_0 nodes1 g)).count w'
            ≤ (antPlans env config (canonicalTasks taskGroup) (snapshot nodes)
              config.Ants.toNat (colonyStart TAU_0 nodes1 g)).count w) ∧
        out.confidence = F64.div
          (F64.ofInt (((antPlans env config (canonicalTasks taskGroup) (snapshot nodes)
            config.Ants.toNat (colonyStart TAU_0 nodes1 g)).count w : Nat) : Int))
          (F64.ofInt config.Ants) ∧
        0 < ((antPlans env config (canonicalTasks taskGroup) (snapshot nodes) config.Ants.toNat
              (colonyStart TAU_0 nodes1 g)).count w : ℚ) / (config.Ants : ℚ) ∧
        ((antPlans env config (canonicalTasks taskGroup) (snapshot nodes) config.Ants.toNat
              (colonyStart TAU_0 nodes1 g)).count w : ℚ) / (config.Ants : ℚ) ≤ 1 ∧
        (config.Ants < 2 ^ 53 →
          out.confidence = F64.round
            (((antPlans env config (canonicalTasks taskGroup) (snapshot nodes)
              config.Ants.toNat (colonyStart TAU_0 nodes1 g)).count w : ℚ) /
                (config.Ants : ℚ))) ∧
        (config.Ants < 2 ^ 63 → ∃ c : ℚ, out.confidence = F64.fin c ∧ 0 < c ∧ c ≤ 1) := by
  obtain ⟨TAU_0, nodes1, hg, -, -, -, -, -⟩ := greedyInit_spec taskGroup nodes hN
  obtain ⟨out, hout, w, hw, hplan, hmax, hconf⟩ :=
    Optimize_spec env g taskGroup nodes config TAU_0 nodes1 hg hT hA
  have hcnt : ((antPlans env config (canonicalTasks taskGroup) (snapshot nodes)
      config.Ants.toNat (colonyStart TAU_0 nodes1 g)).count w : Int) ≤ config.Ants := by
    have h3 := List.count_le_length w (antPlans env config (canonicalTasks taskGroup)
      (snapshot nodes) config.Ants.toNat (colonyStart TAU_0 nodes1 g))
    rw [antPlans_length] at h3
    omega
  have hpos : 1 ≤ (antPlans env config (canonicalTasks taskGroup) (snapshot nodes)
      config.Ants.toNat (colonyStart TAU_0 nodes1 g)).count w := List.count_pos_iff.2 hw
  refine ⟨out, TAU_0, nodes1, hg, hout, w, hw, hplan, hmax, hconf, ?_, ?_, ?_, ?_⟩
  rotate_left 2
  · intro h53
    rw [hconf]
    exact (div_ofInt_count _ _ hA (by omega) hcnt).2.2.2.2 h53
  · intro h63
    obtain ⟨d1, d2, d3, -, -⟩ := div_ofInt_count _ _ hA h63 hcnt
    exact ⟨_, hconf.trans d1, d2 hpos, d3⟩
  · have h1 : (0 : ℚ) < config.Ants := by exact_mod_cast (by omega : (0 : Int) < config.Ants)
    have h2 : (0 : ℚ) < ((antPlans env config (canonicalTasks taskGroup) (snapshot nodes)
        config.Ants.toNat (colonyStart TAU_0 nodes1 g)).count w : ℚ) := by
      exact_mod_cast List.count_pos_iff.2 hw
    exact div_pos h2 h1
  · have h1 : (0 : ℚ) < config.Ants := by exact_mod_cast (by omega : (0 : Int) < config.Ants)
    rw [div_le_one h1]
    have h3 := List.count_le_length w (antPlans env config (canonicalTasks taskGroup)
      (snapshot nodes) config.Ants.toNat (colonyStart TAU_0 nodes1 g))
    rw [antPlans_length] at h3
    have h4 : ((antPlans env config (canonicalTasks taskGroup) (snapshot nodes)
        config.Ants.toNat (colonyStart TAU_0 nodes1 g)).count w : Int) ≤ config.Ants := by
      omega
    exact_mod_cast h4

theorem Optimize_majority_witness :
    ∃ out, Optimize runEnv
        (constRand (1 / 2) (by norm_num))
        [("task-0", ⟨⟨128 * MB, 250000000⟩⟩), ("task-1", ⟨⟨128 * MB, 250000000⟩⟩)]
        (mockNodes 3 (1024 * MB) (4 * CORE))
        (testConfig 100) = some out ∧
      ∃ q : ℚ, out.confidence = F64.fin q ∧ 0 < q ∧ q ≤ 1 := by
  obtain ⟨out, _, _, -, h1, w, -, -, -, -, -, -, -, h2⟩ := Optimize_majority
    runEnv
    (constRand (1 / 2) (by norm_num))
    [("task-0", ⟨⟨128 * MB, 250000000⟩⟩), ("task-1", ⟨⟨128 * MB, 250000000⟩⟩)]
    (mockNodes 3 (1024 * MB) (4 * CORE))
    (testConfig 100)
    (by decide) (by decide) (by decide)
  exact ⟨out, h1, h2 (by decide)⟩

theorem greedyInit_nil (nodes : List NodeInfo) :
    greedyInit [] nodes = some (fillAll nodes (DenseMatrix.Zeros 0 nodes.length), nodes) := by
  simp [greedyInit, canonicalTasks, sortedKeys, greedyLoop]

/-- C6. For an empty task map, any node vector and `Ants ≥ 1` (an `int`, so
below `2^63`), every ant constructs the same (zero) plan and `Optimize` returns
the empty plan with confidence exactly `1`: the `float64` quotient of
`float64(Ants)` by itself. -/
theorem Optimize_empty (env : Env) (g : Rand) (nodes : List NodeInfo) (config : Config)
    (hA : 1 ≤ config.Ants) (hA64 : config.Ants < 2 ^ 63) :
    ∃ out, Optimize env g [] nodes config = some out ∧ out.plan = [] ∧
      out.confidence = F64.fin 1 ∧
      ∀ w ∈ antPlans env config [] (snapshot nodes) config.Ants.toNat
          (colonyStart (fillAll nodes (DenseMatrix.Zeros 0 nodes.length)) nodes g),
        w = zeroPlan := by
  obtain ⟨out, hout, w, hw, hplan, -, hconf⟩ :=
    Optimize_spec env g [] nodes config _ _ (greedyInit_nil nodes) (by simp) hA
  have hc : canonicalTasks [] = [] := by simp [canonicalTasks, sortedKeys]
  rw [hc] at hw hconf
  have hall := antPlans_forall env config [] (snapshot nodes) (fun _ => True)
    (fun w => w = zeroPlan) (fun st _ => ⟨rfl, trivial⟩) config.Ants.toNat
    (colonyStart (fillAll nodes (DenseMatrix.Zeros 0 nodes.length)) nodes g) trivial
  refine ⟨out, hout, by simpa using hplan, ?_, hall⟩
  have hcount : (antPlans env config [] (snapshot nodes) config.Ants.toNat
      (colonyStart (fillAll nodes (DenseMatrix.Zeros 0 nodes.length)) nodes g)).count w
        = config.Ants.toNat := by
    rw [List.count_eq_length.2 (fun b hb => by rw [hall b hb, hall w hw]), antPlans_length]
  rw [hconf, hcount]
  have hc : ((config.Ants.toNat : Nat) : Int) = config.Ants := by omega
  obtain ⟨d1, -, -, d4, -⟩ := div_ofInt_count config.Ants.toNat config.Ants hA hA64 hc.le
  rw [d1, d4 hc]

theorem Optimize_empty_witness :
    ∃ out, Optimize runEnv
        (constRand (1 / 2) (by norm_num)) []
        (mockNodes 3 (512 * MB) (4 * CORE))
        (testConfig 100) = some out ∧
      out.plan = [] ∧ out.confidence = F64.fin 1 := by
  obtain ⟨out, h1, h2, h3, -⟩ := Optimize_empty runEnv
    (constRand (1 / 2) (by norm_num))
    (mockNodes 3 (512 * MB) (4 * CORE))
    (testConfig 100) (by decide) (by decide)
  exact ⟨out, h1, h2, h3⟩

/-! ## The shuffle and the reset -/

theorem swap_length (slc : List Nat) (r i : Nat) : (swap slc r i).length = slc.length := by
  simp [swap]

theorem swap_perm (slc : List Nat) (r i : Nat) (hr : r < slc.length) (hi : i < slc.length) :
    (swap slc r i).Perm slc := by
  rw [List.perm_iff_count]
  intro a
  have h1 : (if (slc[r] == a) = true then 1 else 0) ≤ slc.count a := by
    split
    · rename_i h
      rw [beq_iff_eq] at h
      rw [← h]; exact List.count_pos_iff.2 (List.getElem_mem hr)
    · exact Nat.zero_le _
  have hx : slc.getD i 0 = slc[i] := by
    rw [List.getD_eq_getElem?_getD, List.getElem?_eq_getElem hi]; rfl
  have hy : slc.getD r 0 = slc[r] := by
    rw [List.getD_eq_getElem?_getD, List.getElem?_eq_getElem hr]; rfl
  unfold swap
  rw [hx, hy, List.count_set _ _ _ _ (by simpa using hi), List.count_set _ _ _ _ hr,
    List.getElem_set]
  by_cases hri : r = i
  · subst hri
    rw [if_pos rfl]
    generalize (if (slc[r] == a) = true then 1 else 0) = b at h1 ⊢
    omega
  · rw [if_neg hri]
    generalize (if (slc[r] == a) = true then 1 else 0) = b at h1 ⊢
    generalize (if (slc[i] == a) = true then 1 else 0) = c
    omega

theorem shuffleLoop_spec (N : Nat) (l : List Nat) :
    ∀ (slc : List Nat) (g : Rand), slc.length = N → (∀ i ∈ l, i < N) →
      (shuffleLoop N l (slc, g)).1.Perm slc ∧ (shuffleLoop N l (slc, g)).2.floats = g.floats := by
  induction l with
  | nil => intro slc g _ _; exact ⟨List.Perm.refl _, rfl⟩
  | cons i l ih =>
    intro slc g hlen hl
    have hi : i < N := hl i (List.mem_cons_self _ _)
    have hc : i + (g.Intn (N - i)).1 < N := by
      have : (g.Intn (N - i)).1 < N - i := Nat.mod_lt _ (by omega)
      omega
    obtain ⟨h1, h2⟩ := ih (swap slc (i + (g.Intn (N - i)).1) i) (g.Intn (N - i)).2
      (by rw [swap_length, hlen]) (fun x hx => hl x (List.mem_cons_of_mem _ hx))
    simp only [shuffleLoop]
    exact ⟨h1.trans (swap_perm slc _ _ (by omega) (by omega)), h2⟩

/-- Function `shuffleInts` returns a permutation of its argument and draws no
`Float64`. -/
theorem shuffleInts_spec (slc : List Nat) (g : Rand) :
    (shuffleInts slc g).1.Perm slc ∧ (shuffleInts slc g).2.floats = g.floats :=
  shuffleLoop_spec slc.length (List.range slc.length) slc g rfl
    (fun _ hi => List.mem_range.1 hi)

theorem resetNodes_foldl_get (refResources : List Resources) (n : Nat) :
    ∀ (nodes : List NodeInfo) (j : Nat),
      ((List.range n).foldl
        (fun ns i =>
          ns.set i
            { ns.getD i default with
              AvailableResources :=
                { MemoryBytes := (refResources.getD i ⟨0, 0⟩).MemoryBytes
                  NanoCPUs := (refResources.getD i ⟨0, 0⟩).NanoCPUs } })
        nodes)[j]?
        = if j < n then
            nodes[j]?.map (fun node =>
              { node with
                AvailableResources :=
                  { MemoryBytes := (refResources.getD j ⟨0, 0⟩).MemoryBytes
                    NanoCPUs := (refResources.getD j ⟨0, 0⟩).NanoCPUs } })
          else nodes[j]? := by
  induction n with
  | zero => intro nodes j; simp
  | succ n ih =>
    intro nodes j
    rw [List.range_succ, List.foldl_append, List.foldl_cons, List.foldl_nil, List.getElem?_set,
      resetNodes_foldl_length]
    by_cases hjn : n = j
    · subst hjn
      simp only [↓reduceIte, Nat.lt_add_one]
      by_cases hlt : n < nodes.length
      · rw [if_pos hlt, List.getD_eq_getElem?_getD, ih, if_neg (by omega),
          List.getElem?_eq_getElem hlt]
        simp
      · rw [if_neg hlt, List.getElem?_eq_none (by omega)]
        simp
    · rw [if_neg hjn, ih]
      by_cases hj : j < n
      · rw [if_pos hj, if_pos (by omega)]
      · rw [if_neg hj, if_neg (by omega)]

/-- The reset puts back the snapshot: a node vector that differs from the
snapshotted one in available resources only becomes the snapshotted one. -/
theorem resetNodes_snapshot (nodes cur : List NodeInfo) (hlen : cur.length = nodes.length)
    (hdesc : ∀ j < nodes.length,
      (cur.getD j default).Description = (nodes.getD j default).Description) :
    resetNodes (snapshot nodes) cur = nodes := by
  apply List.ext_getElem?
  intro j
  unfold resetNodes
  rw [resetNodes_foldl_get]
  simp only [snapshot, List.length_map]
  by_cases hj : j < nodes.length
  · rw [if_pos hj, List.getElem?_eq_getElem (by omega), List.getElem?_eq_getElem hj]
    have hd := hdesc j hj
    rw [List.getD_eq_getElem?_getD, List.getD_eq_getElem?_getD,
      List.getElem?_eq_getElem (by omega), List.getElem?_eq_getElem hj] at hd
    simp only [Option.getD_some] at hd
    simp only [Option.map_some', Option.some.injEq, List.getD_eq_getElem?_getD,
      List.getElem?_map, List.getElem?_eq_getElem hj, Option.getD_some]
    cases hc : cur[j] with
    | mk d a =>
      cases hn : nodes[j] with
      | mk d' a' =>
        rw [hc, hn] at hd
        simp only at hd
        simp [hd]
  · rw [if_neg hj, List.getElem?_eq_none (by omega), List.getElem?_eq_none (by omega)]

/-! ## A single task -/

theorem canonicalTasks_singleton (name : String) (task : Task) :
    canonicalTasks [(name, task)] = [task] := by
  simp [canonicalTasks, sortedKeys, taskOf, List.lookup]

theorem zeroPlan_set_take (x : Int) : (zeroPlan.set 0 x).take 1 = [x] := by
  rfl

/-! ## A task that fits no node -/

theorem scan_foldl_unfit (env : Env) (config : Config) (TAU : DenseMatrix)
    (nodes : List NodeInfo) (task_idx : Nat) (task : Task)
    (hunfit : ∀ j < nodes.length, taskFitsNode task (nodes.getD j default) = false)
    (l : List Nat) (hl : ∀ x ∈ l, x < nodes.length) (st : List F64 × F64) :
    l.foldl (scanStep env config TAU nodes task_idx task) st = st := by
  induction l with
  | nil => rfl
  | cons x l ih =>
    have hx := hl x (List.mem_cons_self _ _)
    have hstep : scanStep env config TAU nodes task_idx task st x = st := by
      simp only [scanStep, hunfit x hx, Bool.false_eq_true, if_false]
    rw [List.foldl_cons, hstep]
    exact ih (fun y hy => hl y (List.mem_cons_of_mem _ hy))

theorem probs_unfit (N : Nat) :
    probs (List.replicate N F64.zero, F64.zero) = List.replicate N F64.nan := by
  simp [probs, F64.div, F64.zero]

theorem arg_maxLoop_nan (n : Nat) :
    ∀ (i : Nat) (max_val : F64) (max_i : Int),
      arg_maxLoop (List.replicate n F64.nan) i max_val max_i = max_i := by
  induction n with
  | zero => intro i mv mi; rfl
  | succ n ih =>
    intro i mv mi
    have : F64.lt mv F64.nan = false := by cases mv <;> rfl
    simp only [List.replicate_succ, arg_maxLoop, this]
    exact ih _ _ _

theorem pickLoop_nan (p : F64) (n : Nat) :
    ∀ (i : Nat) (cum : F64), pickLoop p (List.replicate n F64.nan) i cum = 0 := by
  induction n with
  | zero => intro i cum; rfl
  | succ n ih =>
    intro i cum
    have h1 : F64.add cum F64.nan = F64.nan := by cases cum <;> rfl
    have h2 : F64.le p F64.nan = false := by cases p <;> rfl
    simp only [List.replicate_succ, pickLoop, h1, h2]
    exact ih _ _

/-- What an ant does with a task that fits no node of its current node state:
when the decision draw selects `arg_max` (`r ≥ Q`) it records `-1` and leaves
the pheromone matrix and the nodes as they are; when it selects `pick` it
records node `0` and debits that node. -/
theorem taskStep_unfit (env : Env) (config : Config) (nodeOrders : List Nat) (T : Nat)
    (st : AntState) (task_idx : Nat) (task : Task)
    (hunfit : ∀ j < st.nodes.length, taskFitsNode task (st.nodes.getD j default) = false)
    (hord : ∀ x ∈ nodeOrders, x < st.nodes.length) :
    (F64.le config.Q st.rng.Float64.1 = true →
      (taskStep env config nodeOrders T st task_idx task).plan = st.plan.set task_idx (-1) ∧
      (taskStep env config nodeOrders T st task_idx task).TAU = st.TAU ∧
      (taskStep env config nodeOrders T st task_idx task).nodes = st.nodes) ∧
    (F64.le config.Q st.rng.Float64.1 = false →
      (taskStep env config nodeOrders T st task_idx task).plan = st.plan.set task_idx 0 ∧
      (taskStep env config nodeOrders T st task_idx task).nodes
        = st.nodes.set 0 (debit (st.nodes.getD 0 default) task)) := by
  have hscan : probs (scan env config st.TAU st.nodes nodeOrders task_idx task)
      = List.replicate st.nodes.length F64.nan := by
    unfold scan
    rw [scan_foldl_unfit env config st.TAU st.nodes task_idx task hunfit nodeOrders hord,
      probs_unfit]
  constructor
  · intro hq
    have hj : (decide_j config (List.replicate st.nodes.length F64.nan) st.rng).1 = -1 := by
      simp only [decide_j, hq, if_true, arg_max]
      exact arg_maxLoop_nan _ _ _ _
    unfold taskStep
    simp only [hscan, hj]
    rw [if_pos (by omega)]
    exact ⟨rfl, rfl, rfl⟩
  · intro hq
    have hj : (decide_j config (List.replicate st.nodes.length F64.nan) st.rng).1 = 0 := by
      simp only [decide_j, hq, Bool.false_eq_true, if_false, pick]
      exact pickLoop_nan _ _ _ _
    unfold taskStep
    simp only [hscan, hj]
    rw [if_neg (by omega)]
    exact ⟨rfl, rfl⟩

theorem taskStep_unfit_witness :
    (taskStep runEnv (testConfig 1) [0, 1, 2] 1
        ⟨DenseMatrix.Zeros 1 3, mockNodes 3 (512 * MB) (4 * CORE), zeroPlan,
          constRand (1 / 2) (by norm_num)⟩ 0 ⟨⟨700 * MB, CORE⟩⟩).plan = zeroPlan.set 0 (-1) ∧
      (taskStep runEnv (testConfig 1) [0, 1, 2] 1
        ⟨DenseMatrix.Zeros 1 3, mockNodes 3 (512 * MB) (4 * CORE), zeroPlan,
          constRand (1 / 20) (by norm_num)⟩ 0 ⟨⟨700 * MB, CORE⟩⟩).plan = zeroPlan.set 0 0 :=
  ⟨((taskStep_unfit runEnv (testConfig 1) [0, 1, 2] 1
      ⟨DenseMatrix.Zeros 1 3, mockNodes 3 (512 * MB) (4 * CORE), zeroPlan,
        constRand (1 / 2) (by norm_num)⟩ 0 ⟨⟨700 * MB, CORE⟩⟩ (by decide) (by decide)).1
      (by decide!)).1,
    ((taskStep_unfit runEnv (testConfig 1) [0, 1, 2] 1
      ⟨DenseMatrix.Zeros 1 3, mockNodes 3 (512 * MB) (4 * CORE), zeroPlan,
        constRand (1 / 20) (by norm_num)⟩ 0 ⟨⟨700 * MB, CORE⟩⟩ (by decide) (by decide)).2
      (by decide!)).1⟩

/-! ## A single task that fits no node, under a configuration that always explores -/

/-- With `Q = 1` no draw of `[0, 1)` reaches `Q`: every ant of a single-task
run in which no node fits takes the `pick` branch and records node `0`. -/
theorem antStep_unfit_explore (env : Env) (config : Config) (nodes : List NodeInfo) (task : Task)
    (hunfit : ∀ j < nodes.length, taskFitsNode task (nodes.getD j default) = false)
    (hQ : config.Q = F64.fin 1) (st : ColonyState)
    (hst : st.nodes.length = nodes.length ∧
      ∀ j < nodes.length,
        (st.nodes.getD j default).Description = (nodes.getD j default).Description) :
    (antRun env config [task] (snapshot nodes) st).plan = zeroPlan.set 0 0 ∧
    ((antStep env config [task] (snapshot nodes) st).nodes.length = nodes.length ∧
      ∀ j < nodes.length,
        ((antStep env config [task] (snapshot nodes) st).nodes.getD j default).Description
          = (nodes.getD j default).Description) := by
  obtain ⟨h1, h2⟩ := hst
  have hreset : resetNodes (snapshot nodes) st.nodes = nodes := resetNodes_snapshot nodes _ h1 h2
  have hsh := shuffleInts_spec (List.range (resetNodes (snapshot nodes) st.nodes).length) st.rng
  have hstart : (antStart (snapshot nodes) st).2.nodes = nodes := hreset
  have hord : ∀ x ∈ (antStart (snapshot nodes) st).1,
      x < (antStart (snapshot nodes) st).2.nodes.length := by
    intro x hx
    have : x ∈ List.range (resetNodes (snapshot nodes) st.nodes).length := hsh.1.mem_iff.1 hx
    rw [hstart, ← hreset]
    exact List.mem_range.1 this
  have hle : F64.le config.Q (antStart (snapshot nodes) st).2.rng.Float64.1 = false := by
    have := ((antStart (snapshot nodes) st).2.rng.floats_range
      (antStart (snapshot nodes) st).2.rng.fpos).2
    simp only [hQ, Rand.Float64, F64.le, decide_eq_false_iff_not, not_le]
    exact this
  obtain ⟨s1, s2⟩ := (taskStep_unfit env config (antStart (snapshot nodes) st).1 1
    (antStart (snapshot nodes) st).2 0 task (by rw [hstart]; exact hunfit) hord).2 hle
  have hrun : antRun env config [task] (snapshot nodes) st
      = taskStep env config (antStart (snapshot nodes) st).1 1 (antStart (snapshot nodes) st).2
          0 task := rfl
  refine ⟨by rw [hrun, s1]; rfl, ?_, ?_⟩
  · show (antRun env config [task] (snapshot nodes) st).nodes.length = nodes.length
    rw [hrun, s2, hstart]; simp
  · intro j hj
    show ((antRun env config [task] (snapshot nodes) st).nodes.getD j default).Description = _
    rw [hrun, s2, hstart]
    by_cases hj0 : 0 = j
    · subst hj0
      simp [List.getD_eq_getElem?_getD, List.getElem?_set, hj, debit]
    · simp [List.getD_eq_getElem?_getD, List.getElem?_set, hj0]

/-- A single task that fits no node, `Q = 1`, `Ants ≥ 1`: whatever the random
source, `Optimize` returns the plan `[0]`. -/
theorem Optimize_unfit_explore (env : Env) (g : Rand) (name : String) (task : Task)
    (nodes : List NodeInfo) (config : Config) (hN : 1 ≤ nodes.length)
    (hunfit : ∀ j < nodes.length, taskFitsNode task (nodes.getD j default) = false)
    (hQ : config.Q = F64.fin 1) (hA : 1 ≤ config.Ants) :
    (Optimize env g [(name, task)] nodes config).map (fun o => o.plan) = some [0] := by
  obtain ⟨TAU_0, nodes1, hg, -, -, hl, hn, -⟩ := greedyInit_spec [(name, task)] nodes hN
  obtain ⟨out, hout, w, hw, hplan, -, -⟩ :=
    Optimize_spec env g [(name, task)] nodes config TAU_0 nodes1 hg (by simp [PLAN_SIZE]) hA
  rw [canonicalTasks_singleton] at hw hn
  have hall := antPlans_forall env config [task] (snapshot nodes)
    (fun st => st.nodes.length = nodes.length ∧
      ∀ j < nodes.length,
        (st.nodes.getD j default).Description = (nodes.getD j default).Description)
    (fun w => w = zeroPlan.set 0 0)
    (fun st hst => antStep_unfit_explore env config nodes task hunfit hQ st hst)
    config.Ants.toNat (colonyStart TAU_0 nodes1 g)
    ⟨hl, fun j hj => by
        show (nodes1.getD j default).Description = _
        rw [hn j hj, debitAll_Description]⟩
  rw [hout, Option.map_some', hplan, hall w hw]
  exact congrArg some (zeroPlan_set_take 0)

theorem Optimize_unfit_explore_witness :
    (Optimize runEnv (constRand (1 / 2) (by norm_num)) [("task-0", ⟨⟨700 * MB, CORE⟩⟩)]
      (mockNodes 3 (512 * MB) (4 * CORE))
      ⟨100, F64.fin 1, F64.fin (1 / 100), F64.fin 1, F64.fin 1⟩).map (fun o => o.plan)
      = some [0] :=
  Optimize_unfit_explore runEnv (constRand (1 / 2) (by norm_num)) "task-0" ⟨⟨700 * MB, CORE⟩⟩
    (mockNodes 3 (512 * MB) (4 * CORE)) ⟨100, F64.fin 1, F64.fin (1 / 100), F64.fin 1, F64.fin 1⟩
    (by decide) (by decide) rfl (by decide)

/-! ## Concrete runs of `Optimize` -/

/-- C1 (the code departs from it). One task of 700 MB and 1 core, three idle
nodes of 512 MB and 4 cores, `Ants = 100` and `Q = 1`: whatever the random
draws, `Optimize` returns the plan `[0]`, and debiting the entry-state nodes by
that plan leaves node `0` with negative available memory. -/
theorem Optimize_infeasible_plan (g : Rand) :
    (Optimize runEnv g [("task-0", ⟨⟨700 * MB, CORE⟩⟩)] (mockNodes 3 (512 * MB) (4 * CORE))
        ⟨100, F64.fin 1, F64.fin (1 / 100), F64.fin 1, F64.fin 1⟩).map (fun o => o.plan)
        = some [0] ∧
      (applyPlan [0] [("task-0", ⟨⟨700 * MB, CORE⟩⟩)]
          (mockNodes 3 (512 * MB) (4 * CORE))).map availableMemory
        = some [512 * MB - 700 * MB, 512 * MB, 512 * MB] ∧
      512 * MB - 700 * MB < 0 :=
  ⟨Optimize_unfit_explore runEnv g "task-0" ⟨⟨700 * MB, CORE⟩⟩
      (mockNodes 3 (512 * MB) (4 * CORE)) ⟨100, F64.fin 1, F64.fin (1 / 100), F64.fin 1, F64.fin 1⟩
      (by decide) (by decide) rfl (by decide),
    by decide!, by decide⟩

/-- C2 (the code departs from it). One task of 700 MB and 1 core that fits none
of three nodes of 512 MB and 4 cores, one ant, `Q = 0.1` and a decision draw
of `0.05`: the ant records `plan[0] = 0`, not `-1`; node `0` is debited (its
available memory ends negative) and the pheromone cell `(0, 0)` is rewritten
(to `1`, from the value `greedyInit` gave it). -/
theorem Optimize_unfit_exploration :
    (∀ node ∈ mockNodes 3 (512 * MB) (4 * CORE),
        taskFitsNode ⟨⟨700 * MB, CORE⟩⟩ node = false) ∧
      (Optimize runEnv (constRand (1 / 20) (by norm_num)) [("task-0", ⟨⟨700 * MB, CORE⟩⟩)]
        (mockNodes 3 (512 * MB) (4 * CORE)) (testConfig 1)).map
          (fun o => (o.plan, availableMemory o.nodes, o.TAU.Get 0 0))
        = some ([0], [512 * MB - 700 * MB, 512 * MB, 512 * MB], F64.fin 1) ∧
      (greedyInit [("task-0", ⟨⟨700 * MB, CORE⟩⟩)] (mockNodes 3 (512 * MB) (4 * CORE))).map
          (fun r => r.1.Get 0 0)
        = some (F64.fin (49 / 256)) := by
  refine ⟨by decide, by decide!, by decide!⟩

/-- C3. One task of 1024 MB and 1 core; three nodes of 512 MB and 4 cores and a
fourth of 1024 MB and 1 core, the only node the task fits; the test
configuration. With draws that are all `0.5` every ant exploits and records
`-1` (the branch commented "not fit"), so `Optimize` returns `[-1]`, not `[3]`:
the weight of node 3 is computed from its debited copy, which scores `P = 0`.
With a draw of `0.05` the ant explores, `pick` returns `0` on the all-`NaN`
vector, and the task is put on node 0, which it does not fit. -/
theorem Optimize_single_fit_exhausted :
    taskFitsNode ⟨⟨1024 * MB, CORE⟩⟩
        ((mockNodes 3 (512 * MB) (4 * CORE) ++ mockNodes 1 (1024 * MB) CORE).getD 3 default)
        = true ∧
      (∀ j < 4, j ≠ 3 →
        taskFitsNode ⟨⟨1024 * MB, CORE⟩⟩
          ((mockNodes 3 (512 * MB) (4 * CORE) ++ mockNodes 1 (1024 * MB) CORE).getD j default)
          = false) ∧
      (Optimize runEnv (constRand (1 / 2) (by norm_num)) [("task-0", ⟨⟨1024 * MB, CORE⟩⟩)]
        (mockNodes 3 (512 * MB) (4 * CORE) ++ mockNodes 1 (1024 * MB) CORE)
        (testConfig 100)).map (fun o => o.plan) = some [-1] ∧
      (Optimize runEnv (constRand (1 / 20) (by norm_num)) [("task-0", ⟨⟨1024 * MB, CORE⟩⟩)]
        (mockNodes 3 (512 * MB) (4 * CORE) ++ mockNodes 1 (1024 * MB) CORE)
        (testConfig 1)).map (fun o => (o.plan, availableMemory o.nodes))
        = some ([0], [512 * MB - 1024 * MB, 512 * MB, 512 * MB, 1024 * MB]) := by
  refine ⟨by decide, by decide, by decide!, by decide!⟩

/-! ## Monotonicity of `P` -/

theorem debit_eq_lessReservation (n : NodeInfo) (task : Task)
    (hm : isInt64 (n.AvailableResources.MemoryBytes - task.Reservations.MemoryBytes))
    (hc : isInt64 (n.AvailableResources.NanoCPUs - task.Reservations.NanoCPUs)) :
    debit n task = lessReservation n task.Reservations := by
  simp [debit, lessReservation, sub64, wrapInt64_of_isInt64 hm, wrapInt64_of_isInt64 hc]

/-! ## `arg_max` -/

theorem F64_not_lt_iff_le {a b : F64} (ha : a ≠ F64.nan) (hb : b ≠ F64.nan) :
    F64.lt a b = false ↔ F64.le b a = true := by
  cases a <;> cases b <;> simp_all [F64.lt, F64.le]

theorem F64_le_refl {a : F64} (ha : a ≠ F64.nan) : F64.le a a = true := by
  cases a <;> simp_all [F64.le]

theorem F64_le_of_lt {a b : F64} (h : F64.lt a b = true) : F64.le a b = true := by
  cases a <;> cases b <;> simp_all [F64.lt, F64.le]
  exact le_of_lt h

theorem F64_lt_trans {a b c : F64} (h1 : F64.lt a b = true) (h2 : F64.lt b c = true) :
    F64.lt a c = true := by
  cases a <;> cases b <;> cases c <;> simp_all [F64.lt]
  exact lt_trans h1 h2

theorem F64_lt_of_le_of_lt {a b c : F64} (h1 : F64.le a b = true) (h2 : F64.lt b c = true) :
    F64.lt a c = true := by
  cases a <;> cases b <;> cases c <;> simp_all [F64.lt, F64.le]
  exact lt_of_le_of_lt h1 h2

theorem F64_not_lt_of_le {a b : F64} (h : F64.le a b = true) : F64.lt b a = false := by
  cases a <;> cases b <;> simp_all [F64.lt, F64.le]

/-- The loop of `arg_max` on values that are not `NaN`: it keeps `max_i` when no
item exceeds `max_val`, and otherwise returns the first index of the largest
item. -/
theorem arg_maxLoop_spec (items : List F64) (hnan : ∀ x ∈ items, x ≠ F64.nan) :
    ∀ (i : Nat) (max_val : F64) (max_i : Int), max_val ≠ F64.nan →
      ((∀ x ∈ items, F64.lt max_val x = false) ∧
          arg_maxLoop items i max_val max_i = max_i) ∨
        ∃ k, k < items.length ∧ arg_maxLoop items i max_val max_i = (i + k : Nat) ∧
          F64.lt max_val (items.getD k F64.nan) = true ∧
          (∀ j < items.length,
            F64.le (items.getD j F64.nan) (items.getD k F64.nan) = true) ∧
          ∀ j < k, F64.lt (items.getD j F64.nan) (items.getD k F64.nan) = true := by
  induction items with
  | nil => intro i mv mi _; left; exact ⟨fun x hx => absurd hx (by simp), rfl⟩
  | cons x xs ih =>
    intro i mv mi hmv
    have hx : x ≠ F64.nan := hnan x (List.mem_cons_self _ _)
    have hxs : ∀ y ∈ xs, y ≠ F64.nan := fun y hy => hnan y (List.mem_cons_of_mem _ hy)
    simp only [arg_maxLoop]
    by_cases hlt : F64.lt mv x = true
    · rw [if_pos hlt]
      right
      rcases ih hxs (i + 1) x i hx with ⟨h1, h2⟩ | ⟨k, hk, h2, h3, h4, h5⟩
      · refine ⟨0, by simp, by rw [h2]; simp, by simpa using hlt, ?_, fun j hj => by omega⟩
        intro j hj
        cases j with
        | zero => simpa using F64_le_refl hx
        | succ j =>
          simp only [List.length_cons, Nat.add_lt_add_iff_right] at hj
          have hmem : xs.getD j F64.nan ∈ xs := by
            rw [List.getD_eq_getElem?_getD, List.getElem?_eq_getElem hj]
            exact List.getElem_mem hj
          have := (F64_not_lt_iff_le hx (hxs _ hmem)).1 (h1 _ hmem)
          simpa using this
      · refine ⟨k + 1, by simpa using hk, by rw [h2]; congr 1; omega, ?_, ?_, ?_⟩
        · simpa using F64_lt_trans hlt h3
        · intro j hj
          cases j with
          | zero => simpa using F64_le_of_lt h3
          | succ j =>
            simp only [List.length_cons, Nat.add_lt_add_iff_right] at hj
            simpa using h4 j hj
        · intro j hj
          cases j with
          | zero => simpa using h3
          | succ j => simpa using h5 j (by omega)
    · rw [if_neg hlt]
      have hlt' : F64.lt mv x = false := by simpa using hlt
      have hle : F64.le x mv = true := (F64_not_lt_iff_le hmv hx).1 hlt'
      rcases ih hxs (i + 1) mv mi hmv with ⟨h1, h2⟩ | ⟨k, hk, h2, h3, h4, h5⟩
      · left
        refine ⟨?_, h2⟩
        intro y hy
        rcases List.mem_cons.1 hy with h | h
        · rw [h]; exact hlt'
        · exact h1 y h
      · right
        refine ⟨k + 1, by simpa using hk, by rw [h2]; congr 1; omega, by simpa using h3, ?_, ?_⟩
        · intro j hj
          cases j with
          | zero => simpa using F64_le_of_lt (F64_lt_of_le_of_lt hle h3)
          | succ j =>
            simp only [List.length_cons, Nat.add_lt_add_iff_right] at hj
            simpa using h4 j hj
        · intro j hj
          cases j with
          | zero => simpa using F64_lt_of_le_of_lt hle h3
          | succ j => simpa using h5 j (by omega)

/-- C12. On values that are not `NaN`, `arg_max` returns `-1` exactly when the
list is empty or all of its values are `≤ -1`; otherwise it returns an index
of the list. -/
theorem arg_max_sentinel (items : List F64) (hnan : ∀ x ∈ items, x ≠ F64.nan) :
    (arg_max items = -1 ↔
        items = [] ∨ ∀ x ∈ items, F64.le x (F64.fin (-1)) = true) ∧
      (arg_max items ≠ -1 → 0 ≤ arg_max items ∧ arg_max items < items.length) := by
  have hm : F64.fin (-1) ≠ F64.nan := by simp
  have key : (∀ x ∈ items, F64.le x (F64.fin (-1)) = true) ↔
      ∀ x ∈ items, F64.lt (F64.fin (-1)) x = false := by
    constructor
    · intro h x hx; exact (F64_not_lt_iff_le hm (hnan x hx)).2 (h x hx)
    · intro h x hx; exact (F64_not_lt_iff_le hm (hnan x hx)).1 (h x hx)
  rcases arg_maxLoop_spec items hnan 0 (F64.fin (-1)) (-1) hm with
    ⟨h1, h2⟩ | ⟨k, hk, h2, h3, -, -⟩
  · have h2' : arg_max items = -1 := h2
    refine ⟨⟨fun _ => Or.inr (key.2 h1), fun _ => h2'⟩, fun h => absurd h2' h⟩
  · have h2' : arg_max items = (k : Int) := by
      have : arg_max items = ((0 + k : Nat) : Int) := h2
      simpa using this
    refine ⟨⟨fun h => by omega, ?_⟩, fun _ => by omega⟩
    rintro (h | h)
    · subst h; simp at hk
    · have hmem : items.getD k F64.nan ∈ items := by
        rw [List.getD_eq_getElem?_getD, List.getElem?_eq_getElem hk]
        exact List.getElem_mem hk
      have := key.1 h _ hmem
      rw [h3] at this
      exact absurd this (by simp)

theorem arg_max_sentinel_witness :
    arg_max [F64.fin (-2), F64.fin (-1)] = -1 ∧ arg_max [F64.fin 0, F64.fin 2, F64.fin 1] ≠ -1 :=
  ⟨((arg_max_sentinel [F64.fin (-2), F64.fin (-1)] (by decide)).1).2
      (Or.inr (by decide!)),
    fun h => absurd
      (((arg_max_sentinel [F64.fin 0, F64.fin 2, F64.fin 1] (by decide)).1).1 h)
      (by decide!)⟩

/-- C13 (counterexample). The list `[-3, -2, -5]` has exactly one strict
maximum, at index `1`; `arg_max` returns `-1`. -/
theorem arg_max_below_sentinel :
    arg_max [F64.fin (-3), F64.fin (-2), F64.fin (-5)] = -1 := by
  decide!

/-- C13, as amended. On values that are not `NaN`, one of which exceeds `-1`,
`arg_max` returns the first index at which the list attains its maximum; in
particular it returns the index of a strict maximum. -/
theorem arg_max_first_maximum (items : List F64) (hnan : ∀ x ∈ items, x ≠ F64.nan)
    (hbig : ∃ x ∈ items, F64.lt (F64.fin (-1)) x = true) :
    ∃ k, k < items.length ∧ arg_max items = (k : Int) ∧
      (∀ j < items.length, F64.le (items.getD j F64.nan) (items.getD k F64.nan) = true) ∧
      (∀ j < k, F64.lt (items.getD j F64.nan) (items.getD k F64.nan) = true) ∧
      ∀ m < items.length,
        (∀ j < items.length, j ≠ m →
          F64.lt (items.getD j F64.nan) (items.getD m F64.nan) = true) →
        arg_max items = (m : Int) := by
  have hm : F64.fin (-1) ≠ F64.nan := by simp
  rcases arg_maxLoop_spec items hnan 0 (F64.fin (-1)) (-1) hm with
    ⟨h1, -⟩ | ⟨k, hk, h2, -, h4, h5⟩
  · obtain ⟨x, hx, hxl⟩ := hbig
    rw [h1 x hx] at hxl
    exact absurd hxl (by simp)
  · have h2' : arg_max items = (k : Int) := by
      have : arg_max items = ((0 + k : Nat) : Int) := h2
      simpa using this
    refine ⟨k, hk, h2', h4, h5, ?_⟩
    intro m hmlt hstrict
    by_cases hkm : k = m
    · rw [h2', hkm]
    · have a := hstrict k hk hkm
      have b := F64_not_lt_of_le (h4 m hmlt)
      rw [a] at b
      exact absurd b (by simp)

theorem arg_max_first_maximum_witness :
    arg_max [F64.fin 0, F64.fin 2, F64.fin 1] = 1 := by
  obtain ⟨k, -, -, -, -, h⟩ := arg_max_first_maximum [F64.fin 0, F64.fin 2, F64.fin 1]
    (by decide) ⟨F64.fin 0, by simp, by decide!⟩
  exact h 1 (by simp) (by
    intro j hj hne
    simp only [List.length_cons, List.length_nil] at hj
    interval_cases j
    · decide!
    · exact absurd rfl hne
    · decide!)

/-! ## The shuffle as a bijection -/

theorem swap_append (pre suf : List Nat) (c : Nat) (hc : c < suf.length) :
    swap (pre ++ suf) (pre.length + c) pre.length = pre ++ swap suf c 0 := by
  have h0 : 0 < suf.length := by omega
  have g1 : (pre ++ suf).getD pre.length 0 = suf.getD 0 0 := by
    simp [List.getD_eq_getElem?_getD, List.getElem?_append_right]
  have g2 : (pre ++ suf).getD (pre.length + c) 0 = suf.getD c 0 := by
    simp [List.getD_eq_getElem?_getD, List.getElem?_append_right]
  unfold swap
  rw [g1, g2, List.set_append_right _ _ (by omega), List.set_append_right _ _ (by simp)]
  simp

theorem swap_eq_cons (l : List Nat) (a : Nat) (hl : 0 < l.length) :
    swap l a 0 = (swap l a 0).headD 0 :: (swap l a 0).tail := by
  have : 0 < (swap l a 0).length := by rw [swap_length]; exact hl
  cases h : swap l a 0 with
  | nil => rw [h] at this; simp at this
  | cons x xs => rfl

theorem swap_headD (l : List Nat) (a : Nat) (ha : a < l.length) :
    (swap l a 0).headD 0 = l.getD a 0 := by
  unfold swap
  cases l with
  | nil => simp at ha
  | cons x xs =>
    cases a with
    | zero => simp
    | succ a => simp

theorem swap_tail_length (l : List Nat) (a : Nat) : (swap l a 0).tail.length = l.length - 1 := by
  simp [swap_length]

theorem shuffleLoop_eq_shuffleRec (n : Nat) :
    ∀ (N : Nat) (pre suf : List Nat) (g : Rand), suf.length = n → N = pre.length + n →
      (shuffleLoop N (List.range' pre.length n) (pre ++ suf, g)).1
        = pre ++ shuffleRec n suf (fun t => g.ints (g.ipos + t)) := by
  induction n with
  | zero => intro N pre suf g _ _; rfl
  | succ n ih =>
    intro N pre suf g hlen hN
    have hmod : N - pre.length = n + 1 := by omega
    have hc : g.ints g.ipos % (n + 1) < suf.length := by
      rw [hlen]; exact Nat.mod_lt _ (by omega)
    rw [List.range'_succ]
    simp only [shuffleLoop, Rand.Intn, hmod]
    rw [swap_append pre suf _ hc, swap_eq_cons suf _ (by omega)]
    have happ : pre ++ (swap suf (g.ints g.ipos % (n + 1)) 0).headD 0 ::
          (swap suf (g.ints g.ipos % (n + 1)) 0).tail
        = (pre ++ [(swap suf (g.ints g.ipos % (n + 1)) 0).headD 0]) ++
          (swap suf (g.ints g.ipos % (n + 1)) 0).tail := by simp
    rw [happ]
    have hpl : (pre ++ [(swap suf (g.ints g.ipos % (n + 1)) 0).headD 0]).length
        = pre.length + 1 := by simp
    have := ih N (pre ++ [(swap suf (g.ints g.ipos % (n + 1)) 0).headD 0])
      (swap suf (g.ints g.ipos % (n + 1)) 0).tail { g with ipos := g.ipos + 1 }
      (by rw [swap_tail_length, hlen]; rfl) (by rw [hpl]; omega)
    rw [hpl] at this
    rw [this]
    simp only [shuffleRec, Nat.add_zero, List.append_assoc, List.singleton_append]
    congr 3
    funext t
    congr 1
    omega

/-- Function `shuffleInts` is the head-first Fisher-Yates on the choices it
draws. -/
theorem shuffleInts_eq_shuffleRec (slc : List Nat) (g : Rand) :
    (shuffleInts slc g).1 = shuffleRec slc.length slc (fun t => g.ints (g.ipos + t)) := by
  have := shuffleLoop_eq_shuffleRec slc.length slc.length [] slc g rfl (by simp)
  simpa [shuffleInts, List.range_eq_range'] using this

theorem shuffleRec_congr (n : Nat) :
    ∀ (l : List Nat) (c c' : Nat → Nat), (∀ t < n, c t % (n - t) = c' t % (n - t)) →
      shuffleRec n l c = shuffleRec n l c' := by
  induction n with
  | zero => intro l c c' _; rfl
  | succ n ih =>
    intro l c c' h
    have h0 : c 0 % (n + 1) = c' 0 % (n + 1) := by simpa using h 0 (by omega)
    simp only [shuffleRec, h0]
    congr 1
    apply ih
    intro t ht
    have := h (t + 1) (by omega)
    simpa using this

theorem shuffleRec_injective (n : Nat) :
    ∀ (l : List Nat) (c c' : Nat → Nat), l.length = n → l.Nodup →
      shuffleRec n l c = shuffleRec n l c' → ∀ t < n, c t % (n - t) = c' t % (n - t) := by
  induction n with
  | zero => intro l c c' _ _ _ t ht; omega
  | succ n ih =>
    intro l c c' hlen hnd heq t ht
    simp only [shuffleRec, List.cons.injEq] at heq
    obtain ⟨hhead, htail⟩ := heq
    have ha : c 0 % (n + 1) < l.length := by rw [hlen]; exact Nat.mod_lt _ (by omega)
    have ha' : c' 0 % (n + 1) < l.length := by rw [hlen]; exact Nat.mod_lt _ (by omega)
    rw [swap_headD l _ ha, swap_headD l _ ha', List.getD_eq_getElem?_getD,
      List.getD_eq_getElem?_getD, List.getElem?_eq_getElem ha, List.getElem?_eq_getElem ha'] at hhead
    simp only [Option.getD_some] at hhead
    have h0 : c 0 % (n + 1) = c' 0 % (n + 1) := (hnd.getElem_inj_iff).1 hhead
    cases t with
    | zero => simpa using h0
    | succ t =>
      rw [← h0] at htail
      have hperm := swap_perm l (c 0 % (n + 1)) 0 ha (by omega)
      have hnd' : (swap l (c 0 % (n + 1)) 0).Nodup := hperm.nodup_iff.2 hnd
      rw [swap_eq_cons l _ (by omega)] at hnd'
      have := ih (swap l (c 0 % (n + 1)) 0).tail (fun t => c (t + 1)) (fun t => c' (t + 1))
        (by rw [swap_tail_length, hlen]; rfl) (List.nodup_cons.1 hnd').2 htail t (by omega)
      simpa using this

theorem shuffleRec_surjective (n : Nat) :
    ∀ (l p : List Nat), l.length = n → p.Perm l →
      ∃ c : Nat → Nat, (∀ t < n, c t < n - t) ∧ shuffleRec n l c = p := by
  induction n with
  | zero =>
    intro l p hlen hp
    have hl : l = [] := List.length_eq_zero.1 hlen
    subst hl
    exact ⟨fun _ => 0, fun t ht => by omega, by rw [hp.eq_nil]; rfl⟩
  | succ n ih =>
    intro l p hlen hp
    cases p with
    | nil =>
      have := hp.length_eq
      simp only [List.length_nil] at this
      omega
    | cons y p' =>
      have hy : y ∈ l := hp.subset (List.mem_cons_self _ _)
      obtain ⟨a, ha, hay⟩ := List.getElem_of_mem hy
      have hmod : a % (n + 1) = a := Nat.mod_eq_of_lt (by omega)
      have hperm := swap_perm l a 0 ha (by omega)
      have hhead : (swap l a 0).headD 0 = y := by
        rw [swap_headD l a ha, List.getD_eq_getElem?_getD, List.getElem?_eq_getElem ha]
        simpa using hay
      have hcons := swap_eq_cons l a (by omega)
      rw [hhead] at hcons
      have htl : p'.Perm (swap l a 0).tail := by
        have : (y :: p').Perm (y :: (swap l a 0).tail) := by
          rw [← hcons]; exact hp.trans hperm.symm
        exact this.cons_inv
      obtain ⟨c', hc', hrec⟩ := ih (swap l a 0).tail p'
        (by rw [swap_tail_length, hlen]; rfl) htl
      refine ⟨fun t => if t = 0 then a else c' (t - 1), ?_, ?_⟩
      · intro t ht
        cases t with
        | zero => simpa using (by omega : a < n + 1)
        | succ t =>
          have := hc' t (by omega)
          simpa using (by omega : c' t < n + 1 - (t + 1))
      · simp only [shuffleRec, if_true, hmod, hhead]
        congr 1

/-- C15. Function `shuffleInts` returns a permutation of its argument, which
the choices `c_i` of `[0, N - i)` it draws determine; on `N` distinct values
two sequences of choices that give the same result are equal, and every
permutation of the input (there are `N!`) is the result of a sequence of
choices: choice sequences and permutations are in bijection. -/
theorem shuffleInts_bijection (slc : List Nat) :
    (∀ g : Rand, (shuffleInts slc g).1.Perm slc) ∧
    (∀ g : Rand, validChoices slc.length (choicesOf g slc.length) ∧
      (shuffleInts slc g).1
        = (shuffleInts slc (choiceRand (choicesOf g slc.length))).1) ∧
    (slc.Nodup → ∀ cs cs', validChoices slc.length cs → validChoices slc.length cs' →
      (shuffleInts slc (choiceRand cs)).1 = (shuffleInts slc (choiceRand cs')).1 →
      cs = cs') ∧
    (∀ p : List Nat, p.Perm slc →
      ∃ cs, validChoices slc.length cs ∧ (shuffleInts slc (choiceRand cs)).1 = p) ∧
    (∀ p : List Nat, p ∈ slc.permutations ↔ p.Perm slc) ∧
    slc.permutations.length = slc.length.factorial := by
  refine ⟨fun g => (shuffleInts_spec slc g).1, ?_, ?_, ?_, fun p => List.mem_permutations,
    List.length_permutations slc⟩
  · intro g
    refine ⟨⟨by simp [choicesOf], ?_⟩, ?_⟩
    · intro i hi
      simp only [choicesOf, List.getD_eq_getElem?_getD, List.getElem?_map,
        List.getElem?_range hi, Option.map_some', Option.getD_some]
      exact Nat.mod_lt _ (by omega)
    · rw [shuffleInts_eq_shuffleRec, shuffleInts_eq_shuffleRec]
      apply shuffleRec_congr
      intro t ht
      simp only [choiceRand, choicesOf, Nat.zero_add, List.getD_eq_getElem?_getD,
        List.getElem?_map, List.getElem?_range ht, Option.map_some', Option.getD_some,
        Nat.mod_mod]
  · intro hnd cs cs' hv hv' heq
    rw [shuffleInts_eq_shuffleRec, shuffleInts_eq_shuffleRec] at heq
    have h := shuffleRec_injective slc.length slc _ _ rfl hnd heq
    apply List.ext_getElem (by rw [hv.1, hv'.1])
    intro i h1 h2
    have hi : i < slc.length := by rw [← hv.1]; exact h1
    have := h i hi
    simp only [choiceRand, Nat.zero_add] at this
    rw [Nat.mod_eq_of_lt (hv.2 i hi), Nat.mod_eq_of_lt (hv'.2 i hi),
      List.getD_eq_getElem?_getD, List.getD_eq_getElem?_getD,
      List.getElem?_eq_getElem h1, List.getElem?_eq_getElem h2] at this
    simpa using this
  · intro p hp
    obtain ⟨c, hc, hrec⟩ := shuffleRec_surjective slc.length slc p rfl hp
    refine ⟨(List.range slc.length).map c, ⟨by simp, ?_⟩, ?_⟩
    · intro i hi
      simp only [List.getD_eq_getElem?_getD, List.getElem?_map, List.getElem?_range hi,
        Option.map_some', Option.getD_some]
      exact hc i hi
    · rw [shuffleInts_eq_shuffleRec, ← hrec]
      apply shuffleRec_congr
      intro t ht
      simp only [choiceRand, Nat.zero_add, List.getD_eq_getElem?_getD, List.getElem?_map,
        List.getElem?_range ht, Option.map_some', Option.getD_some]

/-! ## Ties between plans -/

theorem firstIndex_cons_self (w : Plan) (l : List Plan) : firstIndex w (w :: l) = 0 := by
  simp [firstIndex]

theorem firstIndex_cons_ne {w x : Plan} (l : List Plan) (h : x ≠ w) :
    firstIndex w (x :: l) = firstIndex w l + 1 := by
  simp [firstIndex, h]

theorem firstIndex_lt_length {w : Plan} {l : List Plan} (h : w ∈ l) :
    firstIndex w l < l.length := by
  induction l with
  | nil => exact absurd h (by simp)
  | cons x xs ih =>
    by_cases hx : x = w
    · subst hx; rw [firstIndex_cons_self]; simp
    · rw [firstIndex_cons_ne _ hx]
      have : w ∈ xs := by
        rcases List.mem_cons.1 h with h' | h'
        · exact absurd h'.symm hx
        · exact h'
      simpa using ih this

theorem firstIndex_of_not_mem {w : Plan} {l : List Plan} (h : w ∉ l) :
    firstIndex w l = l.length := by
  induction l with
  | nil => rfl
  | cons x xs ih =>
    have hx : x ≠ w := fun e => h (e ▸ List.mem_cons_self _ _)
    rw [firstIndex_cons_ne _ hx, ih (fun h' => h (List.mem_cons_of_mem _ h'))]
    rfl

theorem firstIndex_append_of_mem {w : Plan} {l₁ : List Plan} (l₂ : List Plan) (h : w ∈ l₁) :
    firstIndex w (l₁ ++ l₂) = firstIndex w l₁ := by
  induction l₁ with
  | nil => exact absurd h (by simp)
  | cons x xs ih =>
    by_cases hx : x = w
    · subst hx; simp [firstIndex]
    · have : w ∈ xs := by
        rcases List.mem_cons.1 h with h' | h'
        · exact absurd h'.symm hx
        · exact h'
      rw [List.cons_append, firstIndex_cons_ne _ hx, firstIndex_cons_ne _ hx, ih this]

theorem firstIndex_append_of_not_mem {w : Plan} {l₁ : List Plan} (l₂ : List Plan)
    (h : w ∉ l₁) : firstIndex w (l₁ ++ l₂) = l₁.length + firstIndex w l₂ := by
  induction l₁ with
  | nil => simp
  | cons x xs ih =>
    have hx : x ≠ w := fun e => h (e ▸ List.mem_cons_self _ _)
    rw [List.cons_append, firstIndex_cons_ne _ hx, ih (fun h' => h (List.mem_cons_of_mem _ h'))]
    simp only [List.length_cons]; omega

theorem getElem?_firstIndex {w : Plan} {l : List Plan} (h : w ∈ l) :
    l[firstIndex w l]? = some w := by
  induction l with
  | nil => exact absurd h (by simp)
  | cons x xs ih =>
    by_cases hx : x = w
    · subst hx; simp [firstIndex]
    · have : w ∈ xs := by
        rcases List.mem_cons.1 h with h' | h'
        · exact absurd h'.symm hx
        · exact h'
      rw [firstIndex_cons_ne _ hx]
      simpa using ih this

/-- The selection loop returns, among the entries with the largest count, the
one the iteration meets first (the keys of a map are distinct). -/
theorem selectLoop_first (E : List (Plan × Nat)) (hnd : (E.map Prod.fst).Nodup) :
    ∀ acc r : Nat × Plan, selectLoop acc E = r →
      (r = acc ∧ ∀ e ∈ E, e.2 ≤ acc.1) ∨
        ((r.2, r.1) ∈ E ∧ acc.1 < r.1 ∧ (∀ e ∈ E, e.2 ≤ r.1) ∧
          ∀ e ∈ E, e.2 = r.1 →
            firstIndex r.2 (E.map Prod.fst) ≤ firstIndex e.1 (E.map Prod.fst)) := by
  induction E with
  | nil => intro acc r hr; left; exact ⟨hr.symm, fun e he => absurd he (by simp)⟩
  | cons a E ih =>
    intro acc r hr
    simp only [List.map_cons, List.nodup_cons] at hnd
    have hkey : ∀ e ∈ E, a.1 ≠ e.1 := by
      intro e he hk
      exact hnd.1 (hk ▸ List.mem_map_of_mem Prod.fst he)
    have hstep : selectLoop acc (a :: E)
        = selectLoop (if a.2 > acc.1 then (a.2, a.1) else acc) E := rfl
    rw [hstep] at hr
    by_cases ha : a.2 > acc.1
    · rw [if_pos ha] at hr
      right
      rcases ih hnd.2 (a.2, a.1) r hr with ⟨h1, h2⟩ | ⟨h1, h2, h3, h4⟩
      · subst h1
        refine ⟨List.mem_cons_self _ _, ha, ?_, ?_⟩
        · intro e he
          rcases List.mem_cons.1 he with h | h
          · rw [h]
          · exact h2 e h
        · intro e _ _
          show firstIndex a.1 (a.1 :: E.map Prod.fst) ≤ _
          rw [firstIndex_cons_self]; exact Nat.zero_le _
      · simp only at h2
        refine ⟨List.mem_cons_of_mem _ h1, by omega, ?_, ?_⟩
        · intro e he
          rcases List.mem_cons.1 he with h | h
          · rw [h]; omega
          · exact h3 e h
        · intro e he hec
          have hmem : e ∈ E := by
            rcases List.mem_cons.1 he with h | h
            · rw [h] at hec; omega
            · exact h
          have hk1 : a.1 ≠ r.2 := hkey _ h1
          rw [List.map_cons, firstIndex_cons_ne _ hk1, firstIndex_cons_ne _ (hkey e hmem)]
          exact Nat.succ_le_succ (h4 e hmem hec)
    · rw [if_neg ha] at hr
      rcases ih hnd.2 acc r hr with ⟨h1, h2⟩ | ⟨h1, h2, h3, h4⟩
      · left
        refine ⟨h1, ?_⟩
        intro e he
        rcases List.mem_cons.1 he with h | h
        · rw [h]; omega
        · exact h2 e h
      · right
        refine ⟨List.mem_cons_of_mem _ h1, h2, ?_, ?_⟩
        · intro e he
          rcases List.mem_cons.1 he with h | h
          · rw [h]; omega
          · exact h3 e h
        · intro e he hec
          have hmem : e ∈ E := by
            rcases List.mem_cons.1 he with h | h
            · rw [h] at hec; omega
            · exact h
          have hk1 : a.1 ≠ r.2 := hkey _ h1
          rw [List.map_cons, firstIndex_cons_ne _ hk1, firstIndex_cons_ne _ (hkey e hmem)]
          exact Nat.succ_le_succ (h4 e hmem hec)

theorem selectMax_first (E : List (Plan × Nat)) (hnd : (E.map Prod.fst).Nodup)
    (h : ∃ e ∈ E, 0 < e.2) :
    ∀ e ∈ E, e.2 = (selectMax E).1 →
      firstIndex (selectMax E).2 (E.map Prod.fst) ≤ firstIndex e.1 (E.map Prod.fst) := by
  rcases selectLoop_first E hnd (0, zeroPlan) (selectMax E) rfl with ⟨-, h2⟩ | ⟨-, -, -, h4⟩
  · obtain ⟨e, he, hpos⟩ := h
    have := h2 e he
    simp only at this
    omega
  · exact h4

/-- The keys of the tally stand in the order in which the plans were first
constructed. -/
theorem tally_keys_pairwise (ws : List Plan) :
    ((ws.foldl tally []).map Prod.fst).Pairwise (fun a b => firstIndex a ws < firstIndex b ws) := by
  induction ws using List.reverseRecOn with
  | nil => simp
  | append_singleton pre w ih =>
    obtain ⟨-, -, hmem⟩ := tallyAll_spec pre [] (by simp)
    have hmem' : ∀ q, q ∈ (pre.foldl tally []).map Prod.fst ↔ q ∈ pre := by
      intro q; simpa using hmem q
    have hold : ((pre.foldl tally []).map Prod.fst).Pairwise
        (fun a b => firstIndex a (pre ++ [w]) < firstIndex b (pre ++ [w])) := by
      rw [List.pairwise_iff_getElem] at ih ⊢
      intro i j hi hj hij
      have hi' := (hmem' _).1 (List.getElem_mem hi)
      have hj' := (hmem' _).1 (List.getElem_mem hj)
      rw [firstIndex_append_of_mem _ hi', firstIndex_append_of_mem _ hj']
      exact ih i j hi hj hij
    rw [List.foldl_append, List.foldl_cons, List.foldl_nil, keys_tally]
    by_cases hw : w ∈ (pre.foldl tally []).map Prod.fst
    · rw [if_pos hw]; exact hold
    · rw [if_neg hw, List.pairwise_append]
      refine ⟨hold, List.pairwise_singleton _ _, ?_⟩
      intro a ha b hb
      rw [List.mem_singleton] at hb
      subst hb
      have ha' := (hmem' _).1 ha
      have hb' : b ∉ pre := fun h => hw ((hmem' _).2 h)
      rw [firstIndex_append_of_mem _ ha', firstIndex_append_of_not_mem _ hb']
      have := firstIndex_lt_length ha'
      omega

/-- Keys of the tally stand in the order in which their plans were first
constructed. -/
theorem tally_firstIndex_mono (ws : List Plan) (w w' : Plan)
    (h1 : w ∈ ws) (h2 : w' ∈ ws)
    (hle : firstIndex w ((ws.foldl tally []).map Prod.fst)
      ≤ firstIndex w' ((ws.foldl tally []).map Prod.fst)) :
    firstIndex w ws ≤ firstIndex w' ws := by
  obtain ⟨-, -, hmem⟩ := tallyAll_spec ws [] (by simp)
  have hp := tally_keys_pairwise ws
  rw [List.pairwise_iff_getElem] at hp
  have k1 : w ∈ (ws.foldl tally []).map Prod.fst := (hmem w).2 (Or.inr h1)
  have k2 : w' ∈ (ws.foldl tally []).map Prod.fst := (hmem w').2 (Or.inr h2)
  have i1 := firstIndex_lt_length k1
  have i2 := firstIndex_lt_length k2
  have a := getElem?_firstIndex k1
  have b := getElem?_firstIndex k2
  rw [List.getElem?_eq_getElem i1] at a
  rw [List.getElem?_eq_getElem i2] at b
  simp only [Option.some.injEq] at a b
  rcases Nat.lt_or_eq_of_le hle with hlt | heq
  · have := hp _ _ i1 i2 hlt
    rw [a, b] at this
    exact this.le
  · have e : w = w' := by
      rw [← a, ← b]
      congr 1
    rw [e]

/-- The plan `Optimize` returns, as the selection over the tally of the ants'
plans walked in the order of the map. -/
theorem Optimize_plan_eq (env : Env) (g : Rand) (taskGroup : TaskGroup) (nodes : List NodeInfo)
    (config : Config) (TAU_0 : DenseMatrix) (nodes1 : List NodeInfo)
    (hg : greedyInit taskGroup nodes = some (TAU_0, nodes1))
    (hT : taskGroup.length ≤ PLAN_SIZE) :
    (Optimize env g taskGroup nodes config).map (fun o => o.plan)
      = some ((selectMax (env.mapOrder
          ((antPlans env config (canonicalTasks taskGroup) (snapshot nodes) config.Ants.toNat
            (colonyStart TAU_0 nodes1 g)).foldl tally []))).2.take taskGroup.length) := by
  have hplans : (antLoop env config (canonicalTasks taskGroup) (snapshot nodes)
      config.Ants.toNat (colonyStart TAU_0 nodes1 g)).plans
        = (antPlans env config (canonicalTasks taskGroup) (snapshot nodes) config.Ants.toNat
            (colonyStart TAU_0 nodes1 g)).foldl tally [] := by
    rw [antLoop_plans]; rfl
  simp only [Optimize, hg, if_neg (not_lt.2 hT), hplans, Option.map_some']

/-! ## `Optimize`: ties -/

/-- C16 (counterexample). One task, three idle nodes, two ants; the first ant
constructs the plan `[1]`, the second the plan `[0]`, so both plans have count
`1`. With the map walked in reverse order of insertion `Optimize` returns `[0]`,
the plan seen last. -/
theorem Optimize_tie_last_seen :
    (greedyInit [("task-0", ⟨⟨128 * MB, 250000000⟩⟩)] (mockNodes 3 (1024 * MB) (4 * CORE))).map
        (fun r =>
          (antPlans reverseEnv (testConfig 2)
            (canonicalTasks [("task-0", ⟨⟨128 * MB, 250000000⟩⟩)])
            (snapshot (mockNodes 3 (1024 * MB) (4 * CORE))) 2
            (colonyStart r.1 r.2
              (firstRestRand (1 / 2) (1 / 20) (by norm_num) (by norm_num)))).map
            (fun w => w.take 1))
        = some [[1], [0]] ∧
      (Optimize reverseEnv (firstRestRand (1 / 2) (1 / 20) (by norm_num) (by norm_num))
        [("task-0", ⟨⟨128 * MB, 250000000⟩⟩)] (mockNodes 3 (1024 * MB) (4 * CORE))
        (testConfig 2)).map (fun o => o.plan) = some [0] := by
  refine ⟨by decide!, by decide!⟩

/-- C16, as amended. Among the plans that share the highest count, `Optimize`
returns the one whose key the walk over the plan-count map meets first; when
the map is walked in the order of insertion that plan is the one constructed
by the earliest ant. -/
theorem Optimize_tie_break (env : Env) (g : Rand) (taskGroup : TaskGroup)
    (nodes : List NodeInfo) (config : Config) (hN : 1 ≤ nodes.length)
    (hT : taskGroup.length ≤ PLAN_SIZE) (hA : 1 ≤ config.Ants) :
    ∃ out TAU_0 nodes1, greedyInit taskGroup nodes = some (TAU_0, nodes1) ∧
      Optimize env g taskGroup nodes config = some out ∧
      ∀ ws, ws = antPlans env config (canonicalTasks taskGroup) (snapshot nodes)
          config.Ants.toNat (colonyStart TAU_0 nodes1 g) →
        ∃ w ∈ ws, out.plan = w.take taskGroup.length ∧
          (∀ w' ∈ ws, ws.count w' ≤ ws.count w) ∧
          (∀ w' ∈ ws, ws.count w' = ws.count w →
            firstIndex w ((env.mapOrder (ws.foldl tally [])).map Prod.fst)
              ≤ firstIndex w' ((env.mapOrder (ws.foldl tally [])).map Prod.fst)) ∧
          (env.mapOrder (ws.foldl tally []) = ws.foldl tally [] →
            ∀ w' ∈ ws, ws.count w' = ws.count w → firstIndex w ws ≤ firstIndex w' ws) := by
  obtain ⟨TAU_0, nodes1, hg, -, -, -, -, -⟩ := greedyInit_spec taskGroup nodes hN
  obtain ⟨out, hout, -⟩ := Optimize_spec env g taskGroup nodes config TAU_0 nodes1 hg hT hA
  refine ⟨out, TAU_0, nodes1, hg, hout, ?_⟩
  intro ws hws
  have hplan := Optimize_plan_eq env g taskGroup nodes config TAU_0 nodes1 hg hT
  rw [hout, Option.map_some', ← hws, Option.some.injEq] at hplan
  have hlen : ws.length = config.Ants.toNat := by rw [hws, antPlans_length]
  obtain ⟨t1, t2⟩ := tallyAll_nil_spec ws
  obtain ⟨tnd, -, -⟩ := tallyAll_spec ws [] (by simp)
  have hperm := env.mapOrder_perm (ws.foldl tally [])
  have hnd : ((env.mapOrder (ws.foldl tally [])).map Prod.fst).Nodup :=
    (hperm.map Prod.fst).nodup_iff.2 tnd
  obtain ⟨w0, hw0⟩ : ∃ w0, w0 ∈ ws := by
    cases ws with
    | nil => simp only [List.length_nil] at hlen; omega
    | cons a _ => exact ⟨a, List.mem_cons_self _ _⟩
  have hex : ∃ e ∈ env.mapOrder (ws.foldl tally []), 0 < e.2 :=
    ⟨(w0, ws.count w0), hperm.mem_iff.2 (t2 w0 hw0), List.count_pos_iff.2 hw0⟩
  obtain ⟨s1, s2⟩ := selectMax_spec _ hex
  have s3 := selectMax_first _ hnd hex
  obtain ⟨m1, m2⟩ := t1 _ (hperm.mem_iff.1 s1)
  simp only at m1 m2
  have hfirst : ∀ w' ∈ ws, ws.count w' = ws.count (selectMax (env.mapOrder (ws.foldl tally []))).2 →
      firstIndex (selectMax (env.mapOrder (ws.foldl tally []))).2
          ((env.mapOrder (ws.foldl tally [])).map Prod.fst)
        ≤ firstIndex w' ((env.mapOrder (ws.foldl tally [])).map Prod.fst) := by
    intro w' hw' hc
    exact s3 (w', ws.count w') (hperm.mem_iff.2 (t2 w' hw')) (by rw [m2]; exact hc)
  refine ⟨_, m1, hplan, ?_, hfirst, ?_⟩
  · intro w' hw'
    rw [← m2]
    exact s2 _ (hperm.mem_iff.2 (t2 w' hw'))
  · intro hid w' hw' hc
    have := hfirst w' hw' hc
    have hk : (env.mapOrder (ws.foldl tally [])).map Prod.fst
        = (ws.foldl tally []).map Prod.fst := by rw [hid]
    rw [hk] at this
    exact tally_firstIndex_mono ws _ _ m1 hw' this

theorem Optimize_tie_break_witness :
    ∃ out, Optimize runEnv (firstRestRand (1 / 2) (1 / 20) (by norm_num) (by norm_num))
        [("task-0", ⟨⟨128 * MB, 250000000⟩⟩)] (mockNodes 3 (1024 * MB) (4 * CORE))
        (testConfig 2) = some out ∧ out.plan.length = 1 := by
  obtain ⟨out, _, _, -, h1, h2⟩ := Optimize_tie_break runEnv
    (firstRestRand (1 / 2) (1 / 20) (by norm_num) (by norm_num))
    [("task-0", ⟨⟨128 * MB, 250000000⟩⟩)] (mockNodes 3 (1024 * MB) (4 * CORE))
    (testConfig 2) (by decide) (by decide) (by decide)
  refine ⟨out, h1, ?_⟩
  have h3 : (Optimize runEnv (firstRestRand (1 / 2) (1 / 20) (by norm_num) (by norm_num))
        [("task-0", ⟨⟨128 * MB, 250000000⟩⟩)] (mockNodes 3 (1024 * MB) (4 * CORE))
        (testConfig 2)).map (fun o => o.plan.length) = some 1 := by decide!
  rw [h1] at h3
  simpa using h3

/-! ## Frame of one task step -/

theorem vaporize_foldl_Get (config : Config) (t : Nat) (l : List Nat) :
    ∀ (TAU : DenseMatrix) (c : Nat),
      (l.foldl
        (fun m c => m.Set (t + 1) c (F64.mul (F64.sub F64.one config.Rho) (m.Get t c)))
        TAU).Get t c = TAU.Get t c := by
  induction l with
  | nil => intro TAU c; rfl
  | cons x xs ih =>
    intro TAU c
    rw [List.foldl_cons, ih, Get_Set, if_neg (by omega)]

/-- The evaporation writes row `task_idx + 1` only. -/
theorem vaporize_Get_row (config : Config) (TAU : DenseMatrix) (nodes : List NodeInfo)
    (t j c : Nat) : (vaporize config TAU nodes t j).Get t c = TAU.Get t c := by
  unfold vaporize
  rw [Get_Set, if_neg (by omega), vaporize_foldl_Get]

/-- The nodes after one task step: unchanged when the ant records `-1`, the
chosen node debited once otherwise. -/
theorem taskStep_nodes (env : Env) (config : Config) (nodeOrders : List Nat) (T : Nat)
    (st : AntState) (task_idx : Nat) (task : Task) :
    (taskStep env config nodeOrders T st task_idx task).nodes
      = if (decide_j config (probs (scan env config st.TAU st.nodes nodeOrders task_idx task))
            st.rng).1 < 0 then st.nodes
        else st.nodes.set
          (decide_j config (probs (scan env config st.TAU st.nodes nodeOrders task_idx task))
            st.rng).1.toNat
          (debit (st.nodes.getD
            (decide_j config (probs (scan env config st.TAU st.nodes nodeOrders task_idx task))
              st.rng).1.toNat default) task) := by
  unfold taskStep
  simp only
  split <;> rfl

/-- The pheromone cell of the chosen node after one task step: `P` of the node
as it is before the step. -/
theorem taskStep_TAU_cell (env : Env) (config : Config) (nodeOrders : List Nat) (T : Nat)
    (st : AntState) (task_idx : Nat) (task : Task)
    (hj : 0 ≤ (decide_j config
      (probs (scan env config st.TAU st.nodes nodeOrders task_idx task)) st.rng).1) :
    (taskStep env config nodeOrders T st task_idx task).TAU.Get task_idx
        (decide_j config (probs (scan env config st.TAU st.nodes nodeOrders task_idx task))
          st.rng).1.toNat
      = P (st.nodes.getD
          (decide_j config (probs (scan env config st.TAU st.nodes nodeOrders task_idx task))
            st.rng).1.toNat default) := by
  unfold taskStep
  simp only
  rw [if_neg (by omega)]
  simp only
  split
  · rw [vaporize_Get_row, Get_Set, if_pos ⟨rfl, rfl⟩]
  · rw [Get_Set, if_pos ⟨rfl, rfl⟩]

theorem getD_set_debit_Description (nodes : List NodeInfo) (k : Nat) (task : Task) (i : Nat) :
    ((nodes.set k (debit (nodes.getD k default) task)).getD i default).Description
      = (nodes.getD i default).Description := by
  by_cases hki : k = i
  · subst hki
    by_cases hk : k < nodes.length
    · simp [List.getD_eq_getElem?_getD, List.getElem?_set, hk, debit]
    · have hn : nodes[k]? = none := List.getElem?_eq_none (by omega)
      simp [List.getD_eq_getElem?_getD, List.getElem?_set, hk, hn]
  · simp [List.getD_eq_getElem?_getD, List.getElem?_set, hki]

theorem taskStep_Description (env : Env) (config : Config) (nodeOrders : List Nat) (T : Nat)
    (st : AntState) (task_idx : Nat) (task : Task) (i : Nat) :
    ((taskStep env config nodeOrders T st task_idx task).nodes.getD i default).Description
      = (st.nodes.getD i default).Description := by
  rw [taskStep_nodes]
  split
  · rfl
  · exact getD_set_debit_Description _ _ _ _

theorem taskLoop_frame (env : Env) (config : Config) (nodeOrders : List Nat) (T : Nat)
    (tasks : List Task) :
    ∀ (task_idx : Nat) (st : AntState),
      (taskLoop env config nodeOrders T tasks task_idx st).nodes.length = st.nodes.length ∧
      (∀ i, ((taskLoop env config nodeOrders T tasks task_idx st).nodes.getD i
          default).Description = (st.nodes.getD i default).Description) ∧
      (taskLoop env config nodeOrders T tasks task_idx st).plan.length = st.plan.length ∧
      ∀ i < task_idx,
        (taskLoop env config nodeOrders T tasks task_idx st).plan[i]? = st.plan[i]? := by
  induction tasks with
  | nil => intro task_idx st; exact ⟨rfl, fun _ => rfl, rfl, fun _ _ => rfl⟩
  | cons t ts ih =>
    intro task_idx st
    obtain ⟨h1, h2, h3, h4⟩ := ih (task_idx + 1) (taskStep env config nodeOrders T st task_idx t)
    have hplan := taskStep_plan env config nodeOrders T st task_idx t
    refine ⟨?_, ?_, ?_, ?_⟩
    · show (taskLoop env config nodeOrders T ts (task_idx + 1) _).nodes.length = _
      rw [h1, taskStep_nodes_length]
    · intro i
      show ((taskLoop env config nodeOrders T ts (task_idx + 1) _).nodes.getD i
        default).Description = _
      rw [h2, taskStep_Description]
    · show (taskLoop env config nodeOrders T ts (task_idx + 1) _).plan.length = _
      rw [h3, hplan]; simp
    · intro i hi
      show (taskLoop env config nodeOrders T ts (task_idx + 1) _).plan[i]? = _
      rw [h4 i (by omega), hplan, List.getElem?_set_ne (by omega)]

/-- The nodes an ant leaves behind: every node debited by the tasks its plan
assigns to it. -/
theorem taskLoop_nodes (env : Env) (config : Config) (nodeOrders : List Nat) (T : Nat)
    (tasks : List Task) :
    ∀ (task_idx : Nat) (st : AntState), task_idx + tasks.length ≤ st.plan.length →
      ∀ i < st.nodes.length,
        (taskLoop env config nodeOrders T tasks task_idx st).nodes.getD i default
          = debitAll (st.nodes.getD i default)
              (assignedTo ((taskLoop env config nodeOrders T tasks task_idx st).plan.drop
                task_idx) tasks i) := by
  induction tasks with
  | nil =>
    intro task_idx st _ i _
    simp [taskLoop, assignedTo, debitAll_nil]
  | cons t ts ih =>
    intro task_idx st hlen i hi
    have hplan := taskStep_plan env config nodeOrders T st task_idx t
    have hnodes := taskStep_nodes env config nodeOrders T st task_idx t
    have hpl : (taskStep env config nodeOrders T st task_idx t).plan.length = st.plan.length := by
      rw [hplan]; simp
    simp only [List.length_cons] at hlen
    obtain ⟨-, -, f3, f4⟩ := taskLoop_frame env config nodeOrders T ts (task_idx + 1)
      (taskStep env config nodeOrders T st task_idx t)
    have hrec := ih (task_idx + 1) (taskStep env config nodeOrders T st task_idx t)
      (by rw [hpl]; omega) i (by rw [taskStep_nodes_length]; exact hi)
    have hloop : taskLoop env config nodeOrders T (t :: ts) task_idx st
        = taskLoop env config nodeOrders T ts (task_idx + 1)
            (taskStep env config nodeOrders T st task_idx t) := rfl
    rw [hloop, hrec]
    have hhead : (taskLoop env config nodeOrders T ts (task_idx + 1)
        (taskStep env config nodeOrders T st task_idx t)).plan[task_idx]?
          = some (decide_j config
              (probs (scan env config st.TAU st.nodes nodeOrders task_idx t)) st.rng).1 := by
      rw [f4 task_idx (by omega), hplan, List.getElem?_set_self (by omega)]
    have hlt : task_idx < (taskLoop env config nodeOrders T ts (task_idx + 1)
        (taskStep env config nodeOrders T st task_idx t)).plan.length := by
      rw [f3, hpl]; omega
    have hdrop : (taskLoop env config nodeOrders T ts (task_idx + 1)
        (taskStep env config nodeOrders T st task_idx t)).plan.drop task_idx
          = (decide_j config
              (probs (scan env config st.TAU st.nodes nodeOrders task_idx t)) st.rng).1 ::
            (taskLoop env config nodeOrders T ts (task_idx + 1)
              (taskStep env config nodeOrders T st task_idx t)).plan.drop (task_idx + 1) := by
      rw [List.drop_eq_getElem_cons hlt]
      rw [List.getElem?_eq_getElem hlt] at hhead
      simp only [Option.some.injEq] at hhead
      rw [hhead]
    rw [hdrop, assignedTo_cons, hnodes]
    generalize (decide_j config
      (probs (scan env config st.TAU st.nodes nodeOrders task_idx t)) st.rng).1 = j
    by_cases hji : j = (i : Int)
    · have h1 : ¬ j < 0 := by omega
      have h2 : j.toNat = i := by omega
      rw [if_pos hji, if_neg h1, debitAll_cons, h2]
      congr 1
      simp [List.getD_eq_getElem?_getD, List.getElem?_set, hi]
    · rw [if_neg hji]
      congr 1
      split
      · rfl
      · have h2 : j.toNat ≠ i := by omega
        simp [List.getD_eq_getElem?_getD, List.getElem?_set, h2]

/-! ## Frame of the colony -/

theorem greedyLoop_frame (rest : List Task) :
    ∀ (row col : Nat) (TAU : DenseMatrix) (cur : List NodeInfo) (TAU' : DenseMatrix)
      (nodes' : List NodeInfo),
      greedyLoop rest row col TAU cur = some (TAU', nodes') →
      nodes'.length = cur.length ∧
        ∀ j, (nodes'.getD j default).Description = (cur.getD j default).Description := by
  induction rest with
  | nil =>
    intro row col TAU cur TAU' nodes' h
    simp only [greedyLoop, Option.some.injEq, Prod.mk.injEq] at h
    rw [← h.2]
    exact ⟨rfl, fun _ => rfl⟩
  | cons t ts ih =>
    intro row col TAU cur TAU' nodes' h
    unfold greedyLoop at h
    cases hc : cur[col]? with
    | none => rw [hc] at h; exact absurd h (by simp)
    | some node =>
      rw [hc] at h
      simp only at h
      obtain ⟨h1, h2⟩ := ih _ _ _ _ _ _ h
      have hnode : node = cur.getD col default := by
        rw [List.getD_eq_getElem?_getD, hc]; rfl
      refine ⟨by rw [h1]; simp, fun j => ?_⟩
      rw [h2, hnode]
      exact getD_set_debit_Description _ _ _ _

/-- Function `greedyInit` changes available resources only: the node vector it
leaves has the length and the descriptions of the one it was given. -/
theorem greedyInit_frame (taskGroup : TaskGroup) (nodes : List NodeInfo) (TAU_0 : DenseMatrix)
    (nodes1 : List NodeInfo) (hg : greedyInit taskGroup nodes = some (TAU_0, nodes1)) :
    nodes1.length = nodes.length ∧
      ∀ j, (nodes1.getD j default).Description = (nodes.getD j default).Description :=
  greedyLoop_frame _ _ _ _ _ _ _ hg

theorem antStart_snapshot (nodes : List NodeInfo) (st : ColonyState)
    (hl : st.nodes.length = nodes.length)
    (hd : ∀ j, (st.nodes.getD j default).Description = (nodes.getD j default).Description) :
    (antStart (snapshot nodes) st).2.nodes = nodes :=
  resetNodes_snapshot nodes st.nodes hl (fun j _ => hd j)

theorem antStep_snapshot_frame (env : Env) (config : Config) (tasks : List Task)
    (nodes : List NodeInfo) (st : ColonyState) (hl : st.nodes.length = nodes.length)
    (hd : ∀ j, (st.nodes.getD j default).Description = (nodes.getD j default).Description) :
    (antStep env config tasks (snapshot nodes) st).nodes.length = nodes.length ∧
      ∀ j, ((antStep env config tasks (snapshot nodes) st).nodes.getD j default).Description
        = (nodes.getD j default).Description := by
  obtain ⟨f1, f2, -, -⟩ := taskLoop_frame env config (antStart (snapshot nodes) st).1
    tasks.length tasks 0 (antStart (snapshot nodes) st).2
  rw [antStart_snapshot nodes st hl hd] at f1 f2
  exact ⟨f1, f2⟩

theorem antLoop_snapshot_frame (env : Env) (config : Config) (tasks : List Task)
    (nodes : List NodeInfo) (n : Nat) :
    ∀ st : ColonyState, st.nodes.length = nodes.length →
      (∀ j, (st.nodes.getD j default).Description = (nodes.getD j default).Description) →
      (antLoop env config tasks (snapshot nodes) n st).nodes.length = nodes.length ∧
        ∀ j, ((antLoop env config tasks (snapshot nodes) n st).nodes.getD j default).Description
          = (nodes.getD j default).Description := by
  induction n with
  | zero => intro st hl hd; exact ⟨hl, hd⟩
  | succ n ih =>
    intro st hl hd
    obtain ⟨a, b⟩ := antStep_snapshot_frame env config tasks nodes st hl hd
    exact ih _ a b

theorem antLoop_succ_last (env : Env) (config : Config) (tasks : List Task)
    (refResources : List Resources) (n : Nat) :
    ∀ st : ColonyState,
      antLoop env config tasks refResources (n + 1) st
        = antStep env config tasks refResources (antLoop env config tasks refResources n st) := by
  induction n with
  | zero => intro st; rfl
  | succ n ih =>
    intro st
    show antLoop env config tasks refResources (n + 1) (antStep env config tasks refResources st)
      = _
    rw [ih]
    rfl

theorem antPlans_succ_last (env : Env) (config : Config) (tasks : List Task)
    (refResources : List Resources) (n : Nat) :
    ∀ st : ColonyState,
      antPlans env config tasks refResources (n + 1) st
        = antPlans env config tasks refResources n st ++
          [(antRun env config tasks refResources
            (antLoop env config tasks refResources n st)).plan] := by
  induction n with
  | zero => intro st; rfl
  | succ n ih =>
    intro st
    show (antRun env config tasks refResources st).plan ::
      antPlans env config tasks refResources (n + 1) (antStep env config tasks refResources st)
        = _
    rw [ih]
    rfl

/-- The node vector `Optimize` leaves behind is the one of the colony after the
last ant. -/
theorem Optimize_nodes_eq (env : Env) (g : Rand) (taskGroup : TaskGroup) (nodes : List NodeInfo)
    (config : Config) (TAU_0 : DenseMatrix) (nodes1 : List NodeInfo)
    (hg : greedyInit taskGroup nodes = some (TAU_0, nodes1))
    (hT : taskGroup.length ≤ PLAN_SIZE) :
    (Optimize env g taskGroup nodes config).map (fun o => o.nodes)
      = some (antLoop env config (canonicalTasks taskGroup) (snapshot nodes) config.Ants.toNat
          (colonyStart TAU_0 nodes1 g)).nodes := by
  simp only [Optimize, hg, if_neg (not_lt.2 hT), Option.map_some']

/-- The nodes an ant leaves behind, in terms of its plan: the snapshotted nodes,
each debited by the tasks the plan assigns to it. -/
theorem antRun_nodes (env : Env) (config : Config) (tasks : List Task) (nodes : List NodeInfo)
    (hT : tasks.length ≤ PLAN_SIZE) (st : ColonyState) (hl : st.nodes.length = nodes.length)
    (hd : ∀ j, (st.nodes.getD j default).Description = (nodes.getD j default).Description) :
    ∀ j < nodes.length,
      (antRun env config tasks (snapshot nodes) st).nodes.getD j default
        = debitAll (nodes.getD j default)
            (assignedTo (antRun env config tasks (snapshot nodes) st).plan tasks j) := by
  intro j hj
  have h := taskLoop_nodes env config (antStart (snapshot nodes) st).1 tasks.length tasks 0
    (antStart (snapshot nodes) st).2
    (by rw [antStart_plan, zeroPlan_length]; omega) j
    (by rw [antStart_snapshot nodes st hl hd]; exact hj)
  rw [antStart_snapshot nodes st hl hd, List.drop_zero] at h
  exact h

/-! ## `Optimize`: the nodes at the start of an ant and after the call -/

/-- C18. Whenever `greedyInit` returns, the node vector at the start of the task
loop of every ant (the first, after the debits of `greedyInit`, and each later
one, after the commits of the ants before it) is the node vector `Optimize` was
called with: every node has the available resources of call time. -/
theorem antStart_nodes_call_time (env : Env) (g : Rand) (taskGroup : TaskGroup)
    (nodes : List NodeInfo) (config : Config) (TAU_0 : DenseMatrix) (nodes1 : List NodeInfo)
    (hg : greedyInit taskGroup nodes = some (TAU_0, nodes1)) (a : Nat) :
    (antStart (snapshot nodes)
      (antLoop env config (canonicalTasks taskGroup) (snapshot nodes) a
        (colonyStart TAU_0 nodes1 g))).2.nodes = nodes := by
  obtain ⟨g1, g2⟩ := greedyInit_frame taskGroup nodes TAU_0 nodes1 hg
  obtain ⟨h1, h2⟩ := antLoop_snapshot_frame env config (canonicalTasks taskGroup) nodes a
    (colonyStart TAU_0 nodes1 g) g1 g2
  exact antStart_snapshot nodes _ h1 h2

/-- C18 (witness). One task of 128 MB on three idle nodes of 1024 MB:
`greedyInit` leaves node 0 debited and the first ant leaves node 1 debited, and
the first and the second ant both start from the nodes of call time. -/
theorem antStart_nodes_call_time_witness :
    ∃ TAU_0 nodes1,
      greedyInit [("task-0", ⟨⟨128 * MB, 250000000⟩⟩)] (mockNodes 3 (1024 * MB) (4 * CORE))
        = some (TAU_0, nodes1) ∧
      availableMemory nodes1 = [896 * MB, 1024 * MB, 1024 * MB] ∧
      availableMemory
        (antLoop runEnv (testConfig 2) (canonicalTasks [("task-0", ⟨⟨128 * MB, 250000000⟩⟩)])
          (snapshot (mockNodes 3 (1024 * MB) (4 * CORE))) 1
          (colonyStart TAU_0 nodes1
            (firstRestRand (1 / 2) (1 / 20) (by norm_num) (by norm_num)))).nodes
        = [1024 * MB, 896 * MB, 1024 * MB] ∧
      (antStart (snapshot (mockNodes 3 (1024 * MB) (4 * CORE)))
        (antLoop runEnv (testConfig 2) (canonicalTasks [("task-0", ⟨⟨128 * MB, 250000000⟩⟩)])
          (snapshot (mockNodes 3 (1024 * MB) (4 * CORE))) 0
          (colonyStart TAU_0 nodes1
            (firstRestRand (1 / 2) (1 / 20) (by norm_num) (by norm_num))))).2.nodes
        = mockNodes 3 (1024 * MB) (4 * CORE) ∧
      (antStart (snapshot (mockNodes 3 (1024 * MB) (4 * CORE)))
        (antLoop runEnv (testConfig 2) (canonicalTasks [("task-0", ⟨⟨128 * MB, 250000000⟩⟩)])
          (snapshot (mockNodes 3 (1024 * MB) (4 * CORE))) 1
          (colonyStart TAU_0 nodes1
            (firstRestRand (1 / 2) (1 / 20) (by norm_num) (by norm_num))))).2.nodes
        = mockNodes 3 (1024 * MB) (4 * CORE) := by
  have hs : (greedyInit [("task-0", ⟨⟨128 * MB, 250000000⟩⟩)]
      (mockNodes 3 (1024 * MB) (4 * CORE))).isSome = true := by decide!
  have hg := (Option.some_get hs).symm
  refine ⟨_, _, hg, by decide!, by decide!,
    antStart_nodes_call_time runEnv _ _ _ (testConfig 2) _ _ hg 0,
    antStart_nodes_call_time runEnv _ _ _ (testConfig 2) _ _ hg 1⟩

/-! ## `Optimize`: the nodes after the call -/

/-- C17 (counterexample). One task of 128 MB and a quarter of a core, three idle
nodes of 1024 MB and four cores, two ants: `Optimize` returns the plan `[1]`
and leaves node 0, which the second (last) ant chose, with 896 MB and 3.75
cores available, not with the 1024 MB and four cores of call time. -/
theorem Optimize_nodes_not_restored :
    (Optimize runEnv (firstRestRand (1 / 2) (1 / 20) (by norm_num) (by norm_num))
        [("task-0", ⟨⟨128 * MB, 250000000⟩⟩)] (mockNodes 3 (1024 * MB) (4 * CORE))
        (testConfig 2)).map
        (fun o => (o.plan, o.nodes.map (fun n => n.AvailableResources)))
      = some ([1], [⟨896 * MB, 3750000000⟩, ⟨1024 * MB, 4 * CORE⟩, ⟨1024 * MB, 4 * CORE⟩]) ∧
    (mockNodes 3 (1024 * MB) (4 * CORE)).map (fun n => n.AvailableResources)
      = [⟨1024 * MB, 4 * CORE⟩, ⟨1024 * MB, 4 * CORE⟩, ⟨1024 * MB, 4 * CORE⟩] := by
  decide!

/-- C17 (amended). Whenever `greedyInit` returns, with at most `PLAN_SIZE` tasks
and at least one ant, `Optimize` returns and leaves as many nodes as it was
given; the nodes are those of call time debited by the commits of the last
ant: node `j` is the node of call time debited by the tasks the last ant's plan
assigns to `j` (same description), and it is the node of call time when that
plan assigns no task to `j`. -/
theorem Optimize_nodes_last_ant (env : Env) (g : Rand) (taskGroup : TaskGroup)
    (nodes : List NodeInfo) (config : Config) (TAU_0 : DenseMatrix) (nodes1 : List NodeInfo)
    (hg : greedyInit taskGroup nodes = some (TAU_0, nodes1))
    (hT : taskGroup.length ≤ PLAN_SIZE) (hA : 1 ≤ config.Ants) :
    ∃ out w, Optimize env g taskGroup nodes config = some out ∧
      (antPlans env config (canonicalTasks taskGroup) (snapshot nodes) config.Ants.toNat
        (colonyStart TAU_0 nodes1 g)).getLast? = some w ∧
      out.nodes.length = nodes.length ∧
      ∀ j < nodes.length,
        out.nodes.getD j default
          = debitAll (nodes.getD j default) (assignedTo w (canonicalTasks taskGroup) j) ∧
        (out.nodes.getD j default).Description = (nodes.getD j default).Description ∧
        ((∀ i < taskGroup.length, w[i]? ≠ some (j : Int)) →
          out.nodes.getD j default = nodes.getD j default) := by
  obtain ⟨n, hn⟩ : ∃ n, config.Ants.toNat = n + 1 := ⟨config.Ants.toNat - 1, by omega⟩
  obtain ⟨g1, g2⟩ := greedyInit_frame taskGroup nodes TAU_0 nodes1 hg
  obtain ⟨l1, l2⟩ := antLoop_snapshot_frame env config (canonicalTasks taskGroup) nodes n
    (colonyStart TAU_0 nodes1 g) g1 g2
  obtain ⟨out, hout, -⟩ := Optimize_spec env g taskGroup nodes config TAU_0 nodes1 hg hT hA
  have hnodes := Optimize_nodes_eq env g taskGroup nodes config TAU_0 nodes1 hg hT
  rw [hout, Option.map_some', Option.some.injEq, hn, antLoop_succ_last] at hnodes
  have hT' : (canonicalTasks taskGroup).length ≤ PLAN_SIZE := by
    rw [canonicalTasks_length]; exact hT
  have hrun := antRun_nodes env config (canonicalTasks taskGroup) nodes hT'
    (antLoop env config (canonicalTasks taskGroup) (snapshot nodes) n
      (colonyStart TAU_0 nodes1 g)) l1 l2
  obtain ⟨s1, -⟩ := antStep_snapshot_frame env config (canonicalTasks taskGroup) nodes
    (antLoop env config (canonicalTasks taskGroup) (snapshot nodes) n
      (colonyStart TAU_0 nodes1 g)) l1 l2
  have hon : out.nodes = (antRun env config (canonicalTasks taskGroup) (snapshot nodes)
      (antLoop env config (canonicalTasks taskGroup) (snapshot nodes) n
        (colonyStart TAU_0 nodes1 g))).nodes := hnodes
  refine ⟨out, (antRun env config (canonicalTasks taskGroup) (snapshot nodes)
      (antLoop env config (canonicalTasks taskGroup) (snapshot nodes) n
        (colonyStart TAU_0 nodes1 g))).plan, hout, ?_, ?_, ?_⟩
  · rw [hn, antPlans_succ_last, List.getLast?_append, List.getLast?_singleton]
    rfl
  · rw [hnodes]; exact s1
  · intro j hj
    have hj1 := hrun j hj
    rw [← hon] at hj1
    refine ⟨hj1, ?_, ?_⟩
    · rw [hj1, debitAll_Description]
    · intro hno
      rw [hj1, assignedTo_eq_nil _ _ _ (by rw [canonicalTasks_length]; exact hno), debitAll_nil]

/-- C17 (witness). The run of the counterexample: the nodes `Optimize` leaves
are those of call time debited by the commits of the last ant. -/
theorem Optimize_nodes_last_ant_witness :
    ∃ TAU_0 nodes1,
      greedyInit [("task-0", ⟨⟨128 * MB, 250000000⟩⟩)] (mockNodes 3 (1024 * MB) (4 * CORE))
        = some (TAU_0, nodes1) ∧
      ∃ out w,
        Optimize runEnv (firstRestRand (1 / 2) (1 / 20) (by norm_num) (by norm_num))
          [("task-0", ⟨⟨128 * MB, 250000000⟩⟩)] (mockNodes 3 (1024 * MB) (4 * CORE))
          (testConfig 2) = some out ∧
        (antPlans runEnv (testConfig 2) (canonicalTasks [("task-0", ⟨⟨128 * MB, 250000000⟩⟩)])
          (snapshot (mockNodes 3 (1024 * MB) (4 * CORE))) (testConfig 2).Ants.toNat
          (colonyStart TAU_0 nodes1
            (firstRestRand (1 / 2) (1 / 20) (by norm_num) (by norm_num)))).getLast? = some w ∧
        out.nodes.length = (mockNodes 3 (1024 * MB) (4 * CORE)).length ∧
        ∀ j < (mockNodes 3 (1024 * MB) (4 * CORE)).length,
          out.nodes.getD j default
            = debitAll ((mockNodes 3 (1024 * MB) (4 * CORE)).getD j default)
                (assignedTo w (canonicalTasks [("task-0", ⟨⟨128 * MB, 250000000⟩⟩)]) j) ∧
          (out.nodes.getD j default).Description
            = ((mockNodes 3 (1024 * MB) (4 * CORE)).getD j default).Description ∧
          ((∀ i < [("task-0", (⟨⟨128 * MB, 250000000⟩⟩ : Task))].length, w[i]? ≠ some (j : Int)) →
            out.nodes.getD j default = (mockNodes 3 (1024 * MB) (4 * CORE)).getD j default) := by
  have hs : (greedyInit [("task-0", ⟨⟨128 * MB, 250000000⟩⟩)]
      (mockNodes 3 (1024 * MB) (4 * CORE))).isSome = true := by decide!
  have hg := (Option.some_get hs).symm
  exact ⟨_, _, hg, Optimize_nodes_last_ant runEnv _ _ _ (testConfig 2) _ _ hg (by decide)
    (by decide)⟩

/-! ## The task step: pheromone write and scan -/

/-- The weight the scan leaves for a node: every scanned node that fits has the
weight computed from the node vector the scan was given. -/
theorem scan_foldl_getD (env : Env) (config : Config) (TAU : DenseMatrix)
    (nodes : List NodeInfo) (task_idx : Nat) (task : Task) (l : List Nat) :
    ∀ (acc : List F64 × F64), (∀ k ∈ l, k < acc.1.length) → ∀ k,
      ((l.foldl (scanStep env config TAU nodes task_idx task) acc).1).getD k F64.zero
        = if k ∈ l ∧ taskFitsNode task (nodes.getD k default) = true then
            F64.mul (env.pow (TAU.Get task_idx k) config.Alpha)
              (env.pow (P (debit (nodes.getD k default) task)) config.Beta)
          else acc.1.getD k F64.zero := by
  induction l with
  | nil => intro acc _ k; simp
  | cons x xs ih =>
    intro acc hl k
    rw [List.foldl_cons, ih _ (fun k hk => by
      rw [scanStep_length]; exact hl k (List.mem_cons_of_mem _ hk))]
    have hx : x < acc.1.length := hl x (List.mem_cons_self _ _)
    by_cases hfit : taskFitsNode task (nodes.getD k default) = true
    · by_cases hk : k ∈ xs
      · rw [if_pos ⟨hk, hfit⟩, if_pos ⟨List.mem_cons_of_mem _ hk, hfit⟩]
      · rw [if_neg (fun h => hk h.1)]
        by_cases hkx : k = x
        · subst hkx
          rw [if_pos ⟨List.mem_cons_self _ _, hfit⟩]
          unfold scanStep
          simp only [hfit, if_true]
          simp [List.getD_eq_getElem?_getD, List.getElem?_set, hx]
        · have hnm : ¬ (k ∈ x :: xs ∧ taskFitsNode task (nodes.getD k default) = true) := by
            intro h
            rcases List.mem_cons.1 h.1 with h1 | h1
            · exact hkx h1
            · exact hk h1
          rw [if_neg hnm]
          unfold scanStep
          simp only
          split
          · simp [List.getD_eq_getElem?_getD, List.getElem?_set, Ne.symm hkx]
          · rfl
    · rw [if_neg (fun h => hfit h.2), if_neg (fun h => hfit h.2)]
      unfold scanStep
      simp only
      split
      · rename_i hxf
        have hkx : x ≠ k := by
          intro h
          rw [h] at hxf
          exact hfit hxf
        simp [List.getD_eq_getElem?_getD, List.getElem?_set, hkx]
      · rfl

theorem scan_getD (env : Env) (config : Config) (TAU : DenseMatrix) (nodes : List NodeInfo)
    (nodeOrders : List Nat) (task_idx : Nat) (task : Task)
    (hl : ∀ k ∈ nodeOrders, k < nodes.length) (k : Nat) (hk : k ∈ nodeOrders) :
    (scan env config TAU nodes nodeOrders task_idx task).1.getD k F64.zero
      = if taskFitsNode task (nodes.getD k default) = true then
          F64.mul (env.pow (TAU.Get task_idx k) config.Alpha)
            (env.pow (P (debit (nodes.getD k default) task)) config.Beta)
        else F64.zero := by
  unfold scan
  rw [scan_foldl_getD _ _ _ _ _ _ _ _ (by simpa using hl)]
  by_cases hfit : taskFitsNode task (nodes.getD k default) = true
  · rw [if_pos ⟨hk, hfit⟩, if_pos hfit]
  · rw [if_neg (fun h => hfit h.2), if_neg hfit]
    simp [List.getD_eq_getElem?_getD, List.getElem?_replicate, hl k hk, F64.zero]

/-- C19 (counterexample). One task of 700 MB and one core, one ant, and four
nodes of which only node 3 (1024 MB, one core) fits: the ant chooses node 3 and
the cell `TAU[0, 3]` holds `1`, the value of `P` on the idle node, whereas `P`
of node 3 after the debit of the task is `81/512`. -/
theorem Optimize_pheromone_idle_value :
    (Optimize runEnv (constRand (1 / 2) (by norm_num)) [("task-0", ⟨⟨700 * MB, 1 * CORE⟩⟩)]
        (mockNodes 3 (512 * MB) (4 * CORE) ++ mockNodes 1 (1024 * MB) (1 * CORE))
        (testConfig 1)).map (fun o => (o.plan, o.TAU.Get 0 3))
      = some ([3], F64.fin 1) ∧
    P (debit ⟨⟨1024 * MB, 1 * CORE⟩, ⟨1024 * MB, 1 * CORE⟩⟩ ⟨⟨700 * MB, 1 * CORE⟩⟩)
      = F64.fin (81 / 512) ∧
    P ⟨⟨1024 * MB, 1 * CORE⟩, ⟨1024 * MB, 1 * CORE⟩⟩ = F64.fin 1 := by
  decide!

/-- C19 (amended). When the ant's decision for the task at index `task_idx` is
a node index `j ≥ 0` (below the number of nodes), the task step leaves in
`TAU[task_idx, j]` the value of `P` on node `j` as it is before the step, that
is before the reservation of the task is subtracted; the node is debited
after the write, and the cell does not hold `P` of the debited node unless the
two values are equal. -/
theorem taskStep_pheromone_before_debit (env : Env) (config : Config) (nodeOrders : List Nat)
    (T : Nat) (st : AntState) (task_idx : Nat) (task : Task)
    (hj : 0 ≤ (decide_j config
      (probs (scan env config st.TAU st.nodes nodeOrders task_idx task)) st.rng).1)
    (hN : (decide_j config
      (probs (scan env config st.TAU st.nodes nodeOrders task_idx task)) st.rng).1.toNat
        < st.nodes.length) :
    (taskStep env config nodeOrders T st task_idx task).TAU.Get task_idx
        (decide_j config (probs (scan env config st.TAU st.nodes nodeOrders task_idx task))
          st.rng).1.toNat
      = P (st.nodes.getD
          (decide_j config (probs (scan env config st.TAU st.nodes nodeOrders task_idx task))
            st.rng).1.toNat default) ∧
    (taskStep env config nodeOrders T st task_idx task).nodes.getD
        (decide_j config (probs (scan env config st.TAU st.nodes nodeOrders task_idx task))
          st.rng).1.toNat default
      = debit (st.nodes.getD
          (decide_j config (probs (scan env config st.TAU st.nodes nodeOrders task_idx task))
            st.rng).1.toNat default) task ∧
    ((taskStep env config nodeOrders T st task_idx task).TAU.Get task_idx
        (decide_j config (probs (scan env config st.TAU st.nodes nodeOrders task_idx task))
          st.rng).1.toNat
      = P ((taskStep env config nodeOrders T st task_idx task).nodes.getD
          (decide_j config (probs (scan env config st.TAU st.nodes nodeOrders task_idx task))
            st.rng).1.toNat default)
      ↔ P (st.nodes.getD
          (decide_j config (probs (scan env config st.TAU st.nodes nodeOrders task_idx task))
            st.rng).1.toNat default)
        = P (debit (st.nodes.getD
          (decide_j config (probs (scan env config st.TAU st.nodes nodeOrders task_idx task))
            st.rng).1.toNat default) task)) := by
  have h1 := taskStep_TAU_cell env config nodeOrders T st task_idx task hj
  have h2 : (taskStep env config nodeOrders T st task_idx task).nodes.getD
        (decide_j config (probs (scan env config st.TAU st.nodes nodeOrders task_idx task))
          st.rng).1.toNat default
      = debit (st.nodes.getD
          (decide_j config (probs (scan env config st.TAU st.nodes nodeOrders task_idx task))
            st.rng).1.toNat default) task := by
    rw [taskStep_nodes, if_neg (by omega)]
    simp [List.getD_eq_getElem?_getD, List.getElem?_set, hN]
  exact ⟨h1, h2, by rw [h1, h2]⟩

/-- C19 (witness). The first task step of an ant on three idle nodes of 1024 MB
and four cores, with a task of 128 MB and a quarter of a core. -/
theorem taskStep_pheromone_before_debit_witness :
    0 ≤ (decide_j (testConfig 1)
      (probs (scan runEnv (testConfig 1)
        (idleAnt 1 3 (1024 * MB) (4 * CORE) (constRand (1 / 2) (by norm_num))).TAU
        (idleAnt 1 3 (1024 * MB) (4 * CORE) (constRand (1 / 2) (by norm_num))).nodes
        [2, 0, 1] 0 ⟨⟨128 * MB, 250000000⟩⟩))
      (idleAnt 1 3 (1024 * MB) (4 * CORE) (constRand (1 / 2) (by norm_num))).rng).1 ∧
    (taskStep runEnv (testConfig 1) [2, 0, 1] 1
        (idleAnt 1 3 (1024 * MB) (4 * CORE) (constRand (1 / 2) (by norm_num))) 0
        ⟨⟨128 * MB, 250000000⟩⟩).TAU.Get 0
        (decide_j (testConfig 1)
          (probs (scan runEnv (testConfig 1)
            (idleAnt 1 3 (1024 * MB) (4 * CORE) (constRand (1 / 2) (by norm_num))).TAU
            (idleAnt 1 3 (1024 * MB) (4 * CORE) (constRand (1 / 2) (by norm_num))).nodes
            [2, 0, 1] 0 ⟨⟨128 * MB, 250000000⟩⟩))
          (idleAnt 1 3 (1024 * MB) (4 * CORE) (constRand (1 / 2) (by norm_num))).rng).1.toNat
      = P ((idleAnt 1 3 (1024 * MB) (4 * CORE) (constRand (1 / 2) (by norm_num))).nodes.getD
          (decide_j (testConfig 1)
            (probs (scan runEnv (testConfig 1)
              (idleAnt 1 3 (1024 * MB) (4 * CORE) (constRand (1 / 2) (by norm_num))).TAU
              (idleAnt 1 3 (1024 * MB) (4 * CORE) (constRand (1 / 2) (by norm_num))).nodes
              [2, 0, 1] 0 ⟨⟨128 * MB, 250000000⟩⟩))
            (idleAnt 1 3 (1024 * MB) (4 * CORE) (constRand (1 / 2) (by norm_num))).rng).1.toNat
          default) :=
  ⟨by decide!,
    (taskStep_pheromone_before_debit runEnv (testConfig 1) [2, 0, 1] 1
      (idleAnt 1 3 (1024 * MB) (4 * CORE) (constRand (1 / 2) (by norm_num))) 0
      ⟨⟨128 * MB, 250000000⟩⟩ (by decide!) (by decide!)).1⟩

/-- C20 (counterexample). A task of 128 MB and a quarter of a core, three idle
nodes of 1024 MB and four cores that all fit it, scanned in the order 2, 0, 1:
the ant chooses node 0, and after the step node 0 alone is debited (once);
nodes 2 and 1, fitting candidates of the scan, have the available resources
they had before it. -/
theorem taskStep_candidates_not_debited :
    (idleAnt 1 3 (1024 * MB) (4 * CORE) (constRand (1 / 2) (by norm_num))).nodes.map
        (fun n => (taskFitsNode ⟨⟨128 * MB, 250000000⟩⟩ n, n.AvailableResources))
      = [(true, ⟨1024 * MB, 4 * CORE⟩), (true, ⟨1024 * MB, 4 * CORE⟩),
          (true, ⟨1024 * MB, 4 * CORE⟩)] ∧
    ((taskStep runEnv (testConfig 1) [2, 0, 1] 1
        (idleAnt 1 3 (1024 * MB) (4 * CORE) (constRand (1 / 2) (by norm_num))) 0
        ⟨⟨128 * MB, 250000000⟩⟩).plan.take 1,
      (taskStep runEnv (testConfig 1) [2, 0, 1] 1
        (idleAnt 1 3 (1024 * MB) (4 * CORE) (constRand (1 / 2) (by norm_num))) 0
        ⟨⟨128 * MB, 250000000⟩⟩).nodes.map (fun n => n.AvailableResources))
      = ([0], [⟨896 * MB, 3750000000⟩, ⟨1024 * MB, 4 * CORE⟩, ⟨1024 * MB, 4 * CORE⟩]) := by
  decide!

/-- C20 (amended). The scan debits a copy of each candidate and leaves the node
vector as it is: for a node order within the node vector, the weight of every
scanned node `k` is `0` when the task does not fit `k` and otherwise
`tau[task_idx, k]^Alpha * P(node k less the task)^Beta`, computed from node `k`
as it is before the scan, whatever the position of `k` in the order; after the
task step the node vector has the same length, every node other than the chosen
one is as before the step, and the chosen node is debited once. -/
theorem taskStep_scan_on_copy (env : Env) (config : Config) (nodeOrders : List Nat) (T : Nat)
    (st : AntState) (task_idx : Nat) (task : Task)
    (hl : ∀ k ∈ nodeOrders, k < st.nodes.length) :
    (∀ k ∈ nodeOrders,
      (scan env config st.TAU st.nodes nodeOrders task_idx task).1.getD k F64.zero
        = if taskFitsNode task (st.nodes.getD k default) = true then
            F64.mul (env.pow (st.TAU.Get task_idx k) config.Alpha)
              (env.pow (P (debit (st.nodes.getD k default) task)) config.Beta)
          else F64.zero) ∧
    (taskStep env config nodeOrders T st task_idx task).nodes.length = st.nodes.length ∧
    (∀ i : Nat, (i : Int) ≠ (decide_j config
        (probs (scan env config st.TAU st.nodes nodeOrders task_idx task)) st.rng).1 →
      (taskStep env config nodeOrders T st task_idx task).nodes.getD i default
        = st.nodes.getD i default) ∧
    ∀ i < st.nodes.length, (i : Int) = (decide_j config
        (probs (scan env config st.TAU st.nodes nodeOrders task_idx task)) st.rng).1 →
      (taskStep env config nodeOrders T st task_idx task).nodes.getD i default
        = debit (st.nodes.getD i default) task := by
  refine ⟨fun k hk => scan_getD env config st.TAU st.nodes nodeOrders task_idx task hl k hk,
    taskStep_nodes_length env config nodeOrders T st task_idx task, ?_, ?_⟩
  · intro i hi
    rw [taskStep_nodes]
    split
    · rfl
    · have h2 : (decide_j config
          (probs (scan env config st.TAU st.nodes nodeOrders task_idx task)) st.rng).1.toNat
            ≠ i := by omega
      simp [List.getD_eq_getElem?_getD, List.getElem?_set, h2]
  · intro i hi hij
    rw [taskStep_nodes, if_neg (by omega)]
    have h2 : (decide_j config
        (probs (scan env config st.TAU st.nodes nodeOrders task_idx task)) st.rng).1.toNat
          = i := by omega
    rw [h2]
    simp [List.getD_eq_getElem?_getD, List.getElem?_set, hi]

/-- C20 (witness). The task step of the counterexample, node order 2, 0, 1. -/
theorem taskStep_scan_on_copy_witness :
    (∀ k ∈ [2, 0, 1],
      k < (idleAnt 1 3 (1024 * MB) (4 * CORE) (constRand (1 / 2) (by norm_num))).nodes.length) ∧
    (taskStep runEnv (testConfig 1) [2, 0, 1] 1
      (idleAnt 1 3 (1024 * MB) (4 * CORE) (constRand (1 / 2) (by norm_num))) 0
      ⟨⟨128 * MB, 250000000⟩⟩).nodes.length
      = (idleAnt 1 3 (1024 * MB) (4 * CORE) (constRand (1 / 2) (by norm_num))).nodes.length :=
  ⟨by decide,
    (taskStep_scan_on_copy runEnv (testConfig 1) [2, 0, 1] 1
      (idleAnt 1 3 (1024 * MB) (4 * CORE) (constRand (1 / 2) (by norm_num))) 0
      ⟨⟨128 * MB, 250000000⟩⟩ (by decide)).2.1⟩

/-! ## The forward evaporation -/

theorem vaporize_eq_evaporate_Set (config : Config) (TAU : DenseMatrix) (nodes : List NodeInfo)
    (task_idx j : Nat) :
    vaporize config TAU nodes task_idx j
      = (evaporate config TAU task_idx).Set (task_idx + 1) j
          (F64.mul (F64.sub F64.one config.Rho) (P (nodes.getD j default))) := rfl

theorem evaporate_range_Get (config : Config) (t : Nat) (TAU : DenseMatrix) (n : Nat) :
    ∀ a b,
      ((List.range n).foldl
        (fun m c => m.Set (t + 1) c (F64.mul (F64.sub F64.one config.Rho) (m.Get t c)))
        TAU).Get a b
        = if a = t + 1 ∧ b < n then F64.mul (F64.sub F64.one config.Rho) (TAU.Get t b)
          else TAU.Get a b := by
  induction n with
  | zero => intro a b; simp
  | succ n ih =>
    intro a b
    rw [List.range_succ, List.foldl_append, List.foldl_cons, List.foldl_nil, Get_Set,
      vaporize_foldl_Get, ih a b]
    by_cases ha : a = t + 1
    · by_cases hb : b = n
      · subst hb
        rw [if_pos ⟨ha, rfl⟩, if_pos ⟨ha, Nat.lt_succ_self _⟩]
      · rw [if_neg (fun h => hb h.2)]
        by_cases hlt : b < n
        · rw [if_pos ⟨ha, hlt⟩, if_pos ⟨ha, by omega⟩]
        · rw [if_neg (fun h => hlt h.2), if_neg (fun h => by have := h.2; omega)]
    · rw [if_neg (fun h => ha h.1), if_neg (fun h => ha h.1), if_neg (fun h => ha h.1)]

/-- The cells after the evaporation loop: row `task_idx + 1` is `(1 - Rho)` times
row `task_idx` in every column of the matrix, and nothing else changes. -/
theorem evaporate_Get (config : Config) (TAU : DenseMatrix) (task_idx a b : Nat) :
    (evaporate config TAU task_idx).Get a b
      = if a = task_idx + 1 ∧ b < TAU.cols then
          F64.mul (F64.sub F64.one config.Rho) (TAU.Get task_idx b)
        else TAU.Get a b :=
  evaporate_range_Get config task_idx TAU TAU.cols a b

/-- The matrix a task step leaves when the ant chooses a node and the task is
not the last one. -/
theorem taskStep_TAU_vaporize (env : Env) (config : Config) (nodeOrders : List Nat) (T : Nat)
    (st : AntState) (task_idx : Nat) (task : Task)
    (hj : 0 ≤ (decide_j config
      (probs (scan env config st.TAU st.nodes nodeOrders task_idx task)) st.rng).1)
    (hT : task_idx + 1 < T) :
    (taskStep env config nodeOrders T st task_idx task).TAU
      = vaporize config
          (st.TAU.Set task_idx
            (decide_j config (probs (scan env config st.TAU st.nodes nodeOrders task_idx task))
              st.rng).1.toNat
            (P (st.nodes.getD
              (decide_j config (probs (scan env config st.TAU st.nodes nodeOrders task_idx task))
                st.rng).1.toNat default)))
          st.nodes task_idx
          (decide_j config (probs (scan env config st.TAU st.nodes nodeOrders task_idx task))
            st.rng).1.toNat := by
  unfold taskStep
  simp only
  rw [if_neg (by omega), if_pos hT]

/-- C21. When the ant's decision for the task at index `task_idx` is a node
index `j ≥ 0` and the task is not the last one (`task_idx + 1 < T`), the task
step leaves row `task_idx + 1` equal to `(1 - Rho)` times row `task_idx` in
every column of the matrix, column `j` included; for `j` a column of the
matrix, the write to `(task_idx + 1, j)` that follows the loop changes no cell
(the matrix is the one the loop alone leaves), and making that write before
the loop gives the same matrix. -/
theorem taskStep_evaporation_row (env : Env) (config : Config) (nodeOrders : List Nat) (T : Nat)
    (st : AntState) (task_idx : Nat) (task : Task)
    (hj : 0 ≤ (decide_j config
      (probs (scan env config st.TAU st.nodes nodeOrders task_idx task)) st.rng).1)
    (hT : task_idx + 1 < T) :
    (∀ c, c < st.TAU.cols ∨ c = (decide_j config
        (probs (scan env config st.TAU st.nodes nodeOrders task_idx task)) st.rng).1.toNat →
      (taskStep env config nodeOrders T st task_idx task).TAU.Get (task_idx + 1) c
        = F64.mul (F64.sub F64.one config.Rho)
            ((taskStep env config nodeOrders T st task_idx task).TAU.Get task_idx c)) ∧
    ((decide_j config
        (probs (scan env config st.TAU st.nodes nodeOrders task_idx task)) st.rng).1.toNat
        < st.TAU.cols →
      ∀ a b,
        (taskStep env config nodeOrders T st task_idx task).TAU.Get a b
          = (evaporate config
              (st.TAU.Set task_idx
                (decide_j config
                  (probs (scan env config st.TAU st.nodes nodeOrders task_idx task))
                  st.rng).1.toNat
                (P (st.nodes.getD
                  (decide_j config
                    (probs (scan env config st.TAU st.nodes nodeOrders task_idx task))
                    st.rng).1.toNat default)))
              task_idx).Get a b ∧
        (taskStep env config nodeOrders T st task_idx task).TAU.Get a b
          = (evaporate config
              ((st.TAU.Set task_idx
                (decide_j config
                  (probs (scan env config st.TAU st.nodes nodeOrders task_idx task))
                  st.rng).1.toNat
                (P (st.nodes.getD
                  (decide_j config
                    (probs (scan env config st.TAU st.nodes nodeOrders task_idx task))
                    st.rng).1.toNat default))).Set (task_idx + 1)
                (decide_j config
                  (probs (scan env config st.TAU st.nodes nodeOrders task_idx task))
                  st.rng).1.toNat
                (F64.mul (F64.sub F64.one config.Rho)
                  (P (st.nodes.getD
                    (decide_j config
                      (probs (scan env config st.TAU st.nodes nodeOrders task_idx task))
                      st.rng).1.toNat default))))
              task_idx).Get a b) := by
  rw [taskStep_TAU_vaporize env config nodeOrders T st task_idx task hj hT]
  generalize (decide_j config
    (probs (scan env config st.TAU st.nodes nodeOrders task_idx task)) st.rng).1.toNat = j
  refine ⟨fun c hc => ?_, fun hjc a b => ⟨?_, ?_⟩⟩
  · rw [vaporize_Get_row]
    simp only [vaporize_eq_evaporate_Set, Get_Set, evaporate_Get, cols_Set]
    by_cases hcj : c = j
    · simp [hcj]
    · have hc' : c < st.TAU.cols := by
        rcases hc with h | h
        · exact h
        · exact absurd h hcj
      simp [hcj, hc']
  · simp only [vaporize_eq_evaporate_Set, Get_Set, evaporate_Get, cols_Set]
    by_cases hab : a = task_idx + 1 ∧ b = j
    · obtain ⟨ha, hb⟩ := hab
      simp [ha, hb, hjc]
    · rw [if_neg hab]
  · simp only [vaporize_eq_evaporate_Set, Get_Set, evaporate_Get, cols_Set]
    by_cases ha : a = task_idx + 1
    · by_cases hb : b = j
      · simp [ha, hb, hjc]
      · simp [ha, hb]
    · simp [ha]

/-- C21 (witness). The first of two task steps of an ant on three idle nodes of
1024 MB and four cores, with a task of 128 MB and a quarter of a core: the ant
chooses node 0, and row 1 is `(1 - Rho)` times row 0 in the column 0. -/
theorem taskStep_evaporation_row_witness :
    0 ≤ (decide_j (testConfig 1)
      (probs (scan runEnv (testConfig 1)
        (idleAnt 2 3 (1024 * MB) (4 * CORE) (constRand (1 / 2) (by norm_num))).TAU
        (idleAnt 2 3 (1024 * MB) (4 * CORE) (constRand (1 / 2) (by norm_num))).nodes
        [2, 0, 1] 0 ⟨⟨128 * MB, 250000000⟩⟩))
      (idleAnt 2 3 (1024 * MB) (4 * CORE) (constRand (1 / 2) (by norm_num))).rng).1 ∧
    0 + 1 < 2 ∧
    (taskStep runEnv (testConfig 1) [2, 0, 1] 2
        (idleAnt 2 3 (1024 * MB) (4 * CORE) (constRand (1 / 2) (by norm_num))) 0
        ⟨⟨128 * MB, 250000000⟩⟩).TAU.Get (0 + 1) 0
      = F64.mul (F64.sub F64.one (testConfig 1).Rho)
          ((taskStep runEnv (testConfig 1) [2, 0, 1] 2
            (idleAnt 2 3 (1024 * MB) (4 * CORE) (constRand (1 / 2) (by norm_num))) 0
            ⟨⟨128 * MB, 250000000⟩⟩).TAU.Get 0 0) :=
  ⟨by decide!, by decide,
    (taskStep_evaporation_row runEnv (testConfig 1) [2, 0, 1] 2
      (idleAnt 2 3 (1024 * MB) (4 * CORE) (constRand (1 / 2) (by norm_num))) 0
      ⟨⟨128 * MB, 250000000⟩⟩ (by decide!) (by decide)).1 0 (Or.inl (by decide))⟩

/-! ## The value of `P` -/

theorem abs_le_of_isInt64 {x : Int} (h : isInt64 x) : |x| ≤ 2 ^ 63 := by
  unfold isInt64 at h
  rw [abs_le]
  omega

theorem rnd_intCast_abs_le {x : Int} (h : isInt64 x) : |F64.rnd (x : ℚ)| ≤ F64.pow2 63 := by
  apply rnd_abs_le (by norm_num)
  rw [pow2_63, ← Int.cast_abs]
  exact_mod_cast abs_le_of_isInt64 h

theorem one_le_rnd_intCast {t : Int} (ht : 0 < t) : 1 ≤ F64.rnd (t : ℚ) := by
  have := rnd_mono (show (1 : ℚ) ≤ (t : ℚ) by exact_mod_cast ht)
  rwa [rnd_one] at this

theorem pow2_63_le : F64.pow2 63 ≤ F64.pow2 1023 := pow2_le_pow2.2 (by norm_num)

/-- The ratio of two converted `int64`, the divisor positive: a finite number. -/
theorem div_ofInt_eq (a t : Int) (ha : isInt64 a) (ht : isInt64 t) (htp : 0 < t) :
    F64.div (F64.ofInt a) (F64.ofInt t) = F64.fin (roundedRatio a t) ∧
      |roundedRatio a t| ≤ F64.pow2 63 := by
  have t1 := one_le_rnd_intCast htp
  have tpos : 0 < F64.rnd (t : ℚ) := lt_of_lt_of_le one_pos t1
  have ab := rnd_intCast_abs_le ha
  have hq : |F64.rnd (a : ℚ) / F64.rnd (t : ℚ)| ≤ F64.pow2 63 := by
    rw [abs_div, abs_of_pos tpos]
    exact le_trans (div_le_self (abs_nonneg _) t1) ab
  refine ⟨?_, rnd_abs_le (by norm_num) hq⟩
  rw [ofInt_of_abs_le a (abs_le_of_isInt64 ha), ofInt_of_abs_le t (abs_le_of_isInt64 ht)]
  simp only [F64.div, if_neg tpos.ne']
  exact round_eq_fin (le_trans hq pow2_63_le)

theorem roundedRatio_idem (a t : Int) : F64.rnd (roundedRatio a t) = roundedRatio a t :=
  rnd_idem _

/-- The value of `P` on a node with positive totals whose fields are `int64`:
the formula evaluated in `float64`. -/
theorem P_eq_rounded (n : NodeInfo) (hc : 0 < n.Description.NanoCPUs)
    (hm : 0 < n.Description.MemoryBytes)
    (i1 : isInt64 n.Description.NanoCPUs) (i2 : isInt64 n.Description.MemoryBytes)
    (i3 : isInt64 n.AvailableResources.NanoCPUs) (i4 : isInt64 n.AvailableResources.MemoryBytes) :
    P n = F64.fin (roundedP n) := by
  obtain ⟨c1, c2⟩ := div_ofInt_eq _ _ i3 i1 hc
  obtain ⟨m1, m2⟩ := div_ofInt_eq _ _ i4 i2 hm
  have half : ∀ x : ℚ, |x| ≤ F64.pow2 63 → |1 / 2 * x| ≤ F64.pow2 63 := by
    intro x hx
    rw [abs_mul, abs_of_pos (by norm_num : (0 : ℚ) < 1 / 2)]
    have := abs_nonneg x
    linarith
  have hc2 := half _ c2
  have hm2 := half _ m2
  have hc3 := rnd_abs_le (by norm_num) hc2
  have hm3 := rnd_abs_le (by norm_num) hm2
  have hsum : |F64.rnd (1 / 2 * roundedRatio n.AvailableResources.NanoCPUs n.Description.NanoCPUs)
      + F64.rnd (1 / 2 * roundedRatio n.AvailableResources.MemoryBytes
          n.Description.MemoryBytes)| ≤ F64.pow2 1023 := by
    have e : F64.pow2 63 + F64.pow2 63 ≤ F64.pow2 1023 := by
      have : F64.pow2 63 + F64.pow2 63 = F64.pow2 64 := by
        rw [show (64 : Int) = 63 + 1 by norm_num, pow2_add]
        have : F64.pow2 1 = 2 := by rw [pow2_eq]; norm_num
        rw [this]; ring
      rw [this]; exact pow2_le_pow2.2 (by norm_num)
    exact le_trans (abs_add _ _) (le_trans (add_le_add hc3 hm3) e)
  have stepAdd : ∀ x : ℚ, |x| ≤ F64.pow2 63 → F64.rnd x = x →
      F64.add (F64.fin x) F64.zero = F64.fin x := by
    intro x hx hid
    simp only [F64.add, F64.zero, add_zero]
    rw [round_eq_fin (le_trans hx pow2_63_le), hid]
  have stepMul : ∀ x : ℚ, |x| ≤ F64.pow2 63 →
      F64.mul (F64.fin (1 / 2)) (F64.fin x) = F64.fin (F64.rnd (1 / 2 * x)) := by
    intro x hx
    simp only [F64.mul]
    exact round_eq_fin (le_trans (half x hx) pow2_63_le)
  unfold P
  simp only [W_c, W_m]
  rw [c1, m1, stepAdd _ c2 (roundedRatio_idem _ _), stepAdd _ m2 (roundedRatio_idem _ _),
    stepMul _ c2, stepMul _ m2]
  simp only [F64.add]
  rw [round_eq_fin hsum]
  rfl

theorem roundedRatio_mono {a b t : Int} (ht : 0 < t) (h : a ≤ b) :
    roundedRatio a t ≤ roundedRatio b t := by
  have tpos : 0 < F64.rnd (t : ℚ) := lt_of_lt_of_le one_pos (one_le_rnd_intCast ht)
  have hab : F64.rnd (a : ℚ) ≤ F64.rnd (b : ℚ) := rnd_mono (by exact_mod_cast h)
  exact rnd_mono (div_le_div_of_nonneg_right hab tpos.le)

theorem roundedRatio_zero (t : Int) : roundedRatio 0 t = 0 := by
  simp [roundedRatio, rnd_zero]

theorem roundedRatio_self {t : Int} (ht : 0 < t) : roundedRatio t t = 1 := by
  have tpos : 0 < F64.rnd (t : ℚ) := lt_of_lt_of_le one_pos (one_le_rnd_intCast ht)
  simp [roundedRatio, div_self tpos.ne', rnd_one]

/-- The rounded formula is monotone in the available resources. -/
theorem roundedP_mono (n n' : NodeInfo) (hd : n'.Description = n.Description)
    (hc : 0 < n.Description.NanoCPUs) (hm : 0 < n.Description.MemoryBytes)
    (h1 : n.AvailableResources.NanoCPUs ≤ n'.AvailableResources.NanoCPUs)
    (h2 : n.AvailableResources.MemoryBytes ≤ n'.AvailableResources.MemoryBytes) :
    roundedP n ≤ roundedP n' := by
  unfold roundedP
  rw [hd]
  have a := roundedRatio_mono hc h1
  have b := roundedRatio_mono hm h2
  exact rnd_mono (add_le_add (rnd_mono (by linarith)) (rnd_mono (by linarith)))

theorem pow2_neg53_le : F64.pow2 (-53) ≤ 1 / 8 := by
  have h : F64.pow2 (-3) = 1 / 8 := by rw [pow2_eq]; norm_num
  rw [← h]; exact pow2_le_pow2.2 (by norm_num)

theorem one_le_pow2_1022_inv : F64.pow2 (-1022) ≤ 1 := by
  rw [← pow2_zero]; exact pow2_le_pow2.2 (by norm_num)

/-- The rounded ratio of two `int64` with `0 ≤ a ≤ t`, `t > 0`: a number of
`[0, 1]` that is `0` or at least `2^-63`, within `4 * 2^-53` of `a / t`. -/
theorem roundedRatio_spec (a t : Int) (ha0 : 0 ≤ a) (hat : a ≤ t) (ht : 0 < t)
    (ht64 : isInt64 t) :
    0 ≤ roundedRatio a t ∧ roundedRatio a t ≤ 1 ∧
      (roundedRatio a t = 0 ∨ F64.pow2 (-63) ≤ roundedRatio a t) ∧
      |roundedRatio a t - (a : ℚ) / (t : ℚ)| ≤ 4 * F64.pow2 (-53) := by
  have hu := pow2_pos (-53)
  have hu8 := pow2_neg53_le
  have r0 : 0 ≤ roundedRatio a t := by
    have := roundedRatio_mono ht ha0
    rwa [roundedRatio_zero] at this
  have r1 : roundedRatio a t ≤ 1 := by
    have := roundedRatio_mono ht hat
    rwa [roundedRatio_self ht] at this
  have hT : (1 : ℚ) ≤ (t : ℚ) := by exact_mod_cast ht
  have hA0 : (0 : ℚ) ≤ (a : ℚ) := by exact_mod_cast ha0
  have hAT : (a : ℚ) ≤ (t : ℚ) := by exact_mod_cast hat
  have t1 := one_le_rnd_intCast ht
  have tpos : 0 < F64.rnd (t : ℚ) := lt_of_lt_of_le one_pos t1
  have t63 : F64.rnd (t : ℚ) ≤ F64.pow2 63 := (abs_le.1 (rnd_intCast_abs_le ht64)).2
  have eT := rnd_sub_le_mul (t : ℚ)
    (Or.inr (by rw [abs_of_pos (by linarith)]; exact le_trans one_le_pow2_1022_inv hT))
  rw [abs_of_pos (by linarith : (0 : ℚ) < (t : ℚ)), abs_le] at eT
  rcases ha0.eq_or_lt with h0 | hpos
  · -- a = 0
    subst h0
    rw [roundedRatio_zero]
    refine ⟨le_refl _, zero_le_one, Or.inl rfl, ?_⟩
    simp only [Int.cast_zero, zero_div, sub_zero, abs_zero]
    linarith
  · have hA1 : (1 : ℚ) ≤ (a : ℚ) := by exact_mod_cast hpos
    have a1 := one_le_rnd_intCast hpos
    have eA := rnd_sub_le_mul (a : ℚ)
      (Or.inr (by rw [abs_of_pos (by linarith)]; exact le_trans one_le_pow2_1022_inv hA1))
    rw [abs_of_pos (by linarith : (0 : ℚ) < (a : ℚ)), abs_le] at eA
    have hle : F64.rnd (a : ℚ) ≤ F64.rnd (t : ℚ) := rnd_mono hAT
    -- the quotient of the rounded numbers
    have q0 : 0 ≤ F64.rnd (a : ℚ) / F64.rnd (t : ℚ) := div_nonneg (by linarith) tpos.le
    have q1 : F64.rnd (a : ℚ) / F64.rnd (t : ℚ) ≤ 1 := (div_le_one tpos).2 hle
    have qlow : F64.pow2 (-63) ≤ F64.rnd (a : ℚ) / F64.rnd (t : ℚ) := by
      rw [le_div_iff₀ tpos]
      have e : F64.pow2 (-63) * F64.pow2 63 = 1 := by
        rw [← pow2_add]; exact pow2_zero
      have := mul_le_mul_of_nonneg_left t63 (pow2_pos (-63)).le
      rw [e] at this
      linarith
    have rlow : F64.pow2 (-63) ≤ roundedRatio a t := by
      have := rnd_mono qlow
      rwa [rnd_pow2 (-63) (by norm_num)] at this
    -- quotient against a / t
    have xT : (a : ℚ) / (t : ℚ) * (t : ℚ) = (a : ℚ) := by
      field_simp
    have x0 : 0 ≤ (a : ℚ) / (t : ℚ) := div_nonneg hA0 (by linarith)
    have x1 : (a : ℚ) / (t : ℚ) ≤ 1 := (div_le_one (by linarith)).2 hAT
    have hqlo : (a : ℚ) / (t : ℚ) - 3 * F64.pow2 (-53) ≤ F64.rnd (a : ℚ) / F64.rnd (t : ℚ) := by
      rw [le_div_iff₀ tpos]
      by_cases hs : (a : ℚ) / (t : ℚ) - 3 * F64.pow2 (-53) ≤ 0
      · have : ((a : ℚ) / (t : ℚ) - 3 * F64.pow2 (-53)) * F64.rnd (t : ℚ) ≤ 0 :=
          mul_nonpos_of_nonpos_of_nonneg hs tpos.le
        linarith
      · have hs' : 0 ≤ (a : ℚ) / (t : ℚ) - 3 * F64.pow2 (-53) := by linarith
        have h1 : ((a : ℚ) / (t : ℚ) - 3 * F64.pow2 (-53)) * F64.rnd (t : ℚ)
            ≤ ((a : ℚ) / (t : ℚ) - 3 * F64.pow2 (-53)) * ((t : ℚ) + (t : ℚ) * F64.pow2 (-53)) :=
          mul_le_mul_of_nonneg_left (by linarith) hs'
        have h2 : ((a : ℚ) / (t : ℚ) - 3 * F64.pow2 (-53)) * ((t : ℚ) + (t : ℚ) * F64.pow2 (-53))
            = (a : ℚ) + (a : ℚ) * F64.pow2 (-53) - 3 * F64.pow2 (-53) * (t : ℚ)
              - 3 * F64.pow2 (-53) * F64.pow2 (-53) * (t : ℚ) := by
          have : ((a : ℚ) / (t : ℚ) - 3 * F64.pow2 (-53)) * ((t : ℚ) + (t : ℚ) * F64.pow2 (-53))
              = (a : ℚ) / (t : ℚ) * (t : ℚ) + (a : ℚ) / (t : ℚ) * (t : ℚ) * F64.pow2 (-53)
                - 3 * F64.pow2 (-53) * (t : ℚ)
                - 3 * F64.pow2 (-53) * F64.pow2 (-53) * (t : ℚ) := by ring
          rw [this, xT]
        have h3 : 0 ≤ F64.pow2 (-53) * F64.pow2 (-53) * (t : ℚ) := by positivity
        have h4 : (a : ℚ) * F64.pow2 (-53) ≤ (t : ℚ) * F64.pow2 (-53) :=
          mul_le_mul_of_nonneg_right hAT hu.le
        linarith
    have hqhi : F64.rnd (a : ℚ) / F64.rnd (t : ℚ) ≤ (a : ℚ) / (t : ℚ) + 3 * F64.pow2 (-53) := by
      rw [div_le_iff₀ tpos]
      have hs' : 0 ≤ (a : ℚ) / (t : ℚ) + 3 * F64.pow2 (-53) := by linarith
      have h1 : ((a : ℚ) / (t : ℚ) + 3 * F64.pow2 (-53)) * ((t : ℚ) - (t : ℚ) * F64.pow2 (-53))
          ≤ ((a : ℚ) / (t : ℚ) + 3 * F64.pow2 (-53)) * F64.rnd (t : ℚ) :=
        mul_le_mul_of_nonneg_left (by linarith) hs'
      have h2 : ((a : ℚ) / (t : ℚ) + 3 * F64.pow2 (-53)) * ((t : ℚ) - (t : ℚ) * F64.pow2 (-53))
          = (a : ℚ) - (a : ℚ) * F64.pow2 (-53) + 3 * F64.pow2 (-53) * (t : ℚ)
            - 3 * F64.pow2 (-53) * F64.pow2 (-53) * (t : ℚ) := by
        have : ((a : ℚ) / (t : ℚ) + 3 * F64.pow2 (-53)) * ((t : ℚ) - (t : ℚ) * F64.pow2 (-53))
            = (a : ℚ) / (t : ℚ) * (t : ℚ) - (a : ℚ) / (t : ℚ) * (t : ℚ) * F64.pow2 (-53)
              + 3 * F64.pow2 (-53) * (t : ℚ)
              - 3 * F64.pow2 (-53) * F64.pow2 (-53) * (t : ℚ) := by ring
        rw [this, xT]
      have h4 : (a : ℚ) * F64.pow2 (-53) ≤ (t : ℚ) * F64.pow2 (-53) :=
        mul_le_mul_of_nonneg_right hAT hu.le
      have h5 : F64.pow2 (-53) * F64.pow2 (-53) * (t : ℚ) ≤ 1 / 8 * F64.pow2 (-53) * (t : ℚ) := by
        have : F64.pow2 (-53) * F64.pow2 (-53) ≤ 1 / 8 * F64.pow2 (-53) :=
          mul_le_mul_of_nonneg_right hu8 hu.le
        exact mul_le_mul_of_nonneg_right this (by linarith)
      have h6 : 0 ≤ F64.pow2 (-53) * (t : ℚ) := by positivity
      linarith
    have hq : |F64.rnd (a : ℚ) / F64.rnd (t : ℚ) - (a : ℚ) / (t : ℚ)| ≤ 3 * F64.pow2 (-53) := by
      rw [abs_le]
      constructor <;> linarith
    have hr := rnd_sub_le_mul (F64.rnd (a : ℚ) / F64.rnd (t : ℚ))
      (Or.inr (by
        rw [abs_of_nonneg q0]
        exact le_trans (pow2_le_pow2.2 (by norm_num)) qlow))
    rw [abs_of_nonneg q0] at hr
    have hr' : |roundedRatio a t - F64.rnd (a : ℚ) / F64.rnd (t : ℚ)| ≤ F64.pow2 (-53) := by
      refine le_trans hr ?_
      have := mul_le_mul_of_nonneg_right q1 hu.le
      linarith
    refine ⟨r0, r1, Or.inr rlow, ?_⟩
    have e : roundedRatio a t - (a : ℚ) / (t : ℚ)
        = (roundedRatio a t - F64.rnd (a : ℚ) / F64.rnd (t : ℚ))
          + (F64.rnd (a : ℚ) / F64.rnd (t : ℚ) - (a : ℚ) / (t : ℚ)) := by ring
    rw [e]
    refine le_trans (abs_add _ _) ?_
    linarith

/-- The product by `0.5` of a number `R` of `[0, 1]` that is `0` or at least
`2^-63`: a number of `[0, 0.5]` that is `0` or at least `2^-64`, within
`2^-54` of `R / 2`. -/
theorem rnd_half_mul_spec (R : ℚ) (h0 : 0 ≤ R) (h1 : R ≤ 1)
    (hl : R = 0 ∨ F64.pow2 (-63) ≤ R) :
    0 ≤ F64.rnd (1 / 2 * R) ∧ F64.rnd (1 / 2 * R) ≤ 1 / 2 ∧
      (F64.rnd (1 / 2 * R) = 0 ∨ F64.pow2 (-64) ≤ F64.rnd (1 / 2 * R)) ∧
      |F64.rnd (1 / 2 * R) - 1 / 2 * R| ≤ 1 / 2 * F64.pow2 (-53) := by
  have hu := pow2_pos (-53)
  have a0 : 0 ≤ F64.rnd (1 / 2 * R) := rnd_nonneg (by linarith)
  have a1 : F64.rnd (1 / 2 * R) ≤ 1 / 2 := by
    have := rnd_mono (show 1 / 2 * R ≤ 1 / 2 by linarith)
    rwa [rnd_half] at this
  have e64 : F64.pow2 (-64) = 1 / 2 * F64.pow2 (-63) := by
    rw [show (-64 : Int) = -1 + -63 by norm_num, pow2_add, pow2_neg_one]
  rcases hl with hz | hl
  · subst hz
    have e : F64.rnd (1 / 2 * (0 : ℚ)) = 0 := by rw [mul_zero, rnd_zero]
    rw [e]
    refine ⟨le_refl _, by norm_num, Or.inl rfl, ?_⟩
    simp only [mul_zero, sub_zero, abs_zero]
    linarith
  · have hlow : F64.pow2 (-64) ≤ 1 / 2 * R := by rw [e64]; linarith
    have hl2 : F64.pow2 (-64) ≤ F64.rnd (1 / 2 * R) := by
      have := rnd_mono hlow
      rwa [rnd_pow2 (-64) (by norm_num)] at this
    have hr := rnd_sub_le_mul (1 / 2 * R)
      (Or.inr (by
        rw [abs_of_nonneg (by linarith)]
        exact le_trans (pow2_le_pow2.2 (by norm_num)) hlow))
    rw [abs_of_nonneg (by linarith : 0 ≤ 1 / 2 * R)] at hr
    refine ⟨a0, a1, Or.inr hl2, le_trans hr ?_⟩
    have := mul_le_mul_of_nonneg_right (show 1 / 2 * R ≤ 1 / 2 by linarith) hu.le
    linarith

/-- The rounded formula on a node with `0 ≤ available ≤ total` in both
dimensions: a number of `[0, 1]` within `2^-50` of the real value of the
formula. -/
theorem roundedP_spec (n : NodeInfo) (hc : 0 < n.Description.NanoCPUs)
    (hm : 0 < n.Description.MemoryBytes)
    (i1 : isInt64 n.Description.NanoCPUs) (i2 : isInt64 n.Description.MemoryBytes)
    (c0 : 0 ≤ n.AvailableResources.NanoCPUs)
    (c1 : n.AvailableResources.NanoCPUs ≤ n.Description.NanoCPUs)
    (m0 : 0 ≤ n.AvailableResources.MemoryBytes)
    (m1 : n.AvailableResources.MemoryBytes ≤ n.Description.MemoryBytes) :
    0 ≤ roundedP n ∧ roundedP n ≤ 1 ∧ |roundedP n - exactP n| ≤ F64.pow2 (-50) := by
  have hu := pow2_pos (-53)
  obtain ⟨rc0, rc1, rcl, rce⟩ := roundedRatio_spec _ _ c0 c1 hc i1
  obtain ⟨rm0, rm1, rml, rme⟩ := roundedRatio_spec _ _ m0 m1 hm i2
  obtain ⟨hc0, hc1, hcl, hce⟩ := rnd_half_mul_spec _ rc0 rc1 rcl
  obtain ⟨hm0, hm1, hml, hme⟩ := rnd_half_mul_spec _ rm0 rm1 rml
  have s0 : 0 ≤ F64.rnd (1 / 2 * roundedRatio n.AvailableResources.NanoCPUs
      n.Description.NanoCPUs) + F64.rnd (1 / 2 * roundedRatio n.AvailableResources.MemoryBytes
      n.Description.MemoryBytes) := by linarith
  have s1 : F64.rnd (1 / 2 * roundedRatio n.AvailableResources.NanoCPUs
      n.Description.NanoCPUs) + F64.rnd (1 / 2 * roundedRatio n.AvailableResources.MemoryBytes
      n.Description.MemoryBytes) ≤ 1 := by linarith
  have p0 : 0 ≤ roundedP n := rnd_nonneg s0
  have p1 : roundedP n ≤ 1 := by
    have := rnd_mono s1
    rwa [rnd_one] at this
  refine ⟨p0, p1, ?_⟩
  have hs := rnd_sub_le_mul (F64.rnd (1 / 2 * roundedRatio n.AvailableResources.NanoCPUs
      n.Description.NanoCPUs) + F64.rnd (1 / 2 * roundedRatio n.AvailableResources.MemoryBytes
      n.Description.MemoryBytes)) (by
    rw [abs_of_nonneg s0]
    have h64 : F64.pow2 (-1022) ≤ F64.pow2 (-64) := pow2_le_pow2.2 (by norm_num)
    rcases hcl with hz | hl
    · rcases hml with hz' | hl'
      · left; rw [hz, hz']; norm_num
      · right; linarith
    · right; linarith)
  rw [abs_of_nonneg s0] at hs
  have hs' : |roundedP n - (F64.rnd (1 / 2 * roundedRatio n.AvailableResources.NanoCPUs
      n.Description.NanoCPUs) + F64.rnd (1 / 2 * roundedRatio n.AvailableResources.MemoryBytes
      n.Description.MemoryBytes))| ≤ F64.pow2 (-53) := by
    refine le_trans hs ?_
    have := mul_le_mul_of_nonneg_right s1 hu.le
    linarith
  have e50 : F64.pow2 (-50) = 8 * F64.pow2 (-53) := by
    rw [show (-50 : Int) = 3 + -53 by norm_num, pow2_add]
    have : F64.pow2 3 = 8 := by rw [pow2_eq]; norm_num
    rw [this]
  rw [abs_le] at hs' hce hme rce rme ⊢
  unfold exactP
  rw [e50]
  constructor <;> linarith [hs'.1, hs'.2, hce.1, hce.2, hme.1, hme.2, rce.1, rce.2, rme.1, rme.2]

theorem roundedP_idle (n : NodeInfo) (hc : 0 < n.Description.NanoCPUs)
    (hm : 0 < n.Description.MemoryBytes) (h : n.AvailableResources = n.Description) :
    roundedP n = 1 := by
  unfold roundedP
  rw [h, roundedRatio_self hc, roundedRatio_self hm, mul_one, rnd_half]
  norm_num
  exact rnd_one

theorem roundedP_saturated (n : NodeInfo) (h1 : n.AvailableResources.NanoCPUs = 0)
    (h2 : n.AvailableResources.MemoryBytes = 0) : roundedP n = 0 := by
  unfold roundedP
  rw [h1, h2, roundedRatio_zero, roundedRatio_zero, mul_zero, rnd_zero, add_zero, rnd_zero]

/-- C10 (counterexample). Two nodes of 12 GB and 12 cores, one with 11 GB and
11 cores available, the other with 10 GB and 12 cores: the formula
`0.5 * (available CPU / total CPU) + 0.5 * (available memory / total memory)`
has the value `11/12` on both, and `P` returns two different numbers
(`0.9166666666666666` and `0.9166666666666667`), neither of them `11/12`. -/
theorem P_not_the_real_value :
    exactP ⟨⟨12 * GB, 12 * CORE⟩, ⟨11 * GB, 11 * CORE⟩⟩ = 11 / 12 ∧
    exactP ⟨⟨12 * GB, 12 * CORE⟩, ⟨10 * GB, 12 * CORE⟩⟩ = 11 / 12 ∧
    P ⟨⟨12 * GB, 12 * CORE⟩, ⟨11 * GB, 11 * CORE⟩⟩
      = F64.fin (8256599316845909 / 9007199254740992) ∧
    P ⟨⟨12 * GB, 12 * CORE⟩, ⟨10 * GB, 12 * CORE⟩⟩
      = F64.fin (4128299658422955 / 4503599627370496) ∧
    P ⟨⟨12 * GB, 12 * CORE⟩, ⟨11 * GB, 11 * CORE⟩⟩
      ≠ P ⟨⟨12 * GB, 12 * CORE⟩, ⟨10 * GB, 12 * CORE⟩⟩ := by
  decide!

/-- C10 (amended). For a node with positive total CPU and memory (`int64`
values), `P` is the formula
`0.5 * (available CPU / total CPU) + 0.5 * (available memory / total memory)`
evaluated in `float64`, the result of every conversion and operation rounded;
when `0 ≤ available ≤ total` in both dimensions its value lies in `[0, 1]` and
within `2^-50` of the real value of the formula; it is exactly `1` for an idle
node (available = total) and exactly `0` for a saturated one (nothing
available). -/
theorem P_formula_and_range (n : NodeInfo) (hc : 0 < n.Description.NanoCPUs)
    (hm : 0 < n.Description.MemoryBytes)
    (i1 : isInt64 n.Description.NanoCPUs) (i2 : isInt64 n.Description.MemoryBytes) :
    (isInt64 n.AvailableResources.NanoCPUs → isInt64 n.AvailableResources.MemoryBytes →
      P n = F64.fin (roundedP n)) ∧
    (0 ≤ n.AvailableResources.NanoCPUs → n.AvailableResources.NanoCPUs ≤ n.Description.NanoCPUs →
      0 ≤ n.AvailableResources.MemoryBytes →
      n.AvailableResources.MemoryBytes ≤ n.Description.MemoryBytes →
        ∃ q : ℚ, P n = F64.fin q ∧ 0 ≤ q ∧ q ≤ 1 ∧ |q - exactP n| ≤ F64.pow2 (-50)) ∧
    (n.AvailableResources = n.Description → P n = F64.fin 1) ∧
    (n.AvailableResources.NanoCPUs = 0 → n.AvailableResources.MemoryBytes = 0 →
      P n = F64.fin 0) := by
  have i64 : ∀ a t : Int, isInt64 t → 0 ≤ a → a ≤ t → isInt64 a := by
    intro a t ht h0 h1
    unfold isInt64 at ht ⊢
    omega
  refine ⟨fun i3 i4 => P_eq_rounded n hc hm i1 i2 i3 i4, ?_, ?_, ?_⟩
  · intro c0 c1 m0 m1
    obtain ⟨p0, p1, pe⟩ := roundedP_spec n hc hm i1 i2 c0 c1 m0 m1
    exact ⟨_, P_eq_rounded n hc hm i1 i2 (i64 _ _ i1 c0 c1) (i64 _ _ i2 m0 m1), p0, p1, pe⟩
  · intro h
    rw [P_eq_rounded n hc hm i1 i2 (by rw [h]; exact i1) (by rw [h]; exact i2),
      roundedP_idle n hc hm h]
  · intro h1 h2
    rw [P_eq_rounded n hc hm i1 i2 (by rw [h1]; decide) (by rw [h2]; decide),
      roundedP_saturated n h1 h2]

/-- C10 (witness). An idle node of 16 GB and four cores. -/
theorem P_formula_and_range_witness :
    (0 < 4 * CORE ∧ 0 < 16 * GB) ∧ P ⟨⟨16 * GB, 4 * CORE⟩, ⟨16 * GB, 4 * CORE⟩⟩ = F64.fin 1 :=
  ⟨by decide,
    (P_formula_and_range ⟨⟨16 * GB, 4 * CORE⟩, ⟨16 * GB, 4 * CORE⟩⟩ (by decide)
      (by decide) (by decide) (by decide)).2.2.1 rfl⟩

/-! ## `P` under a debit -/

/-- C11 (counterexample). A node of `2^60` bytes and four cores, idle, and a
reservation of one byte: `float64(2^60 - 1)` is `2^60`, so `P` of the debited
node is `1`, the value of `P` before the debit, not a smaller one. -/
theorem P_debit_not_strict :
    (debit ⟨⟨2 ^ 60, 4 * CORE⟩, ⟨2 ^ 60, 4 * CORE⟩⟩ ⟨⟨1, 0⟩⟩).AvailableResources
      = ⟨2 ^ 60 - 1, 4 * CORE⟩ ∧
    P (debit ⟨⟨2 ^ 60, 4 * CORE⟩, ⟨2 ^ 60, 4 * CORE⟩⟩ ⟨⟨1, 0⟩⟩) = F64.fin 1 ∧
    P ⟨⟨2 ^ 60, 4 * CORE⟩, ⟨2 ^ 60, 4 * CORE⟩⟩ = F64.fin 1 ∧
    F64.lt (P (debit ⟨⟨2 ^ 60, 4 * CORE⟩, ⟨2 ^ 60, 4 * CORE⟩⟩ ⟨⟨1, 0⟩⟩))
      (P ⟨⟨2 ^ 60, 4 * CORE⟩, ⟨2 ^ 60, 4 * CORE⟩⟩) = false := by
  decide!

theorem P_lessReservation_le (n : NodeInfo) (r : Resources)
    (hc : 0 < n.Description.NanoCPUs) (hm : 0 < n.Description.MemoryBytes)
    (i1 : isInt64 n.Description.NanoCPUs) (i2 : isInt64 n.Description.MemoryBytes)
    (i3 : isInt64 n.AvailableResources.NanoCPUs) (i4 : isInt64 n.AvailableResources.MemoryBytes)
    (i5 : isInt64 (n.AvailableResources.NanoCPUs - r.NanoCPUs))
    (i6 : isInt64 (n.AvailableResources.MemoryBytes - r.MemoryBytes))
    (hrm : 0 ≤ r.MemoryBytes) (hrc : 0 ≤ r.NanoCPUs) :
    F64.le (P (lessReservation n r)) (P n) = true ∧
      (0 ≤ n.AvailableResources.NanoCPUs - r.NanoCPUs →
        n.AvailableResources.NanoCPUs ≤ n.Description.NanoCPUs →
        0 ≤ n.AvailableResources.MemoryBytes - r.MemoryBytes →
        n.AvailableResources.MemoryBytes ≤ n.Description.MemoryBytes →
        F64.pow2 (-49) < 1 / 2 * ((r.NanoCPUs : ℚ) / (n.Description.NanoCPUs : ℚ))
          + 1 / 2 * ((r.MemoryBytes : ℚ) / (n.Description.MemoryBytes : ℚ)) →
        F64.lt (P (lessReservation n r)) (P n) = true) := by
  have e1 := P_eq_rounded n hc hm i1 i2 i3 i4
  have e2 := P_eq_rounded (lessReservation n r) hc hm i1 i2 i5 i6
  rw [e1, e2]
  simp only [F64.le, F64.lt, decide_eq_true_eq]
  refine ⟨roundedP_mono (lessReservation n r) n rfl hc hm ?_ ?_, ?_⟩
  · show n.AvailableResources.NanoCPUs - r.NanoCPUs ≤ n.AvailableResources.NanoCPUs
    omega
  · show n.AvailableResources.MemoryBytes - r.MemoryBytes ≤ n.AvailableResources.MemoryBytes
    omega
  · intro c0 c1 m0 m1 hbig
    obtain ⟨-, -, pe⟩ := roundedP_spec n hc hm i1 i2 (by omega) c1 (by omega) m1
    obtain ⟨-, -, pe'⟩ := roundedP_spec (lessReservation n r) hc hm i1 i2 c0
      (show n.AvailableResources.NanoCPUs - r.NanoCPUs ≤ n.Description.NanoCPUs by omega) m0
      (show n.AvailableResources.MemoryBytes - r.MemoryBytes ≤ n.Description.MemoryBytes by omega)
    have hd : exactP n - exactP (lessReservation n r)
        = 1 / 2 * ((r.NanoCPUs : ℚ) / (n.Description.NanoCPUs : ℚ))
          + 1 / 2 * ((r.MemoryBytes : ℚ) / (n.Description.MemoryBytes : ℚ)) := by
      simp only [exactP, lessReservation, Int.cast_sub]
      ring
    have e49 : F64.pow2 (-49) = 2 * F64.pow2 (-50) := by
      rw [show (-49 : Int) = 1 + -50 by norm_num, pow2_add]
      have : F64.pow2 1 = 2 := by rw [pow2_eq]; norm_num
      rw [this]
    rw [abs_le] at pe pe'
    linarith [pe.1, pe'.2]

/-- C11 (amended). For a node with positive totals and a reservation with
non-negative memory and CPU (all values, the differences included, `int64`),
`P` of the node with the reservation subtracted from its available resources is
at most `P` of the node, also for the debit the program makes; it is strictly
smaller when the available resources stay within `[0, total]` and the
reservation takes more than `2^-49` of the value of the formula
(`0.5 * reserved CPU / total CPU + 0.5 * reserved memory / total memory`), and
need not be otherwise. -/
theorem P_debit_monotone (n : NodeInfo) (task : Task)
    (hc : 0 < n.Description.NanoCPUs) (hm : 0 < n.Description.MemoryBytes)
    (i1 : isInt64 n.Description.NanoCPUs) (i2 : isInt64 n.Description.MemoryBytes)
    (i3 : isInt64 n.AvailableResources.NanoCPUs) (i4 : isInt64 n.AvailableResources.MemoryBytes)
    (i5 : isInt64 (n.AvailableResources.NanoCPUs - task.Reservations.NanoCPUs))
    (i6 : isInt64 (n.AvailableResources.MemoryBytes - task.Reservations.MemoryBytes))
    (hrm : 0 ≤ task.Reservations.MemoryBytes) (hrc : 0 ≤ task.Reservations.NanoCPUs) :
    F64.le (P (lessReservation n task.Reservations)) (P n) = true ∧
      F64.le (P (debit n task)) (P n) = true ∧
      (0 ≤ n.AvailableResources.NanoCPUs - task.Reservations.NanoCPUs →
        n.AvailableResources.NanoCPUs ≤ n.Description.NanoCPUs →
        0 ≤ n.AvailableResources.MemoryBytes - task.Reservations.MemoryBytes →
        n.AvailableResources.MemoryBytes ≤ n.Description.MemoryBytes →
        F64.pow2 (-49)
          < 1 / 2 * ((task.Reservations.NanoCPUs : ℚ) / (n.Description.NanoCPUs : ℚ))
            + 1 / 2 * ((task.Reservations.MemoryBytes : ℚ) / (n.Description.MemoryBytes : ℚ)) →
        F64.lt (P (debit n task)) (P n) = true) := by
  obtain ⟨h1, h2⟩ := P_lessReservation_le n task.Reservations hc hm i1 i2 i3 i4 i5 i6 hrm hrc
  rw [debit_eq_lessReservation n task i6 i5]
  exact ⟨h1, h1, h2⟩

/-- C11 (witness). A node of 512 MB and two cores, idle, and a task of 128 MB
and a quarter of a core. -/
theorem P_debit_monotone_witness :
    F64.lt (P (debit ⟨⟨512 * MB, 2 * CORE⟩, ⟨512 * MB, 2 * CORE⟩⟩ ⟨⟨128 * MB, 250000000⟩⟩))
      (P ⟨⟨512 * MB, 2 * CORE⟩, ⟨512 * MB, 2 * CORE⟩⟩) = true :=
  (P_debit_monotone ⟨⟨512 * MB, 2 * CORE⟩, ⟨512 * MB, 2 * CORE⟩⟩ ⟨⟨128 * MB, 250000000⟩⟩
    (by decide) (by decide) (by decide) (by decide) (by decide) (by decide) (by decide)
    (by decide) (by decide) (by decide)).2.2 (by decide) (by decide) (by decide) (by decide)
    (by decide!)

/-! ## `pick` -/

/-- The loop of `pick`: the first index whose accumulated total reaches the
draw, `0` when there is none. -/
theorem pickLoop_spec (p : F64) (items : List F64) :
    ∀ (i : Nat) (c : F64),
      (∀ k < items.length, F64.le p ((items.take (k + 1)).foldl F64.add c) = true →
        (∀ j < k, F64.le p ((items.take (j + 1)).foldl F64.add c) = false) →
        pickLoop p items i c = (i + k : Nat)) ∧
      ((∀ k < items.length, F64.le p ((items.take (k + 1)).foldl F64.add c) = false) →
        pickLoop p items i c = 0) := by
  induction items with
  | nil =>
    intro i c
    exact ⟨fun k hk => absurd hk (by simp), fun _ => rfl⟩
  | cons x xs ih =>
    intro i c
    obtain ⟨ih1, ih2⟩ := ih (i + 1) (F64.add c x)
    constructor
    · intro k hk hle hleast
      simp only [pickLoop]
      cases k with
      | zero =>
        have : F64.le p (F64.add c x) = true := by simpa using hle
        rw [if_pos this]
        simp
      | succ k =>
        have h0 := hleast 0 (by omega)
        have h0' : F64.le p (F64.add c x) = false := by simpa using h0
        rw [if_neg (by rw [h0']; simp)]
        have := ih1 k (by simpa using hk) (by simpa using hle)
          (fun j hj => by simpa using hleast (j + 1) (by omega))
        rw [this]; congr 1; omega
    · intro hnone
      simp only [pickLoop]
      have h0 := hnone 0 (by simp)
      have h0' : F64.le p (F64.add c x) = false := by simpa using h0
      rw [if_neg (by rw [h0']; simp)]
      apply ih2
      intro k hk
      simpa using hnone (k + 1) (by simpa using hk)

theorem floatTotal_succ (w : List F64) (i : Nat) (hi : i + 1 < w.length) :
    floatTotal w (i + 1) = F64.add (floatTotal w i) (w.get ⟨i + 1, hi⟩) := by
  unfold floatTotal
  rw [List.take_succ, List.foldl_append, List.getElem?_eq_getElem hi]
  rfl

/-- One addition of a non-negative weight to a total that is `+Inf` or a
non-negative `float64`: the new total is of the same kind and not smaller. -/
theorem add_nonneg_step (c : F64) (x : ℚ) (hx : 0 ≤ x)
    (hc : c = F64.pinf ∨ ∃ q, c = F64.fin q ∧ 0 ≤ q ∧ F64.rnd q = q) :
    (F64.add c (F64.fin x) = F64.pinf ∨
        ∃ q, F64.add c (F64.fin x) = F64.fin q ∧ 0 ≤ q ∧ F64.rnd q = q) ∧
      F64.le c (F64.add c (F64.fin x)) = true := by
  rcases hc with rfl | ⟨q, rfl, hq0, hq⟩
  · exact ⟨Or.inl rfl, rfl⟩
  · have hr0 : 0 ≤ F64.rnd (q + x) := rnd_nonneg (by linarith)
    have hmono : q ≤ F64.rnd (q + x) := by
      have := rnd_mono (show q ≤ q + x by linarith)
      rwa [hq] at this
    have hp := pow2_pos 1024
    simp only [F64.add, F64.round]
    by_cases h1 : F64.pow2 1024 ≤ F64.rnd (q + x)
    · rw [if_pos h1]
      exact ⟨Or.inl rfl, rfl⟩
    · rw [if_neg h1, if_neg (by linarith)]
      exact ⟨Or.inr ⟨_, rfl, hr0, rnd_idem _⟩, by simp [F64.le, hmono]⟩

/-- The totals of non-negative weights: `+Inf` or a non-negative `float64`,
and non-decreasing. -/
theorem floatTotal_nonneg (w : List ℚ) (hw : ∀ x ∈ w, 0 ≤ x) :
    ∀ i, i < w.length →
      (floatTotal (w.map F64.fin) i = F64.pinf ∨
        ∃ q, floatTotal (w.map F64.fin) i = F64.fin q ∧ 0 ≤ q ∧ F64.rnd q = q) ∧
      (0 < i → F64.le (floatTotal (w.map F64.fin) (i - 1)) (floatTotal (w.map F64.fin) i)
        = true) := by
  intro i
  induction i with
  | zero =>
    intro hi
    refine ⟨?_, fun h => absurd h (by omega)⟩
    cases w with
    | nil => exact absurd hi (by simp)
    | cons x xs =>
      have := add_nonneg_step F64.zero x (hw x (List.mem_cons_self _ _))
        (Or.inr ⟨0, rfl, le_refl _, rnd_zero⟩)
      simpa [floatTotal] using this.1
  | succ i ih =>
    intro hi
    obtain ⟨h1, -⟩ := ih (by omega)
    have hlen : i + 1 < (w.map F64.fin).length := by simpa using hi
    have hget : (w.map F64.fin).get ⟨i + 1, hlen⟩ = F64.fin (w.get ⟨i + 1, hi⟩) := by
      simp
    have hx : 0 ≤ w.get ⟨i + 1, hi⟩ := hw _ (List.get_mem _ _ _)
    have := add_nonneg_step _ _ hx h1
    rw [← hget, ← floatTotal_succ _ _ hlen] at this
    exact ⟨this.1, fun _ => by simpa using this.2⟩

theorem F64_le_trans {a b c : F64} (h1 : F64.le a b = true) (h2 : F64.le b c = true) :
    F64.le a c = true := by
  cases a <;> cases b <;> cases c <;> simp_all [F64.le]
  exact le_trans h1 h2

theorem floatTotal_mono (w : List ℚ) (hw : ∀ x ∈ w, 0 ≤ x) (j k : Nat) (hjk : j ≤ k)
    (hk : k < w.length) :
    F64.le (floatTotal (w.map F64.fin) j) (floatTotal (w.map F64.fin) k) = true := by
  induction k with
  | zero =>
    have : j = 0 := by omega
    subst this
    rcases (floatTotal_nonneg w hw 0 hk).1 with h | ⟨q, h, -, -⟩ <;> rw [h] <;> simp [F64.le]
  | succ k ih =>
    rcases Nat.lt_or_ge j (k + 1) with hlt | hge
    · exact F64_le_trans (ih (by omega) (by omega))
        (by simpa using (floatTotal_nonneg w hw (k + 1) hk).2 (by omega))
    · have : j = k + 1 := by omega
      subst this
      rcases (floatTotal_nonneg w hw (k + 1) hk).1 with h | ⟨q, h, -, -⟩ <;> rw [h] <;>
        simp [F64.le]

theorem floatTotal_ne_nan (w : List ℚ) (hw : ∀ x ∈ w, 0 ≤ x) (i : Nat) (hi : i < w.length) :
    floatTotal (w.map F64.fin) i ≠ F64.nan := by
  rcases (floatTotal_nonneg w hw i hi).1 with h | ⟨q, h, -, -⟩ <;> rw [h] <;> simp

/-- C14 (counterexample). The weights `0.1` and `0.2` and the draw
`0.30000000000000004` (the `float64` sum of the two weights): both running
totals `w[0]` and `w[0] + w[1]` are below the draw, so no index qualifies, and
`pick` returns `1`, not `0`, because its accumulated total `0.1 + 0.2` is the
rounded sum. -/
theorem pick_rounded_total :
    runningTotal [3602879701896397 / 36028797018963968, 3602879701896397 / 18014398509481984] 0
      < 1351079888211149 / 4503599627370496 ∧
    runningTotal [3602879701896397 / 36028797018963968, 3602879701896397 / 18014398509481984] 1
      < 1351079888211149 / 4503599627370496 ∧
    floatTotal [F64.fin (3602879701896397 / 36028797018963968),
        F64.fin (3602879701896397 / 18014398509481984)] 1
      = F64.fin (1351079888211149 / 4503599627370496) ∧
    (pick [F64.fin (3602879701896397 / 36028797018963968),
        F64.fin (3602879701896397 / 18014398509481984)]
      (constRand (1351079888211149 / 4503599627370496) (by norm_num))).1 = 1 := by
  decide!

/-- C14 (amended). For non-negative weights and a draw `r`, `pick` returns the
smallest index `i` whose accumulated total reaches `r`, where the total is the
one the program accumulates: the `float64` sum `w[0] + ... + w[i]`, every
addition rounded; it returns `0` when no index qualifies. These totals are
non-decreasing, so `pick` returns an index `i ≥ 1` exactly when `r` lies in the
interval `(total(i-1), total(i)]`, and `0` exactly when `r ≤ total(0)` or no
total reaches `r`. -/
theorem pick_interval (w : List ℚ) (g : Rand) (hw : ∀ x ∈ w, 0 ≤ x) :
    (∀ k < w.length, F64.le (F64.fin (g.floats g.fpos)) (floatTotal (w.map F64.fin) k) = true →
      (∀ j < k, F64.le (F64.fin (g.floats g.fpos)) (floatTotal (w.map F64.fin) j) = false) →
      (pick (w.map F64.fin) g).1 = (k : Int)) ∧
    ((∀ k < w.length,
        F64.le (F64.fin (g.floats g.fpos)) (floatTotal (w.map F64.fin) k) = false) →
      (pick (w.map F64.fin) g).1 = 0) ∧
    (∀ j k, j ≤ k → k < w.length →
      F64.le (floatTotal (w.map F64.fin) j) (floatTotal (w.map F64.fin) k) = true) ∧
    (∀ i, 0 < i → i < w.length →
      ((pick (w.map F64.fin) g).1 = (i : Int) ↔
        F64.lt (floatTotal (w.map F64.fin) (i - 1)) (F64.fin (g.floats g.fpos)) = true ∧
          F64.le (F64.fin (g.floats g.fpos)) (floatTotal (w.map F64.fin) i) = true)) ∧
    ((pick (w.map F64.fin) g).1 = 0 ↔
      (0 < w.length ∧
          F64.le (F64.fin (g.floats g.fpos)) (floatTotal (w.map F64.fin) 0) = true) ∨
        ∀ k < w.length,
          F64.le (F64.fin (g.floats g.fpos)) (floatTotal (w.map F64.fin) k) = false) := by
  obtain ⟨s1, s2⟩ := pickLoop_spec (F64.fin (g.floats g.fpos)) (w.map F64.fin) 0 F64.zero
  have p1 : ∀ k < w.length,
      F64.le (F64.fin (g.floats g.fpos)) (floatTotal (w.map F64.fin) k) = true →
      (∀ j < k, F64.le (F64.fin (g.floats g.fpos)) (floatTotal (w.map F64.fin) j) = false) →
      (pick (w.map F64.fin) g).1 = (k : Int) := by
    intro k hk hle hleast
    have := s1 k (by simpa using hk) hle hleast
    simpa [pick, Rand.Float64] using this
  have p2 : (∀ k < w.length,
        F64.le (F64.fin (g.floats g.fpos)) (floatTotal (w.map F64.fin) k) = false) →
      (pick (w.map F64.fin) g).1 = 0 := by
    intro hnone
    have := s2 (fun k hk => hnone k (by simpa using hk))
    simpa [pick, Rand.Float64] using this
  -- the index `pick` returns, by cases on whether some total reaches the draw
  have hcases : (∃ k, k < w.length ∧
        F64.le (F64.fin (g.floats g.fpos)) (floatTotal (w.map F64.fin) k) = true ∧
        (∀ j < k, F64.le (F64.fin (g.floats g.fpos)) (floatTotal (w.map F64.fin) j) = false) ∧
        (pick (w.map F64.fin) g).1 = (k : Int)) ∨
      ((∀ k < w.length,
          F64.le (F64.fin (g.floats g.fpos)) (floatTotal (w.map F64.fin) k) = false) ∧
        (pick (w.map F64.fin) g).1 = 0) := by
    by_cases hex : ∃ k, k < w.length ∧
        F64.le (F64.fin (g.floats g.fpos)) (floatTotal (w.map F64.fin) k) = true
    · left
      have hfind := Nat.find_spec hex
      have hmin : ∀ j < Nat.find hex,
          F64.le (F64.fin (g.floats g.fpos)) (floatTotal (w.map F64.fin) j) = false := by
        intro j hj
        have := Nat.find_min hex hj
        simp only [not_and, Bool.not_eq_true] at this
        exact this (by omega)
      exact ⟨_, hfind.1, hfind.2, hmin, p1 _ hfind.1 hfind.2 hmin⟩
    · right
      have hnone : ∀ k < w.length,
          F64.le (F64.fin (g.floats g.fpos)) (floatTotal (w.map F64.fin) k) = false := by
        intro k hk
        by_contra hc
        exact hex ⟨k, hk, by simpa using hc⟩
      exact ⟨hnone, p2 hnone⟩
  have hr : F64.fin (g.floats g.fpos) ≠ F64.nan := by simp
  refine ⟨p1, p2, floatTotal_mono w hw, ?_, ?_⟩
  · intro i hi0 hi
    constructor
    · intro hpi
      rcases hcases with ⟨k, hk, hle, hleast, hpk⟩ | ⟨-, hp0⟩
      · have hik : i = k := by rw [hpk] at hpi; exact_mod_cast hpi.symm
        subst hik
        refine ⟨?_, hle⟩
        have := hleast (i - 1) (by omega)
        have hne := floatTotal_ne_nan w hw (i - 1) (by omega)
        cases hlt : F64.lt (floatTotal (w.map F64.fin) (i - 1)) (F64.fin (g.floats g.fpos)) with
        | true => rfl
        | false =>
          rw [(F64_not_lt_iff_le hne hr).1 hlt] at this
          exact absurd this (by simp)
      · rw [hp0] at hpi
        have : (i : Int) = 0 := hpi.symm
        omega
    · rintro ⟨hlo, hhi⟩
      apply p1 i hi hhi
      intro j hj
      have hmono := floatTotal_mono w hw j (i - 1) (by omega) (by omega)
      have hlt := F64_lt_of_le_of_lt hmono hlo
      cases hle : F64.le (F64.fin (g.floats g.fpos)) (floatTotal (w.map F64.fin) j) with
      | false => rfl
      | true =>
        rw [F64_not_lt_of_le hle] at hlt
        exact absurd hlt (by simp)
  · constructor
    · intro hp0
      rcases hcases with ⟨k, hk, hle, hleast, hpk⟩ | ⟨hnone, -⟩
      · have hk0 : k = 0 := by rw [hpk] at hp0; exact_mod_cast hp0
        subst hk0
        exact Or.inl ⟨hk, hle⟩
      · exact Or.inr hnone
    · rintro (⟨h0, hle⟩ | hnone)
      · have := p1 0 h0 hle (fun j hj => absurd hj (by omega))
        simpa using this
      · exact p2 hnone

/-- C14 (witness). The weights `0.3` and `0.7` and the draw `0.5`. -/
theorem pick_interval_witness :
    (pick ([3 / 10, 7 / 10].map F64.fin) (constRand (1 / 2) (by norm_num))).1 = 1 := by
  have h := (pick_interval [3 / 10, 7 / 10] (constRand (1 / 2) (by norm_num))
    (by intro x hx; simp at hx; rcases hx with h | h <;> rw [h] <;> norm_num)).1 1 (by simp)
    (by decide!)
    (by
      intro j hj
      interval_cases j
      decide!)
  exact_mod_cast h

/-! ## The candidate scan and the order of the nodes -/

/-- The weight vector `ph` of a scan over a permutation of the node indices:
entry `k` is `0` when the task does not fit node `k` and the weight of node `k`
otherwise. -/
theorem scan_ph_eq (env : Env) (config : Config) (TAU : DenseMatrix) (nodes : List NodeInfo)
    (task_idx : Nat) (task : Task) (l : List Nat) (h : l.Perm (List.range nodes.length)) :
    (scan env config TAU nodes l task_idx task).1
      = (List.range nodes.length).map (fun k =>
          if taskFitsNode task (nodes.getD k default) = true then
            F64.mul (env.pow (TAU.Get task_idx k) config.Alpha)
              (env.pow (P (debit (nodes.getD k default) task)) config.Beta)
          else F64.zero) := by
  apply List.ext_getElem?
  intro k
  have hlen := scan_length env config TAU nodes l task_idx task
  by_cases hk : k < nodes.length
  · have hg := scan_getD env config TAU nodes l task_idx task
      (fun i hi => List.mem_range.1 (h.mem_iff.1 hi)) k (h.mem_iff.2 (List.mem_range.2 hk))
    rw [List.getD_eq_getElem?_getD, List.getElem?_eq_getElem (by omega)] at hg
    simp only [Option.getD_some] at hg
    rw [List.getElem?_eq_getElem (by omega), hg, List.getElem?_eq_getElem (by simpa using hk)]
    simp
  · rw [List.getElem?_eq_none (by omega), List.getElem?_eq_none (by simp; omega)]

/-- C22 (counterexample). The three nodes `unevenNodes` (1536 MB and four
cores each, with (312 MB, 2 cores), (384 MB, 1.5 cores) and (792 MB, 0.75 core)
available), a task of 128 MB and a quarter of a core, the matrix of the
pre-fill: the scans in the
orders 0, 1, 2 and 2, 0, 1 compute the same `ph` and two different `ph_sum`
(the additions are rounded in a different order), and `arg_max(p)` is `0` in
the first order and `2` in the second, so the ant that exploits places the task
on node 0 or on node 2 according to the shuffle. -/
theorem scan_order_dependent :
    (scan runEnv (testConfig 1) (antOn 1 unevenNodes (constRand (1 / 2) (by norm_num))).TAU
        unevenNodes [0, 1, 2] 0 ⟨⟨128 * MB, 250000000⟩⟩).1
      = (scan runEnv (testConfig 1) (antOn 1 unevenNodes (constRand (1 / 2) (by norm_num))).TAU
        unevenNodes [2, 0, 1] 0 ⟨⟨128 * MB, 250000000⟩⟩).1 ∧
    (scan runEnv (testConfig 1) (antOn 1 unevenNodes (constRand (1 / 2) (by norm_num))).TAU
        unevenNodes [0, 1, 2] 0 ⟨⟨128 * MB, 250000000⟩⟩).2
      ≠ (scan runEnv (testConfig 1) (antOn 1 unevenNodes (constRand (1 / 2) (by norm_num))).TAU
        unevenNodes [2, 0, 1] 0 ⟨⟨128 * MB, 250000000⟩⟩).2 ∧
    arg_max (probs (scan runEnv (testConfig 1)
        (antOn 1 unevenNodes (constRand (1 / 2) (by norm_num))).TAU
        unevenNodes [0, 1, 2] 0 ⟨⟨128 * MB, 250000000⟩⟩)) = 0 ∧
    arg_max (probs (scan runEnv (testConfig 1)
        (antOn 1 unevenNodes (constRand (1 / 2) (by norm_num))).TAU
        unevenNodes [2, 0, 1] 0 ⟨⟨128 * MB, 250000000⟩⟩)) = 2 ∧
    (taskStep runEnv (testConfig 1) [0, 1, 2] 1
        (antOn 1 unevenNodes (constRand (1 / 2) (by norm_num)))
        0 ⟨⟨128 * MB, 250000000⟩⟩).plan.take 1 = [0] ∧
    (taskStep runEnv (testConfig 1) [2, 0, 1] 1
        (antOn 1 unevenNodes (constRand (1 / 2) (by norm_num)))
        0 ⟨⟨128 * MB, 250000000⟩⟩).plan.take 1 = [2] := by
  decide!

/-- C22 (amended). For a fixed matrix and node vector, the weight vector `ph`
of the scan is the same for every permutation of the node indices (entry `k`
is `0` when the task does not fit node `k` and
`tau[task_idx, k]^Alpha * P(node k less the task)^Beta` otherwise), also for
the results of `shuffleInts` on two random sources, and the scan leaves the
node vector unchanged (after the step it differs from the one before the scan
only by the commit to the chosen node). The sum `ph_sum` is accumulated in the
order of the permutation with every addition rounded, so `ph_sum`, `p` and
`arg_max(p)` may differ between two orders; whenever two orders give the same
`ph_sum`, they give the same `p`, the same `arg_max(p)` and the same state
after the step. -/
theorem scan_order_independent (env : Env) (config : Config) (T : Nat) (st : AntState)
    (task_idx : Nat) (task : Task) (l1 l2 : List Nat)
    (h1 : l1.Perm (List.range st.nodes.length)) (h2 : l2.Perm (List.range st.nodes.length)) :
    (scan env config st.TAU st.nodes l1 task_idx task).1
      = (scan env config st.TAU st.nodes l2 task_idx task).1 ∧
    (∀ k < st.nodes.length,
      (scan env config st.TAU st.nodes l1 task_idx task).1.getD k F64.zero
        = if taskFitsNode task (st.nodes.getD k default) = true then
            F64.mul (env.pow (st.TAU.Get task_idx k) config.Alpha)
              (env.pow (P (debit (st.nodes.getD k default) task)) config.Beta)
          else F64.zero) ∧
    (∀ g1 g2 : Rand,
      (scan env config st.TAU st.nodes (shuffleInts (List.range st.nodes.length) g1).1
          task_idx task).1
        = (scan env config st.TAU st.nodes (shuffleInts (List.range st.nodes.length) g2).1
          task_idx task).1) ∧
    ((scan env config st.TAU st.nodes l1 task_idx task).2
        = (scan env config st.TAU st.nodes l2 task_idx task).2 →
      probs (scan env config st.TAU st.nodes l1 task_idx task)
          = probs (scan env config st.TAU st.nodes l2 task_idx task) ∧
        arg_max (probs (scan env config st.TAU st.nodes l1 task_idx task))
          = arg_max (probs (scan env config st.TAU st.nodes l2 task_idx task)) ∧
        taskStep env config l1 T st task_idx task
          = taskStep env config l2 T st task_idx task) ∧
    (taskStep env config l1 T st task_idx task).nodes
      = if (decide_j config (probs (scan env config st.TAU st.nodes l1 task_idx task))
            st.rng).1 < 0 then st.nodes
        else st.nodes.set
          (decide_j config (probs (scan env config st.TAU st.nodes l1 task_idx task))
            st.rng).1.toNat
          (debit (st.nodes.getD
            (decide_j config (probs (scan env config st.TAU st.nodes l1 task_idx task))
              st.rng).1.toNat default) task) := by
  have hph : (scan env config st.TAU st.nodes l1 task_idx task).1
      = (scan env config st.TAU st.nodes l2 task_idx task).1 := by
    rw [scan_ph_eq env config st.TAU st.nodes task_idx task l1 h1,
      scan_ph_eq env config st.TAU st.nodes task_idx task l2 h2]
  refine ⟨hph, ?_, ?_, ?_, taskStep_nodes env config l1 T st task_idx task⟩
  · intro k hk
    exact scan_getD env config st.TAU st.nodes l1 task_idx task
      (fun i hi => List.mem_range.1 (h1.mem_iff.1 hi)) k
      (h1.mem_iff.2 (List.mem_range.2 hk))
  · intro g1 g2
    rw [scan_ph_eq env config st.TAU st.nodes task_idx task _ (shuffleInts_spec _ g1).1,
      scan_ph_eq env config st.TAU st.nodes task_idx task _ (shuffleInts_spec _ g2).1]
  · intro hsum
    have hs : scan env config st.TAU st.nodes l1 task_idx task
        = scan env config st.TAU st.nodes l2 task_idx task := Prod.ext hph hsum
    refine ⟨by rw [hs], by rw [hs], ?_⟩
    unfold taskStep
    rw [hs]

/-- C22 (witness). The scan of three idle nodes of 1024 MB and four cores for a
task of 128 MB and a quarter of a core, in the orders 2, 0, 1 and 0, 1, 2. -/
theorem scan_order_independent_witness :
    List.Perm [2, 0, 1]
      (List.range
        (idleAnt 1 3 (1024 * MB) (4 * CORE) (constRand (1 / 2) (by norm_num))).nodes.length) ∧
    List.Perm [0, 1, 2]
      (List.range
        (idleAnt 1 3 (1024 * MB) (4 * CORE) (constRand (1 / 2) (by norm_num))).nodes.length) ∧
    (scan runEnv (testConfig 1)
        (idleAnt 1 3 (1024 * MB) (4 * CORE) (constRand (1 / 2) (by norm_num))).TAU
        (idleAnt 1 3 (1024 * MB) (4 * CORE) (constRand (1 / 2) (by norm_num))).nodes
        [2, 0, 1] 0 ⟨⟨128 * MB, 250000000⟩⟩).1
      = (scan runEnv (testConfig 1)
        (idleAnt 1 3 (1024 * MB) (4 * CORE) (constRand (1 / 2) (by norm_num))).TAU
        (idleAnt 1 3 (1024 * MB) (4 * CORE) (constRand (1 / 2) (by norm_num))).nodes
        [0, 1, 2] 0 ⟨⟨128 * MB, 250000000⟩⟩).1 :=
  ⟨by decide, by decide,
    (scan_order_independent runEnv (testConfig 1) 1
      (idleAnt 1 3 (1024 * MB) (4 * CORE) (constRand (1 / 2) (by norm_num))) 0
      ⟨⟨128 * MB, 250000000⟩⟩ [2, 0, 1] [0, 1, 2] (by decide) (by decide)).1⟩

end Scheduler
